import Mathlib

/-!
Verification of `mkchal` (src/mkchal/mkchal.py), a one-shot CTF challenge
scaffolder.  The development shallowly embeds the program:

* the `Challenge` dataclass and the `Type` enum (named `ChalType` here since
  `Type` is reserved in Lean);
* POSIX paths as produced by `pathlib.PurePosixPath` (`PyPath`), including the
  normalization `pathlib` applies (collapsing `//`, dropping `.` components);
* the filesystem as explicit state (`FS`): a set of directories plus an
  association list of files, threaded through every step of
  `create_challenge`;
* Python `str.format` / `string.Formatter().parse` on the subset exercised by
  the program (plain `\x7bkey\x7d` replacement fields; `\x7b\x7b`/`\x7d\x7d`
  escapes; field/spec/conversion splitting; `KeyError` on a missing key and
  `ValueError` on malformed templates).  Replacement fields carrying a
  conversion or a nonempty format spec are rejected by the model
  (`Err.unsupportedFormat`); the program's fixed substitution table only
  supplies plain strings, and no claim depends on such fields;
* `json.dumps(..., indent=4, sort_keys=True)` including `ensure_ascii`
  escaping, and a character-level parser for the texts it produces;
* `git.Repo(path, search_parent_directories=True)` as an upward search for a
  version-control marker (`getRepoFrom`), per spec section 4.2;
* the argparse surface of `main` at the level of the supplied flag values
  (`RawArgs`), with the validation argparse performs (required flags, the
  `type`/`difficulty` choice sets, `int` conversion of every `ports` token).

Errors are Python exceptions: each `RunResult.err` carries the filesystem
state at the moment the exception is raised, so partially written trees are
observable.
-/

/-- Challenge type enumeration (`class Type(str, Enum)` in the source). -/
inductive ChalType where
  | rev
  | pwn
  | crypto
  | web
  | misc
deriving DecidableEq, Repr

/-- The string value of a challenge type, as serialized by `json.dumps` and
used for the default category directory. -/
def ChalType.value : ChalType → String
  | .rev => "rev"
  | .pwn => "pwn"
  | .crypto => "crypto"
  | .web => "web"
  | .misc => "misc"

/-- The `Challenge` dataclass: the central record of the program. -/
structure Challenge where
  type : ChalType
  name : String
  author : String
  description : String
  difficulty : String
  flag : String
  provides : List String
  ports : List Int
  remote : Option (List String)
  target : Option String
deriving DecidableEq, Repr

/-- A POSIX path as modelled by `pathlib.PurePosixPath`: an absolute flag and
a list of components. -/
structure PyPath where
  isAbs : Bool
  comps : List String
deriving DecidableEq, Repr

/-- Split a character list on a separator character. -/
def splitOnChar (sep : Char) : List Char → List (List Char)
  | [] => [[]]
  | c :: rest =>
    if c = sep then [] :: splitOnChar sep rest
    else
      match splitOnChar sep rest with
      | [] => [[c]]
      | g :: gs => (c :: g) :: gs

/-- Split a character list on `/` separators. -/
def splitSlash : List Char → List (List Char) := splitOnChar '/'

/-- `pathlib` string-to-path conversion: empty and `.` components vanish,
a leading slash makes the path absolute. -/
def parsePyPath (s : String) : PyPath :=
  ⟨s.data.head? == some '/',
   (splitSlash s.data).filterMap fun g =>
     if g.isEmpty || g = ['.'] then none else some (String.mk g)⟩

/-- `pathlib` `/` join: an absolute right operand replaces the left one. -/
def pyJoin (p : PyPath) (s : String) : PyPath :=
  let q := parsePyPath s
  if q.isAbs then q else ⟨p.isAbs, p.comps ++ q.comps⟩

/-- `str()` of a path. -/
def pathStr (p : PyPath) : String :=
  if p.isAbs then "/" ++ String.intercalate "/" p.comps
  else if p.comps.isEmpty then "." else String.intercalate "/" p.comps

/-- `Path.parent`. -/
def PyPath.parent (p : PyPath) : PyPath := ⟨p.isAbs, p.comps.dropLast⟩

/-- The nonempty prefixes of a path, shortest first: the chain of directories
`mkdir(parents=True)` walks. -/
def PyPath.ancestorsUp (p : PyPath) : List PyPath :=
  (List.range p.comps.length).map fun n => ⟨p.isAbs, p.comps.take (n + 1)⟩

/-- The filesystem: directories and files (an association list from path to
contents, most recent write first). -/
structure FS where
  dirs : List PyPath
  files : List (PyPath × String)
deriving DecidableEq, Repr

/-- Contents of the file at `p`, if any. -/
def FS.lookup (fs : FS) (p : PyPath) : Option String :=
  (fs.files.find? fun e => e.1 == p).map (·.2)

/-- Is `p` a directory?  The filesystem root and the working directory
(empty component lists) always exist. -/
def FS.isDirB (fs : FS) (p : PyPath) : Bool :=
  p.comps.isEmpty || fs.dirs.contains p

/-- Is `p` a file? -/
def FS.isFileB (fs : FS) (p : PyPath) : Bool :=
  fs.files.any fun e => e.1 == p

/-- `Path.exists()`. -/
def FS.existsB (fs : FS) (p : PyPath) : Bool :=
  fs.isDirB p || fs.isFileB p

/-- Python exceptions that the embedded code can raise. -/
inductive Err where
  | notARepo
  | fileExists
  | noParentDir
  | isADirectory
  | keyError (key : String)
  | indexOutOfRange
  | valueError
  | unsupportedFormat
deriving DecidableEq, Repr

/-- Outcome of a side-effecting run: success, or an exception together with
the filesystem state at the moment it was raised. -/
inductive RunResult where
  | ok (fs : FS)
  | err (e : Err) (fs : FS)
deriving DecidableEq, Repr

/-- Did the run finish without an exception? -/
def RunResult.isOk : RunResult → Bool
  | .ok _ => true
  | .err _ _ => false

/-- The filesystem state a run left behind. -/
def RunResult.fsOf : RunResult → FS
  | .ok fs => fs
  | .err _ fs => fs

/-- The exception a run raised, if any. -/
def RunResult.errOf : RunResult → Option Err
  | .ok _ => none
  | .err e _ => some e

/-- Record a directory. -/
def FS.addDir (fs : FS) (p : PyPath) : FS := ⟨p :: fs.dirs, fs.files⟩

/-- Record a file write (shadowing any previous contents). -/
def FS.put (fs : FS) (p : PyPath) (s : String) : FS := ⟨fs.dirs, (p, s) :: fs.files⟩

/-- `Path.mkdir()` without `parents`: `FileExistsError` if the path exists,
`FileNotFoundError` if the parent directory is missing. -/
def FS.mkdirStrict (fs : FS) (p : PyPath) : Except Err FS :=
  if fs.existsB p then .error .fileExists
  else if fs.isDirB p.parent then .ok (fs.addDir p)
  else .error .noParentDir

/-- `open(p, "w")`: truncates/creates the file; fails on a directory or a
missing parent. -/
def FS.openW (fs : FS) (p : PyPath) : Except Err FS :=
  if fs.dirs.contains p then .error .isADirectory
  else if fs.isDirB p.parent then .ok (fs.put p "")
  else .error .noParentDir

/-- `open(p, "w").write(s)` in one step. -/
def FS.write (fs : FS) (p : PyPath) (s : String) : Except Err FS :=
  (fs.openW p).map fun fs1 => fs1.put p s

/-- `Path.mkdir(parents=True)` walking the ancestor chain: existing
directories are kept, a file in the chain raises. -/
def mkdirParentsRun (fs : FS) : List PyPath → RunResult
  | [] => .ok fs
  | q :: qs =>
    if fs.isFileB q then .err .fileExists fs
    else if fs.dirs.contains q then mkdirParentsRun fs qs
    else mkdirParentsRun (fs.addDir q) qs

/-- Sequencing of side-effecting steps; an exception aborts the run. -/
def andThen (r : RunResult) (k : FS → RunResult) : RunResult :=
  match r with
  | .ok fs => k fs
  | .err e fs => .err e fs

/-- Lift a stateless-on-failure step into a run. -/
def liftE (fs : FS) (x : Except Err FS) : RunResult :=
  match x with
  | .ok f => .ok f
  | .error e => .err e fs

/-- One token of a format string, as yielded by
`string.Formatter().parse`: a literal character, or a replacement field
with its name, format spec and conversion. -/
inductive FmtItem where
  | lit (c : Char)
  | field (name : String) (spec : List Char) (conv : Option Char)
deriving DecidableEq, Repr

/-- Scanner state while walking a format string. -/
inductive FmtMode where
  | lit
  | afterClose
  | afterOpen
  | name (acc : List Char)
  | conv (nm : List Char)
  | afterConv (nm : List Char) (cv : Char)
  | spec (nm : List Char) (cv : Option Char) (depth : Nat) (acc : List Char)
deriving DecidableEq, Repr

/-- One character step of the scanner: the items to emit and the next
state, or `none` on a `ValueError`. `nameStep` handles a field-name
character. -/
def nameStep (acc : List Char) (ch : Char) : Option (List FmtItem × FmtMode) :=
  if ch = '\x7d' then some ([.field (String.mk acc.reverse) [] none], .lit)
  else if ch = ':' then some ([], .spec acc none 0 [])
  else if ch = '!' then some ([], .conv acc)
  else if ch = '\x7b' then none
  else some ([], .name (ch :: acc))

/-- One character step of the `string.Formatter().parse` scanner. -/
def fmtStep : FmtMode → Char → Option (List FmtItem × FmtMode)
  | .lit, ch =>
    if ch = '\x7b' then some ([], .afterOpen)
    else if ch = '\x7d' then some ([], .afterClose)
    else some ([.lit ch], .lit)
  | .afterClose, ch => if ch = '\x7d' then some ([.lit '\x7d'], .lit) else none
  | .afterOpen, ch =>
    if ch = '\x7b' then some ([.lit '\x7b'], .lit)
    else nameStep [] ch
  | .name acc, ch => nameStep acc ch
  | .conv nm, ch => some ([], .afterConv nm ch)
  | .afterConv nm cv, ch =>
    if ch = ':' then some ([], .spec nm (some cv) 0 [])
    else if ch = '\x7d' then some ([.field (String.mk nm.reverse) [] (some cv)], .lit)
    else none
  | .spec nm cv depth acc, ch =>
    if ch = '\x7d' then
      match depth with
      | 0 => some ([.field (String.mk nm.reverse) acc.reverse cv], .lit)
      | d + 1 => some ([], .spec nm cv d ('\x7d' :: acc))
    else if ch = '\x7b' then some ([], .spec nm cv (depth + 1) ('\x7b' :: acc))
    else some ([], .spec nm cv depth (ch :: acc))

/-- `string.Formatter().parse` as a lazy stream: the items yielded before
any error, and the trailing `ValueError` if the template is malformed
(input ending inside a replacement field, a lone closing brace, a brace in
a field name, or a stray character after a conversion). -/
def fmtRun (mode : FmtMode) : List Char → List FmtItem × Option Err
  | [] =>
    match mode with
    | .lit => ([], none)
    | _ => ([], some .valueError)
  | ch :: rest =>
    match fmtStep mode ch with
    | none => ([], some .valueError)
    | some out =>
      let tail := fmtRun out.2 rest
      (out.1 ++ tail.1, tail.2)

/-- Look up every yielded field name in the substitution table, in stream
order (the body of the dictionary comprehension). -/
def scanItems (tbl : String → Option String) : List FmtItem → Except Err Unit
  | [] => .ok ()
  | .lit _ :: rest => scanItems tbl rest
  | .field nm _ _ :: rest =>
    match tbl nm with
    | none => .error (.keyError nm)
    | some _ => scanItems tbl rest

/-- The dictionary comprehension over `string.Formatter().parse`: walk the
template and look up every field name in the substitution table; a missing
key raises `KeyError`, a malformed template `ValueError`.  Errors surface in
exactly the order Python's lazy parse yields fields. -/
def scanTemplate (tbl : String → Option String) (cs : List Char) : Except Err Unit :=
  let run := fmtRun .lit cs
  match scanItems tbl run.1 with
  | .error e => .error e
  | .ok _ =>
    match run.2 with
    | some e => .error e
    | none => .ok ()

/-- Substitute the table's values for the yielded items.  Replacement
fields carrying a conversion or a nonempty format spec are outside the
modelled fragment. -/
def renderItems (tbl : String → Option String) : List FmtItem → Except Err (List Char)
  | [] => .ok []
  | .lit c :: rest => (renderItems tbl rest).map (c :: ·)
  | .field nm sp cv :: rest =>
    match tbl nm with
    | none => .error (.keyError nm)
    | some v =>
      if cv.isSome || !sp.isEmpty then .error .unsupportedFormat
      else (renderItems tbl rest).map (v.data ++ ·)

/-- `template_content.format(**formatters)`: parse and substitute. -/
def pyFormat (tbl : String → Option String) (cs : List Char) : Except Err (List Char) :=
  let run := fmtRun .lit cs
  match renderItems tbl run.1 with
  | .error e => .error e
  | .ok out =>
    match run.2 with
    | some e => .error e
    | none => .ok out

/-- `get_repo`, modelled per spec section 4.2: search the starting directory
and its ancestors for a version-control marker (`hasGit`); return the first
hit or fail with `InvalidGitRepositoryError`. -/
def getRepoFrom (hasGit : PyPath → Bool) (p : PyPath) : Except Err PyPath :=
  if hasGit p then .ok p
  else if h : p.comps.isEmpty then .error .notARepo
  else getRepoFrom hasGit ⟨p.isAbs, p.comps.dropLast⟩
termination_by p.comps.length
decreasing_by
  simp only [List.length_dropLast]
  have hne : p.comps ≠ [] := by simpa using h
  have := List.length_pos.mpr hne
  omega

/-- The category directory: `target` if provided, else the repository root
joined with the challenge type. -/
def categoryDir (repo : Except Err PyPath) (c : Challenge) : Except Err PyPath :=
  match c.target with
  | none => repo.map fun r => pyJoin r c.type.value
  | some t => .ok (parsePyPath t)

/-- The fixed substitution table `all_formatters` (`p0` is `ports[0]`). -/
def allFormatters (c : Challenge) (chalDir : PyPath) (p0 : Int) : String → Option String :=
  fun k =>
    if k = "name" then some c.name
    else if k = "dist_path" then some (pathStr (pyJoin chalDir "dist"))
    else if k = "port" then some (toString p0)
    else none

/-- The loop writing the rendered deploy templates: each template's target
file is opened (truncated) first, then the table is consulted, then the
rendered text is written. -/
def writeTemplates (tbl : String → Option String) (deployDir : PyPath) :
    List (String × String) → FS → RunResult
  | [], fs => .ok fs
  | (tname, tcontent) :: rest, fs =>
    match fs.openW (pyJoin deployDir tname) with
    | .error e => .err e fs
    | .ok fs1 =>
      match scanTemplate tbl tcontent.data with
      | .error e => .err e fs1
      | .ok _ =>
        match pyFormat tbl tcontent.data with
        | .error e => .err e fs1
        | .ok out => writeTemplates tbl deployDir rest (fs1.put (pyJoin deployDir tname) (String.mk out))

/-- `deploy.sh` contents: shebang plus the remote tokens joined by spaces. -/
def deployShText (r : List String) : String :=
  "#!/bin/bash\n" ++ String.intercalate " " r

/-- The `src/Makefile` contents generated for a challenge. -/
def makefileText (name : String) : String :=
  "CC=\nCXX=\nCFLAGS=\nCXXFLAGS=\nLDFLAGS=\n\nall: " ++ name ++ "\n\n" ++
    name ++ ": " ++ name ++ ".c\n\t$(CC) $(CFLAGS) $(LDFLAGS) -o $@ $^\n"

/-- Big-endian decimal digits of `n` (empty for 0); the first argument is
structural fuel, always at least `n`. -/
def natDigitsAux : Nat → Nat → List Char
  | 0, _ => []
  | fuel + 1, n =>
    if n = 0 then [] else natDigitsAux fuel (n / 10) ++ [Char.ofNat (48 + n % 10)]

/-- Python `str()` of an integer: decimal digits, `-` sign for negatives. -/
def intRepr : Int → List Char
  | .ofNat m => if m = 0 then ['0'] else natDigitsAux m m
  | .negSucc m => '-' :: natDigitsAux (m + 1) (m + 1)

/-- Hexadecimal digit (lowercase), as in `json.dumps` unicode escapes. -/
def hexDigit (n : Nat) : Char :=
  if n < 10 then Char.ofNat ('0'.toNat + n) else Char.ofNat ('a'.toNat + (n - 10))

/-- Four-digit lowercase hex rendering of `n < 0x10000`. -/
def hex4 (n : Nat) : List Char :=
  [hexDigit (n / 4096), hexDigit (n % 4096 / 256), hexDigit (n % 256 / 16), hexDigit (n % 16)]

/-- `json.dumps` escaping of one character (`ensure_ascii=True`): printable
ASCII passes through, everything else is escaped, astral characters as a
surrogate pair. -/
def escChar (c : Char) : List Char :=
  if c = '"' then ['\\', '"']
  else if c = '\\' then ['\\', '\\']
  else if c = '\n' then ['\\', 'n']
  else if c = '\r' then ['\\', 'r']
  else if c = '\t' then ['\\', 't']
  else if c = '\x08' then ['\\', 'b']
  else if c = '\x0c' then ['\\', 'f']
  else if c.toNat < 0x20 then '\\' :: 'u' :: hex4 c.toNat
  else if c.toNat ≤ 0x7e then [c]
  else if c.toNat < 0x10000 then '\\' :: 'u' :: hex4 c.toNat
  else
    let v := c.toNat - 0x10000
    ('\\' :: 'u' :: hex4 (0xd800 + v / 0x400)) ++ ('\\' :: 'u' :: hex4 (0xdc00 + v % 0x400))

/-- A JSON string literal. -/
def escStr (s : String) : List Char :=
  '"' :: s.data.flatMap escChar ++ ['"']

/-- JSON values. -/
inductive Json where
  | null : Json
  | str : String → Json
  | num : Int → Json
  | arr : List Json → Json
  | obj : List (String × Json) → Json

/-- `indent=4` whitespace at nesting level `lv`. -/
def indentChars (lv : Nat) : List Char := List.replicate (4 * lv) ' '

mutual

/-- `json.dumps(v, indent=4)` at nesting level `lv` (keys are rendered in
the order they appear; `challengeJson` lists them sorted). -/
def renderJson : Json → Nat → List Char
  | .null, _ => ['n', 'u', 'l', 'l']
  | .str s, _ => escStr s
  | .num n, _ => intRepr n
  | .arr [], _ => ['[', ']']
  | .arr (x :: xs), lv =>
    '[' :: '\n' :: indentChars (lv + 1) ++ renderJson x (lv + 1) ++ renderElems xs (lv + 1) ++
      '\n' :: (indentChars lv ++ [']'])
  | .obj [], _ => ['\x7b', '\x7d']
  | .obj ((k, v) :: kvs), lv =>
    '\x7b' :: '\n' :: indentChars (lv + 1) ++ escStr k ++ ':' :: ' ' :: renderJson v (lv + 1) ++
      renderMembers kvs (lv + 1) ++ '\n' :: (indentChars lv ++ ['\x7d'])

/-- Remaining array elements, each preceded by `,` and a fresh line. -/
def renderElems : List Json → Nat → List Char
  | [], _ => []
  | x :: xs, lv => ',' :: '\n' :: indentChars lv ++ renderJson x lv ++ renderElems xs lv

/-- Remaining object members, each preceded by `,` and a fresh line. -/
def renderMembers : List (String × Json) → Nat → List Char
  | [], _ => []
  | (k, v) :: kvs, lv =>
    ',' :: '\n' :: indentChars lv ++ escStr k ++ ':' :: ' ' :: renderJson v lv ++ renderMembers kvs lv

end

/-- `challenge.__dict__` as a JSON object with sorted keys, exactly as
`json.dumps(..., sort_keys=True)` lays it out. -/
def challengeJson (c : Challenge) : Json :=
  .obj
    [("author", .str c.author),
     ("description", .str c.description),
     ("difficulty", .str c.difficulty),
     ("flag", .str c.flag),
     ("name", .str c.name),
     ("ports", .arr (c.ports.map Json.num)),
     ("provides", .arr (c.provides.map Json.str)),
     ("remote", match c.remote with | none => Json.null | some r => .arr (r.map Json.str)),
     ("target", match c.target with | none => Json.null | some t => Json.str t),
     ("type", .str c.type.value)]

/-- The text written to `chal.json`. -/
def chalJsonText (c : Challenge) : String :=
  String.mk (renderJson (challengeJson c) 0)

/-- The deploy phase of `create_challenge` (runs only when `remote` is set):
make `deploy/`, write `deploy.sh`, build the substitution table
(dereferencing `ports[0]`), then render every template into `deploy/`. -/
def deployPhase (tmpls : List (String × String)) (c : Challenge) (chalDir : PyPath)
    (r : List String) (fs : FS) : RunResult :=
  andThen (liftE fs (fs.mkdirStrict (pyJoin chalDir "deploy"))) fun fsA =>
  andThen (liftE fsA (fsA.write (pyJoin chalDir "deploy.sh") (deployShText r))) fun fsB =>
  match c.ports with
  | [] => .err .indexOutOfRange fsB
  | p0 :: _ => writeTemplates (allFormatters c chalDir p0) (pyJoin chalDir "deploy") tmpls fsB

/-- `create_challenge`, step for step.  `repo` is the outcome `get_repo()`
would have (consulted only when `target` is absent); `tmpls` is the fixed
external template directory (name, contents). -/
def createChallenge (repo : Except Err PyPath) (tmpls : List (String × String))
    (c : Challenge) (fs0 : FS) : RunResult :=
  match categoryDir repo c with
  | .error e => .err e fs0
  | .ok cld =>
    andThen (if fs0.existsB cld then .ok fs0 else mkdirParentsRun fs0 cld.ancestorsUp) fun fs1 =>
    andThen (if fs1.existsB (pyJoin cld c.name) then .ok fs1
             else liftE fs1 (fs1.mkdirStrict (pyJoin cld c.name))) fun fs2 =>
    andThen (liftE fs2 (fs2.write (pyJoin (pyJoin cld c.name) "chal.json") (chalJsonText c))) fun fs3 =>
    andThen (match c.remote with
             | none => .ok fs3
             | some r => deployPhase tmpls c (pyJoin cld c.name) r fs3) fun fs4 =>
    andThen (liftE fs4 (fs4.mkdirStrict (pyJoin (pyJoin cld c.name) "solve"))) fun fs5 =>
    andThen (liftE fs5 (fs5.write (pyJoin (pyJoin (pyJoin cld c.name) "solve") "flag.txt") c.flag)) fun fs6 =>
    andThen (liftE fs6 (fs6.mkdirStrict (pyJoin (pyJoin cld c.name) "src"))) fun fs7 =>
    andThen (liftE fs7 (fs7.write (pyJoin (pyJoin (pyJoin cld c.name) "src") "Makefile")
      (makefileText c.name))) fun fs8 =>
    andThen (liftE fs8 (fs8.mkdirStrict (pyJoin (pyJoin cld c.name) "dist"))) RunResult.ok

/-- ASCII whitespace stripped by Python `int()`. -/
def isWsChar (c : Char) : Bool :=
  c = ' ' || c = '\t' || c = '\n' || c = '\r' || c = '\x0b' || c = '\x0c'

/-- Digits of an integer literal after the first digit: decimal digits with
single underscores allowed between digits (Python `int()` grouping rule). -/
def digitsTail (acc : Nat) : List Char → Option Nat
  | [] => some acc
  | c :: rest =>
    if c.isDigit then digitsTail (acc * 10 + (c.toNat - 48)) rest
    else if c = '_' then
      match rest with
      | [] => none
      | d :: rest2 => if d.isDigit then digitsTail (acc * 10 + (d.toNat - 48)) rest2 else none
    else none

/-- Python `int(token)` on a character list (ASCII decimal literals:
optional surrounding whitespace, optional sign, digits with underscore
grouping). -/
def pyIntOfChars (cs : List Char) : Option Int :=
  let cs1 := (((cs.dropWhile isWsChar).reverse).dropWhile isWsChar).reverse
  match cs1 with
  | '+' :: d :: rest => if d.isDigit then (digitsTail (d.toNat - 48) rest).map Int.ofNat else none
  | '-' :: d :: rest =>
    if d.isDigit then (digitsTail (d.toNat - 48) rest).map (fun n => -(n : Int)) else none
  | d :: rest => if d.isDigit then (digitsTail (d.toNat - 48) rest).map Int.ofNat else none
  | [] => none

/-- Python `int(token)` on a string. -/
def pyInt (s : String) : Option Int := pyIntOfChars s.data

/-- The `--type` conversion `Type(value)`: succeeds exactly on the five
member values. -/
def chalTypeOf (s : String) : Option ChalType :=
  if s = "rev" then some .rev
  else if s = "pwn" then some .pwn
  else if s = "crypto" then some .crypto
  else if s = "web" then some .web
  else if s = "misc" then some .misc
  else none

/-- One invocation's flag assignment, before argparse validation: which
flags were supplied, and the raw token(s) each received. -/
structure RawArgs where
  type : Option String
  name : Option String
  author : Option String
  description : Option (List String)
  difficulty : Option String
  flag : Option String
  provides : Option (List String)
  ports : Option (List String)
  remote : Option (List String)
  target : Option String
deriving DecidableEq, Repr

/-- `int` conversion applied to every token of `--ports`. -/
def mapPyInt : List String → Option (List Int)
  | [] => some []
  | t :: ts =>
    match pyInt t with
    | none => none
    | some n => (mapPyInt ts).map (n :: ·)

/-- The argparse layer of `main`: every required flag must be present,
`nargs="+"` flags need at least one token, `type` must convert via
`Type(...)`, `difficulty` must be among its choices, and every `ports`
token must convert via `int(...)`.  On success, the `Challenge` is built
exactly as `main` builds it (description tokens joined by spaces, provides
passed through `Path` and back to `str`).  `none` is the usage-error exit. -/
def parseArgsModel (a : RawArgs) : Option Challenge :=
  match a.type, a.name, a.author, a.description, a.difficulty, a.flag, a.provides, a.ports with
  | some ty, some nm, some au, some ds, some df, some fl, some pv, some po =>
    match chalTypeOf ty with
    | none => none
    | some t =>
      if ds.isEmpty then none
      else if ¬(df = "Easy" ∨ df = "Medium" ∨ df = "Hard") then none
      else if pv.isEmpty then none
      else if po.isEmpty then none
      else
        match mapPyInt po with
        | none => none
        | some ports =>
          match a.remote with
          | some [] => none
          | rm =>
            some ⟨t, nm, au, String.intercalate " " ds, df, fl,
                  pv.map (fun s => pathStr (parsePyPath s)), ports, rm, a.target⟩
  | _, _, _, _, _, _, _, _ => none

/-- Observable outcome of `main`: process exit code, whether usage text was
printed, and the filesystem left behind. -/
structure MainOut where
  exitCode : Nat
  usagePrinted : Bool
  fs : FS
deriving DecidableEq, Repr

/-- `main`: parse the invocation, then scaffold.  argparse failures print
usage and exit with status 2 before any filesystem access; an exception in
`create_challenge` terminates with a traceback (status 1). -/
def mainModel (a : RawArgs) (repo : Except Err PyPath) (tmpls : List (String × String))
    (fs : FS) : MainOut :=
  match parseArgsModel a with
  | none => ⟨2, true, fs⟩
  | some chal =>
    match createChallenge repo tmpls chal fs with
    | .ok fs' => ⟨0, false, fs'⟩
    | .err _ fs' => ⟨1, false, fs'⟩

/-- A parsed Makefile rule: target, prerequisites, recipe lines. -/
structure MkRule where
  target : String
  prereqs : List String
  recipe : List String
deriving DecidableEq, Repr

/-- Words of a character list (split on spaces, empties dropped). -/
def splitWordsSp (cs : List Char) : List String :=
  (splitOnChar ' ' cs).filterMap fun g => if g.isEmpty then none else some (String.mk g)

/-- Attach a recipe line to the most recently opened rule. -/
def attachRecipe : List MkRule → String → List MkRule
  | [], _ => []
  | r :: rs, s => { r with recipe := r.recipe ++ [s] } :: rs

/-- Rule structure of a Makefile text, one pass over its lines: a line
containing `:` (and not starting with a tab) opens a rule whose
prerequisites are the words after the colon; tab lines are recipe lines of
the most recently opened rule.  `acc` holds the rules seen so far,
reversed. -/
def parseMkLines (acc : List MkRule) : List (List Char) → List MkRule
  | [] => acc.reverse
  | line :: rest =>
    if line.head? = some '\t' then
      parseMkLines (attachRecipe acc (String.mk line.tail)) rest
    else if line.any (· == ':') then
      parseMkLines
        (⟨String.mk (line.takeWhile (· != ':')),
          splitWordsSp ((line.dropWhile (· != ':')).tail), []⟩ :: acc) rest
    else parseMkLines acc rest

/-- The rules of a Makefile text, in file order. -/
def makefileRules (s : String) : List MkRule :=
  parseMkLines [] (splitOnChar '\n' s.data)

/-- `make`'s default goal: the target of the first rule. -/
def defaultGoal (s : String) : Option String :=
  (makefileRules s).head?.map (·.target)

/-- A single, plain path component: nonempty, not `.`, no slash (true of
every sensible challenge name and of every name `iterdir` can yield). -/
def validNameB (s : String) : Bool :=
  s.data != [] && s.data != ['.'] && !s.data.any (· == '/')

/-- Is `p` equal to or below `d`? -/
def underB (d p : PyPath) : Bool :=
  (p.isAbs == d.isAbs) && d.comps.isPrefixOf p.comps

/-- No directory or file at or below `d`. -/
def FS.cleanAtB (fs : FS) (d : PyPath) : Bool :=
  fs.dirs.all (fun p => !underB d p) && fs.files.all (fun e => !underB d e.1)

/-- Did the step succeed? -/
def exceptIsOk {α : Type} : Except Err α → Bool
  | .ok _ => true
  | .error _ => false

/-- Every template has a plain file name and renders without an exception
against the table. -/
def templatesOkB (tbl : String → Option String) (tmpls : List (String × String)) : Bool :=
  tmpls.all fun t =>
    validNameB t.1 && exceptIsOk (scanTemplate tbl t.2.data) && exceptIsOk (pyFormat tbl t.2.data)

/-- Abstract template segment: literal text or a `\x7bkey\x7d` placeholder. -/
inductive Seg where
  | lit (s : String)
  | ph (key : String)
deriving DecidableEq, Repr

/-- The concrete text of a segment. -/
def Seg.text : Seg → String
  | .lit s => s
  | .ph k => "\x7b" ++ k ++ "\x7d"

/-- The template text assembled from segments. -/
def tmplText : List Seg → String
  | [] => ""
  | sg :: rest => sg.text ++ tmplText rest

/-- The items `string.Formatter().parse` yields for a well-shaped segment
list: the literal characters, and one bare replacement field per
placeholder. -/
def segsItems : List Seg → List FmtItem
  | [] => []
  | .lit s :: rest => s.data.map FmtItem.lit ++ segsItems rest
  | .ph k :: rest => .field k [] none :: segsItems rest

/-- The substituted text of a segment list. -/
def renderSegs (tbl : String → Option String) (segs : List Seg) : List Char :=
  segs.flatMap fun sg =>
    match sg with
    | .lit s => s.data
    | .ph k => ((tbl k).getD "").data

/-- Literal text free of braces. -/
def litFreeB (s : String) : Bool :=
  !s.data.any (· == '\x7b') && !s.data.any (· == '\x7d')

/-- A placeholder key readable as a plain field name (no braces, colon or
bang). -/
def keyShapeB (k : String) : Bool :=
  !k.data.any (· == '\x7b') && !k.data.any (· == '\x7d') &&
    !k.data.any (· == ':') && !k.data.any (· == '!')

/-- Well-shaped segment: brace-free literal, or a plain placeholder key. -/
def segShapeB : Seg → Bool
  | .lit s => litFreeB s
  | .ph k => keyShapeB k

/-- Two filesystems that agree everywhere except possibly on the contents
of the file at `p0` (same directories, same file paths). -/
def FS.eqExcept (p0 : PyPath) (fs1 fs2 : FS) : Prop :=
  fs1.dirs = fs2.dirs ∧ fs1.files.map Prod.fst = fs2.files.map Prod.fst ∧
    ∀ q, q ≠ p0 → fs1.lookup q = fs2.lookup q

/-- Two run outcomes that agree except possibly on the contents of the
file at `p0`. -/
def RunResult.eqExcept (p0 : PyPath) : RunResult → RunResult → Prop
  | .ok f1, .ok f2 => FS.eqExcept p0 f1 f2
  | .err e1 f1, .err e2 f2 => e1 = e2 ∧ FS.eqExcept p0 f1 f2
  | _, _ => False

/-- Keys of a JSON object. -/
def jsonKeys : Json → List String
  | .obj kvs => kvs.map Prod.fst
  | _ => []

/-- Member of a JSON object. -/
def jsonField (j : Json) (k : String) : Option Json :=
  match j with
  | .obj kvs => (kvs.find? fun e => e.1 == k).map (·.2)
  | _ => none

/-- Does a rendered string denote an absolute path? -/
def strIsAbsB (s : String) : Bool :=
  s.data.head? == some '/'

/-- Value of a hexadecimal digit. -/
def hexVal (c : Char) : Option Nat :=
  if 48 ≤ c.toNat ∧ c.toNat ≤ 57 then some (c.toNat - 48)
  else if 97 ≤ c.toNat ∧ c.toNat ≤ 102 then some (c.toNat - 87)
  else if 65 ≤ c.toNat ∧ c.toNat ≤ 70 then some (c.toNat - 55)
  else none

/-- Prepend a character to a pending string-body parse. -/
def consBody (c : Char) : Option (List Char × List Char) → Option (List Char × List Char)
  | none => none
  | some out => some (c :: out.1, out.2)

/-- Four hexadecimal digits. -/
def readHex4 : List Char → Option (Nat × List Char)
  | a :: b :: c2 :: d :: rest =>
    match hexVal a, hexVal b, hexVal c2, hexVal d with
    | some ha, some hb, some hc, some hd =>
      some ((((ha * 16 + hb) * 16 + hc) * 16 + hd : Nat), rest)
    | _, _, _, _ => none
  | _ => none

/-- The character denoted by a single-letter escape. -/
def escCode (e : Char) : Option Char :=
  if e = '"' then some '"'
  else if e = '\\' then some '\\'
  else if e = '/' then some '/'
  else if e = 'b' then some '\x08'
  else if e = 'f' then some '\x0c'
  else if e = 'n' then some '\n'
  else if e = 'r' then some '\r'
  else if e = 't' then some '\t'
  else none

/-- Continuation of a `\uXXXX` escape given the four parsed hex digits:
surrogate pairs recombined, lone surrogates rejected (`json.loads` can
produce them but `dumps` output never contains them), otherwise the coded
character. -/
def uBranch (k : List Char → Option (List Char × List Char)) :
    Option (Nat × List Char) → Option (List Char × List Char)
  | none => none
  | some nr =>
    if 0xd800 ≤ nr.1 ∧ nr.1 < 0xdc00 then
      match nr.2 with
      | '\\' :: 'u' :: rest3 =>
        match readHex4 rest3 with
        | none => none
        | some mr =>
          if 0xdc00 ≤ mr.1 ∧ mr.1 < 0xe000 then
            consBody (Char.ofNat (0x10000 + (nr.1 - 0xd800) * 0x400 + (mr.1 - 0xdc00)))
              (k mr.2)
          else none
      | _ => none
    else if 0xdc00 ≤ nr.1 ∧ nr.1 < 0xe000 then none
    else consBody (Char.ofNat nr.1) (k nr.2)

/-- Body of a JSON string literal up to its closing quote (`json.loads`
strict mode: raw control characters rejected).  Structural fuel, always at
least the input length. -/
def rjsbF : Nat → List Char → Option (List Char × List Char)
  | 0, _ => none
  | fuel + 1, cs =>
    match cs with
    | [] => none
    | ch :: rest =>
      if ch = '"' then some ([], rest)
      else if ch = '\\' then
        match rest with
        | [] => none
        | e :: rest2 =>
          if e = 'u' then uBranch (fun l => rjsbF fuel l) (readHex4 rest2)
          else
            match escCode e with
            | none => none
            | some c2 => consBody c2 (rjsbF fuel rest2)
      else if ch.toNat < 32 then none
      else consBody ch (rjsbF fuel rest)

/-- Body of a JSON string literal up to its closing quote. -/
def readJStringBody (cs : List Char) : Option (List Char × List Char) :=
  rjsbF (cs.length + 1) cs

/-- A JSON string literal (expects the opening quote). -/
def readJStr : List Char → Option (String × List Char)
  | '"' :: rest => (readJStringBody rest).map fun bt => (String.mk bt.1, bt.2)
  | _ => none

/-- Consume an expected literal prefix. -/
def expectLit : List Char → List Char → Option (List Char)
  | [], cs => some cs
  | _ :: _, [] => none
  | e :: es, c :: cs => if c = e then expectLit es cs else none

/-- Greedily consume decimal digits. -/
def readDigits (acc : Nat) : List Char → Nat × List Char
  | [] => (acc, [])
  | c :: rest =>
    if c.isDigit then readDigits (acc * 10 + (c.toNat - 48)) rest
    else (acc, c :: rest)

/-- A JSON integer (optional minus sign, digits). -/
def readJInt : List Char → Option (Int × List Char)
  | [] => none
  | c :: rest =>
    if c = '-' then
      match rest with
      | [] => none
      | d :: rest2 =>
        if d.isDigit then
          let out := readDigits (d.toNat - 48) rest2
          some (-(out.1 : Int), out.2)
        else none
    else if c.isDigit then
      let out := readDigits (c.toNat - 48) rest
      some ((out.1 : Int), out.2)
    else none

/-- The `"key": ` prefix of a member line at object level 1 (4 spaces of
indent). -/
def fieldPrefix (key : String) : List Char :=
  List.replicate 4 ' ' ++ '"' :: key.data ++ ['"', ':', ' ']

/-- Item lines of a nonempty level-1 integer array (items at 8 spaces, one
per line, comma-separated; closed by a `],` line at 4 spaces). -/
def readArrLinesInt : List (List Char) → Option (List Int × List (List Char))
  | [] => none
  | line :: rest =>
    match expectLit (List.replicate 8 ' ') line with
    | none => none
    | some v =>
      match readJInt v with
      | none => none
      | some out =>
        if out.2 = [','] then (readArrLinesInt rest).map fun o2 => (out.1 :: o2.1, o2.2)
        else if out.2 = [] then
          match rest with
          | [] => none
          | term :: rest2 =>
            if term = List.replicate 4 ' ' ++ [']', ','] then some ([out.1], rest2) else none
        else none

/-- Item lines of a nonempty level-1 string array. -/
def readArrLinesStr : List (List Char) → Option (List String × List (List Char))
  | [] => none
  | line :: rest =>
    match expectLit (List.replicate 8 ' ') line with
    | none => none
    | some v =>
      match readJStr v with
      | none => none
      | some out =>
        if out.2 = [','] then (readArrLinesStr rest).map fun o2 => (out.1 :: o2.1, o2.2)
        else if out.2 = [] then
          match rest with
          | [] => none
          | term :: rest2 =>
            if term = List.replicate 4 ' ' ++ [']', ','] then some ([out.1], rest2) else none
        else none

/-- A string-valued member line (`withComma` for all but the last member). -/
def readStrField (key : String) (withComma : Bool) :
    List (List Char) → Option (String × List (List Char))
  | [] => none
  | line :: rest =>
    match expectLit (fieldPrefix key) line with
    | none => none
    | some v =>
      match readJStr v with
      | none => none
      | some out =>
        if out.2 = (if withComma then [','] else []) then some (out.1, rest) else none

/-- An integer-array member. -/
def readIntArrField (key : String) : List (List Char) → Option (List Int × List (List Char))
  | [] => none
  | line :: rest =>
    match expectLit (fieldPrefix key) line with
    | none => none
    | some v =>
      if v = ['[', ']', ','] then some ([], rest)
      else if v = ['['] then readArrLinesInt rest
      else none

/-- A string-array member. -/
def readStrArrField (key : String) : List (List Char) → Option (List String × List (List Char))
  | [] => none
  | line :: rest =>
    match expectLit (fieldPrefix key) line with
    | none => none
    | some v =>
      if v = ['[', ']', ','] then some ([], rest)
      else if v = ['['] then readArrLinesStr rest
      else none

/-- The `remote` member: `null` or a string array. -/
def readRemoteField : List (List Char) → Option (Option (List String) × List (List Char))
  | [] => none
  | line :: rest =>
    match expectLit (fieldPrefix "remote") line with
    | none => none
    | some v =>
      if v = ['n', 'u', 'l', 'l', ','] then some (none, rest)
      else if v = ['[', ']', ','] then some (some [], rest)
      else if v = ['['] then (readArrLinesStr rest).map fun out => (some out.1, out.2)
      else none

/-- The `target` member: `null` or a string. -/
def readTargetField : List (List Char) → Option (Option String × List (List Char))
  | [] => none
  | line :: rest =>
    match expectLit (fieldPrefix "target") line with
    | none => none
    | some v =>
      if v = ['n', 'u', 'l', 'l', ','] then some (none, rest)
      else
        match readJStr v with
        | none => none
        | some out => if out.2 = [','] then some (some out.1, rest) else none

/-- The `type` member (last member, no comma), converted back through the
enum. -/
def readTypeField : List (List Char) → Option (ChalType × List (List Char))
  | [] => none
  | line :: rest =>
    match expectLit (fieldPrefix "type") line with
    | none => none
    | some v =>
      match readJStr v with
      | none => none
      | some out =>
        if out.2 = [] then (chalTypeOf out.1).map fun ty => (ty, rest) else none

/-- `json.loads` of a `chal.json` text, specialized to the exact shape
`json.dumps(..., indent=4, sort_keys=True)` gives a `Challenge` dict:
line-structured (escaped strings never contain raw newlines), members in
sorted key order, and every field value re-read from the text alone. -/
def parseChalJsonText (s : String) : Option Challenge :=
  match splitOnChar '\n' s.data with
  | [] => none
  | first :: rest =>
    if first = ['\x7b'] then
      match readStrField "author" true rest with
      | none => none
      | some (author, r1) =>
        match readStrField "description" true r1 with
        | none => none
        | some (description, r2) =>
          match readStrField "difficulty" true r2 with
          | none => none
          | some (difficulty, r3) =>
            match readStrField "flag" true r3 with
            | none => none
            | some (flag, r4) =>
              match readStrField "name" true r4 with
              | none => none
              | some (nm, r5) =>
                match readIntArrField "ports" r5 with
                | none => none
                | some (ports, r6) =>
                  match readStrArrField "provides" r6 with
                  | none => none
                  | some (provides, r7) =>
                    match readRemoteField r7 with
                    | none => none
                    | some (remote, r8) =>
                      match readTargetField r8 with
                      | none => none
                      | some (target, r9) =>
                        match readTypeField r9 with
                        | none => none
                        | some (ty, r10) =>
                          if r10 = [['\x7d']] then
                            some ⟨ty, nm, author, description, difficulty, flag,
                                  provides, ports, remote, target⟩
                          else none
    else none

/-- Join character lists with a separator character. -/
def joinSep (sep : Char) : List (List Char) → List Char
  | [] => []
  | [l] => l
  | l :: ls => l ++ sep :: joinSep sep ls

/-- The generated Makefile, line by line. -/
def mkLines (name : String) : List (List Char) :=
  ["CC=".data, "CXX=".data, "CFLAGS=".data, "CXXFLAGS=".data, "LDFLAGS=".data, [],
   "all: ".data ++ name.data, [], name.data ++ ": ".data ++ name.data ++ ".c".data,
   "\t$(CC) $(CFLAGS) $(LDFLAGS) -o $@ $^".data, []]


/-- Item lines of a nonempty level-1 integer array, as `json.dumps`
lays them out, including the closing `],` line. -/
def intArrLines : Int → List Int → List (List Char)
  | x, [] => [List.replicate 8 ' ' ++ intRepr x, List.replicate 4 ' ' ++ [']', ',']]
  | x, y :: t => (List.replicate 8 ' ' ++ (intRepr x ++ [','])) :: intArrLines y t

/-- Item lines of a nonempty level-1 string array, including the closing
`],` line. -/
def strArrLines : String → List String → List (List Char)
  | s, [] => [List.replicate 8 ' ' ++ escStr s, List.replicate 4 ' ' ++ [']', ',']]
  | s, y :: t => (List.replicate 8 ' ' ++ (escStr s ++ [','])) :: strArrLines y t

/-- The lines of a non-final integer-array member. -/
def intArrField (key : String) : List Int → List (List Char)
  | [] => [fieldPrefix key ++ ['[', ']', ',']]
  | x :: xs => (fieldPrefix key ++ ['[']) :: intArrLines x xs

/-- The lines of a non-final string-array member. -/
def strArrField (key : String) : List String → List (List Char)
  | [] => [fieldPrefix key ++ ['[', ']', ',']]
  | s :: ss => (fieldPrefix key ++ ['[']) :: strArrLines s ss

/-- The lines of the `remote` member. -/
def remoteLines : Option (List String) → List (List Char)
  | none => [fieldPrefix "remote" ++ ['n', 'u', 'l', 'l', ',']]
  | some rs => strArrField "remote" rs

/-- The lines of the `target` member. -/
def targetLines : Option String → List (List Char)
  | none => [fieldPrefix "target" ++ ['n', 'u', 'l', 'l', ',']]
  | some t => [fieldPrefix "target" ++ (escStr t ++ [','])]

/-- `chal.json`, line by line. -/
def chalLines (c : Challenge) : List (List Char) :=
  [['\x7b']] ++
  [fieldPrefix "author" ++ (escStr c.author ++ [','])] ++
  [fieldPrefix "description" ++ (escStr c.description ++ [','])] ++
  [fieldPrefix "difficulty" ++ (escStr c.difficulty ++ [','])] ++
  [fieldPrefix "flag" ++ (escStr c.flag ++ [','])] ++
  [fieldPrefix "name" ++ (escStr c.name ++ [','])] ++
  intArrField "ports" c.ports ++
  strArrField "provides" c.provides ++
  remoteLines c.remote ++
  targetLines c.target ++
  [fieldPrefix "type" ++ escStr c.type.value] ++
  [['\x7d']]

theorem stringMk_data (s : String) : String.mk s.data = s := by
  cases s
  rfl

theorem splitOnChar_no_sep (sep : Char) (cs : List Char) (h : ∀ c ∈ cs, c ≠ sep) :
    splitOnChar sep cs = [cs] := by
  induction cs with
  | nil => rfl
  | cons c rest ih =>
    have hc : c ≠ sep := h c (by simp)
    rw [splitOnChar, if_neg hc, ih fun x hx => h x (by simp [hx])]

theorem validNameB_spec (s : String) (h : validNameB s = true) :
    s.data ≠ [] ∧ s.data ≠ ['.'] ∧ ∀ c ∈ s.data, c ≠ '/' := by
  simp only [validNameB, Bool.and_eq_true, bne_iff_ne, ne_eq, Bool.not_eq_true',
    List.any_eq_false, beq_iff_eq] at h
  exact ⟨h.1.1, h.1.2, h.2⟩

theorem pyJoin_single (p : PyPath) (s : String) (h : validNameB s = true) :
    pyJoin p s = ⟨p.isAbs, p.comps ++ [s]⟩ := by
  obtain ⟨h1, h2, h3⟩ := validNameB_spec s h
  have hsplit : splitSlash s.data = [s.data] := splitOnChar_no_sep '/' s.data h3
  have hhead : (s.data.head? == some '/') = false := by
    cases hd : s.data with
    | nil => rfl
    | cons a t =>
      have ha : a ≠ '/' := h3 a (by rw [hd]; simp)
      simp [ha]
  unfold pyJoin parsePyPath
  rw [hsplit, hhead]
  simp [h1, h2, stringMk_data]

theorem pyJoin_two (d : PyPath) (a b : String) (ha : validNameB a = true)
    (hb : validNameB b = true) :
    pyJoin (pyJoin d a) b = ⟨d.isAbs, d.comps ++ [a, b]⟩ := by
  rw [pyJoin_single _ _ ha, pyJoin_single _ _ hb]
  simp

/-- `src/Makefile` and `solve/flag.txt` are distinct paths under any
challenge directory. -/
theorem mkPath_ne_flagPath (d : PyPath) :
    pyJoin (pyJoin d "src") "Makefile" ≠ pyJoin (pyJoin d "solve") "flag.txt" := by
  rw [pyJoin_two d "src" "Makefile" (by decide) (by decide),
    pyJoin_two d "solve" "flag.txt" (by decide) (by decide)]
  simp

theorem mkdirStrict_ok {fs f : FS} {p : PyPath} (h : fs.mkdirStrict p = .ok f) :
    f = fs.addDir p := by
  unfold FS.mkdirStrict at h
  split at h
  · simp at h
  · split at h
    · cases h
      rfl
    · simp at h

theorem write_ok {fs f : FS} {p : PyPath} {s : String} (h : fs.write p s = .ok f) :
    f = (fs.put p "").put p s := by
  unfold FS.write FS.openW at h
  split at h
  · simp [Except.map] at h
  · split at h
    · simp only [Except.map] at h
      cases h
      rfl
    · simp [Except.map] at h

theorem lookup_put_same (fs : FS) (p : PyPath) (s : String) :
    (fs.put p s).lookup p = some s := by
  simp [FS.put, FS.lookup, List.find?]

theorem lookup_put_other {p q : PyPath} (h : q ≠ p) (fs : FS) (s : String) :
    (fs.put p s).lookup q = fs.lookup q := by
  have hb : (p == q) = false := by simp [Ne.symm h]
  simp [FS.put, FS.lookup, List.find?, hb]

theorem lookup_addDir (fs : FS) (p q : PyPath) : (fs.addDir p).lookup q = fs.lookup q := rfl

theorem andThen_ok_inv {r : RunResult} {k : FS → RunResult} (h : (andThen r k).isOk = true) :
    ∃ f, r = .ok f := by
  cases r with
  | ok f => exact ⟨f, rfl⟩
  | err e f => simp [andThen, RunResult.isOk] at h

theorem liftE_ok_inv {fs f : FS} {x : Except Err FS} (h : liftE fs x = .ok f) : x = .ok f := by
  cases x with
  | ok g => simpa [liftE] using h
  | error e => simp [liftE] at h

/-- C6: after a successful run, `solve/flag.txt` holds exactly the `flag`
field — the scaffolder writes the raw string with no transformation. -/
theorem flag_file_byte_exact (repo : Except Err PyPath) (tmpls : List (String × String))
    (c : Challenge) (fs : FS) (cld : PyPath)
    (hcld : categoryDir repo c = .ok cld)
    (hok : (createChallenge repo tmpls c fs).isOk = true) :
    (createChallenge repo tmpls c fs).fsOf.lookup
      (pyJoin (pyJoin (pyJoin cld c.name) "solve") "flag.txt") = some c.flag := by
  unfold createChallenge at hok ⊢
  rw [hcld] at hok ⊢
  dsimp only at hok ⊢
  obtain ⟨fs1, hr1⟩ := andThen_ok_inv hok
  rw [hr1] at hok ⊢
  dsimp only [andThen] at hok ⊢
  obtain ⟨fs2, hr2⟩ := andThen_ok_inv hok
  rw [hr2] at hok ⊢
  dsimp only [andThen] at hok ⊢
  obtain ⟨fs3, hr3⟩ := andThen_ok_inv hok
  rw [hr3] at hok ⊢
  dsimp only [andThen] at hok ⊢
  obtain ⟨fs4, hr4⟩ := andThen_ok_inv hok
  rw [hr4] at hok ⊢
  dsimp only [andThen] at hok ⊢
  obtain ⟨fs5, hr5⟩ := andThen_ok_inv hok
  rw [hr5] at hok ⊢
  dsimp only [andThen] at hok ⊢
  obtain ⟨fs6, hr6⟩ := andThen_ok_inv hok
  rw [hr6] at hok ⊢
  dsimp only [andThen] at hok ⊢
  obtain ⟨fs7, hr7⟩ := andThen_ok_inv hok
  rw [hr7] at hok ⊢
  dsimp only [andThen] at hok ⊢
  obtain ⟨fs8, hr8⟩ := andThen_ok_inv hok
  rw [hr8] at hok ⊢
  dsimp only [andThen] at hok ⊢
  obtain ⟨fs9, hr9⟩ := andThen_ok_inv hok
  rw [hr9]
  dsimp only [andThen, RunResult.fsOf]
  have e9 := mkdirStrict_ok (liftE_ok_inv hr9)
  have e8 := write_ok (liftE_ok_inv hr8)
  have e7 := mkdirStrict_ok (liftE_ok_inv hr7)
  have e6 := write_ok (liftE_ok_inv hr6)
  subst e9 e8 e7 e6
  rw [lookup_addDir, lookup_put_other (mkPath_ne_flagPath _).symm _ _,
    lookup_put_other (mkPath_ne_flagPath _).symm _ _, lookup_addDir, lookup_put_same]

/-- Witness for C6 at a concrete input. -/
theorem flag_file_byte_exact_witness :
    ((createChallenge (.ok ⟨true, ["r"]⟩) []
        ⟨.pwn, "x", "a", "d", "Easy", "F", ["p"], [1], none, some "/t"⟩ ⟨[], []⟩).isOk = true) ∧
    (createChallenge (.ok ⟨true, ["r"]⟩) []
        ⟨.pwn, "x", "a", "d", "Easy", "F", ["p"], [1], none, some "/t"⟩ ⟨[], []⟩).fsOf.lookup
      (pyJoin (pyJoin (pyJoin ⟨true, ["t"]⟩ "x") "solve") "flag.txt") = some "F" :=
  ⟨by decide,
   flag_file_byte_exact (.ok ⟨true, ["r"]⟩) []
     ⟨.pwn, "x", "a", "d", "Easy", "F", ["p"], [1], none, some "/t"⟩ ⟨[], []⟩
     ⟨true, ["t"]⟩ rfl (by decide)⟩

theorem getRepoFrom_none (hasGit : PyPath → Bool) :
    ∀ n (p : PyPath), p.comps.length ≤ n →
      (∀ k, hasGit ⟨p.isAbs, p.comps.take k⟩ = false) →
      getRepoFrom hasGit p = .error .notARepo := by
  intro n
  induction n with
  | zero =>
    intro p hl h
    have hc : p.comps = [] := List.length_eq_zero.mp (Nat.le_zero.mp hl)
    rw [getRepoFrom]
    have h0 : hasGit p = false := by simpa using h p.comps.length
    rw [h0]
    simp [hc]
  | succ n ih =>
    intro p hl h
    rw [getRepoFrom]
    have h0 : hasGit p = false := by simpa using h p.comps.length
    rw [h0]
    simp only [Bool.false_eq_true, if_false]
    split
    · rfl
    · apply ih
      · have := List.length_dropLast p.comps
        simp only [List.length_dropLast]
        omega
      · intro k
        rw [List.dropLast_eq_take, List.take_take]
        exact h _

/-- C9: the repository-root lookup is consulted only when `target` is
absent; if no version-control marker exists anywhere from the starting
path up to the root, the run fails with the repository error before any
directory creation or file write (the filesystem is returned untouched).
When `target` is supplied, the outcome is independent of the lookup. -/
theorem repo_lookup_lazy_and_fatal (hasGit : PyPath → Bool) (start : PyPath)
    (tmpls : List (String × String)) (c : Challenge) (fs : FS) :
    (c.target = none →
      (∀ k, hasGit ⟨start.isAbs, start.comps.take k⟩ = false) →
      createChallenge (getRepoFrom hasGit start) tmpls c fs = .err .notARepo fs) ∧
    (∀ t, c.target = some t → ∀ repo1 repo2 : Except Err PyPath,
      createChallenge repo1 tmpls c fs = createChallenge repo2 tmpls c fs) := by
  constructor
  · intro ht hng
    have hrepo := getRepoFrom_none hasGit start.comps.length start le_rfl hng
    unfold createChallenge categoryDir
    rw [ht, hrepo]
    rfl
  · intro t ht repo1 repo2
    unfold createChallenge categoryDir
    rw [ht]

/-- Witness for C9 at concrete inputs. -/
theorem repo_lookup_lazy_and_fatal_witness :
    (createChallenge (getRepoFrom (fun _ => false) ⟨true, ["a"]⟩) []
      ⟨.rev, "n", "a", "d", "Easy", "f", ["p"], [1], none, none⟩ ⟨[], []⟩ =
        .err .notARepo ⟨[], []⟩) ∧
    (createChallenge (.ok ⟨true, ["r"]⟩) []
      ⟨.rev, "n", "a", "d", "Easy", "f", ["p"], [1], none, some "/t"⟩ ⟨[], []⟩ =
     createChallenge (.error .fileExists) []
      ⟨.rev, "n", "a", "d", "Easy", "f", ["p"], [1], none, some "/t"⟩ ⟨[], []⟩) :=
  ⟨(repo_lookup_lazy_and_fatal (fun _ => false) ⟨true, ["a"]⟩ [] _ _).1 rfl (fun _ => rfl),
   (repo_lookup_lazy_and_fatal (fun _ => false) ⟨true, ["a"]⟩ [] _ _).2 "/t" rfl _ _⟩

theorem mapPyInt_ok :
    ∀ {po : List String} {l : List Int}, mapPyInt po = some l →
      ∀ tok ∈ po, pyInt tok ≠ none := by
  intro po
  induction po with
  | nil => simp
  | cons t ts ih =>
    intro l h tok htok
    unfold mapPyInt at h
    cases hp : pyInt t with
    | none => rw [hp] at h; simp at h
    | some n =>
      rw [hp] at h
      cases hm : mapPyInt ts with
      | none => rw [hm] at h; simp at h
      | some l2 =>
        rcases List.mem_cons.mp htok with rfl | htok2
        · simp [hp]
        · exact ih hm tok htok2

theorem parseArgsModel_ok {a : RawArgs} {ch : Challenge} (h : parseArgsModel a = some ch) :
    a.type ≠ none ∧ a.name ≠ none ∧ a.author ≠ none ∧ a.description ≠ none ∧
    a.difficulty ≠ none ∧ a.flag ≠ none ∧ a.provides ≠ none ∧ a.ports ≠ none ∧
    (∀ ty, a.type = some ty → chalTypeOf ty ≠ none) ∧
    (∀ df, a.difficulty = some df → (df = "Easy" ∨ df = "Medium" ∨ df = "Hard")) ∧
    (∀ po, a.ports = some po → ∀ tok ∈ po, pyInt tok ≠ none) := by
  unfold parseArgsModel at h
  cases hty : a.type with
  | none => rw [hty] at h; simp at h
  | some ty =>
  cases hnm : a.name with
  | none => rw [hty, hnm] at h; simp at h
  | some nm =>
  cases hau : a.author with
  | none => rw [hty, hnm, hau] at h; simp at h
  | some au =>
  cases hds : a.description with
  | none => rw [hty, hnm, hau, hds] at h; simp at h
  | some ds =>
  cases hdf : a.difficulty with
  | none => rw [hty, hnm, hau, hds, hdf] at h; simp at h
  | some df =>
  cases hfl : a.flag with
  | none => rw [hty, hnm, hau, hds, hdf, hfl] at h; simp at h
  | some fl =>
  cases hpv : a.provides with
  | none => rw [hty, hnm, hau, hds, hdf, hfl, hpv] at h; simp at h
  | some pv =>
  cases hpo : a.ports with
  | none => rw [hty, hnm, hau, hds, hdf, hfl, hpv, hpo] at h; simp at h
  | some po =>
  rw [hty, hnm, hau, hds, hdf, hfl, hpv, hpo] at h
  dsimp only at h
  cases hct : chalTypeOf ty with
  | none => rw [hct] at h; simp at h
  | some t =>
  rw [hct] at h
  dsimp only at h
  split at h
  · simp at h
  · split at h
    · simp at h
    · split at h
      · simp at h
      · split at h
        · simp at h
        · cases hmi : mapPyInt po with
          | none => rw [hmi] at h; simp at h
          | some ports =>
            refine ⟨by simp [hty], by simp [hnm], by simp [hau], by simp [hds],
              by simp [hdf], by simp [hfl], by simp [hpv], by simp [hpo], ?_, ?_, ?_⟩
            · intro ty2 hty2
              cases hty2
              simp [hct]
            · intro df2 hdf2
              cases hdf2
              rename_i hguard _ _ _
              by_contra hc
              push_neg at hc
              exact hguard (by tauto)
            · intro po2 hpo2
              cases hpo2
              exact mapPyInt_ok hmi

/-- C8: an invocation missing a required flag, or carrying a `type` or
`difficulty` outside the permitted sets, or a non-integer `ports` token,
makes `main` print usage and exit with status 2, with no directory or file
created (the filesystem is returned exactly as it was). -/
theorem usage_error_no_writes (a : RawArgs) (repo : Except Err PyPath)
    (tmpls : List (String × String)) (fs : FS)
    (h : a.type = none ∨ a.name = none ∨ a.author = none ∨ a.description = none ∨
         a.difficulty = none ∨ a.flag = none ∨ a.provides = none ∨ a.ports = none ∨
         (∃ ty, a.type = some ty ∧ chalTypeOf ty = none) ∨
         (∃ df, a.difficulty = some df ∧ df ≠ "Easy" ∧ df ≠ "Medium" ∧ df ≠ "Hard") ∨
         (∃ po tok, a.ports = some po ∧ tok ∈ po ∧ pyInt tok = none)) :
    mainModel a repo tmpls fs = ⟨2, true, fs⟩ := by
  have hnone : parseArgsModel a = none := by
    cases hp : parseArgsModel a with
    | none => rfl
    | some ch =>
      obtain ⟨g1, g2, g3, g4, g5, g6, g7, g8, g9, g10, g11⟩ := parseArgsModel_ok hp
      rcases h with h|h|h|h|h|h|h|h|h|h|h
      · exact absurd h g1
      · exact absurd h g2
      · exact absurd h g3
      · exact absurd h g4
      · exact absurd h g5
      · exact absurd h g6
      · exact absurd h g7
      · exact absurd h g8
      · obtain ⟨ty, hty, hc⟩ := h
        exact absurd hc (g9 ty hty)
      · obtain ⟨df, hdf, hd1, hd2, hd3⟩ := h
        rcases g10 df hdf with he | he | he
        · exact (hd1 he).elim
        · exact (hd2 he).elim
        · exact (hd3 he).elim
      · obtain ⟨po, tok, hpo, htok, hpi⟩ := h
        exact absurd hpi (g11 po hpo tok htok)
  unfold mainModel
  rw [hnone]

/-- Witness for C8: omitting `--type` yields a usage exit with an untouched
filesystem. -/
theorem usage_error_no_writes_witness :
    mainModel ⟨none, some "n", some "a", some ["d"], some "Easy", some "f",
        some ["p"], some ["1"], none, none⟩
      (.ok ⟨true, ["r"]⟩) [] ⟨[], []⟩ = ⟨2, true, ⟨[], []⟩⟩ :=
  usage_error_no_writes _ _ _ _ (Or.inl rfl)

theorem splitOnChar_ne_nil (sep : Char) (cs : List Char) : splitOnChar sep cs ≠ [] := by
  cases cs with
  | nil => simp [splitOnChar]
  | cons c rest =>
    unfold splitOnChar
    split
    · simp
    · cases splitOnChar sep rest <;> simp

theorem splitOnChar_cons_sep (sep : Char) (cs : List Char) :
    splitOnChar sep (sep :: cs) = [] :: splitOnChar sep cs := by
  rw [splitOnChar, if_pos rfl]

theorem splitOnChar_line (sep : Char) (ls rest : List Char) (h : ∀ c ∈ ls, c ≠ sep) :
    splitOnChar sep (ls ++ sep :: rest) = ls :: splitOnChar sep rest := by
  induction ls with
  | nil => simp [splitOnChar_cons_sep]
  | cons c cs ih =>
    have hc : c ≠ sep := h c (by simp)
    rw [List.cons_append, splitOnChar, if_neg hc, ih fun x hx => h x (by simp [hx])]

theorem takeWhile_append_of_all {α : Type} {p : α → Bool} {l1 : List α} (l2 : List α)
    (h : ∀ c ∈ l1, p c = true) :
    (l1 ++ l2).takeWhile p = l1 ++ l2.takeWhile p := by
  induction l1 with
  | nil => simp
  | cons c cs ih =>
    have hc := h c (by simp)
    simp [List.takeWhile_cons, hc, ih fun x hx => h x (by simp [hx])]

theorem dropWhile_append_of_all {α : Type} {p : α → Bool} {l1 : List α} (l2 : List α)
    (h : ∀ c ∈ l1, p c = true) :
    (l1 ++ l2).dropWhile p = l2.dropWhile p := by
  induction l1 with
  | nil => simp
  | cons c cs ih =>
    rw [List.cons_append, List.dropWhile_cons, if_pos (h c (by simp)),
      ih fun x hx => h x (by simp [hx])]

theorem parseMkLines_skip (acc : List MkRule) (line : List Char) (rest : List (List Char))
    (h1 : ¬line.head? = some '\t') (h2 : line.any (· == ':') = false) :
    parseMkLines acc (line :: rest) = parseMkLines acc rest := by
  rw [parseMkLines, if_neg h1, if_neg (by simp [h2])]

theorem parseMkLines_rule (acc : List MkRule) (line : List Char) (rest : List (List Char))
    (h1 : ¬line.head? = some '\t') (h2 : line.any (· == ':') = true) :
    parseMkLines acc (line :: rest) =
      parseMkLines (⟨String.mk (line.takeWhile (· != ':')),
        splitWordsSp ((line.dropWhile (· != ':')).tail), []⟩ :: acc) rest := by
  rw [parseMkLines, if_neg h1, if_pos h2]

theorem parseMkLines_recipe (acc : List MkRule) (line : List Char)
    (rest : List (List Char)) (h1 : line.head? = some '\t') :
    parseMkLines acc (line :: rest) =
      parseMkLines (attachRecipe acc (String.mk line.tail)) rest := by
  rw [parseMkLines, if_pos h1]

/-- C7 counterexample: for the challenge name `stack1`, the generated
Makefile's default (first) target is named `all`, not `stack1` — the claim
that the default target is named exactly after the challenge name fails. -/
theorem makefile_default_target_counterexample :
    defaultGoal (makefileText "stack1") = some "all" ∧ "all" ≠ "stack1" := by
  constructor
  · decide
  · decide

theorem ne_of_all_bne {l : List Char} {sep : Char} (hall : l.all (· != sep) = true) :
    ∀ c ∈ l, c ≠ sep := by
  intro c hc
  have := List.all_eq_true.mp hall c hc
  simpa using this

theorem splitOnChar_joinSep (sep : Char) :
    ∀ ls : List (List Char), ls ≠ [] → (∀ l ∈ ls, ∀ c ∈ l, c ≠ sep) →
      splitOnChar sep (joinSep sep ls) = ls := by
  intro ls
  induction ls with
  | nil => intro h; contradiction
  | cons l ls ih =>
    intro _ h
    cases ls with
    | nil => exact splitOnChar_no_sep sep l (h l (by simp))
    | cons l2 ls2 =>
      rw [show joinSep sep (l :: l2 :: ls2) = l ++ sep :: joinSep sep (l2 :: ls2) from rfl,
        splitOnChar_line sep l _ (h l (by simp)),
        ih (by simp) fun x hx c hc => h x (by simp [hx]) c hc]

theorem makefile_lines (name : String) (hnl : ∀ c ∈ name.data, c ≠ '\n') :
    splitOnChar '\n' (makefileText name).data = mkLines name := by
  have hj : (makefileText name).data = joinSep '\n' (mkLines name) := by
    simp [makefileText, joinSep, mkLines, String.data_append]
  rw [hj]
  apply splitOnChar_joinSep '\n' (mkLines name) (by simp [mkLines])
  intro l hl
  simp only [mkLines, List.mem_cons, List.not_mem_nil, or_false] at hl
  rcases hl with rfl | rfl | rfl | rfl | rfl | rfl | rfl | rfl | rfl | rfl | rfl
  · exact ne_of_all_bne (by decide)
  · exact ne_of_all_bne (by decide)
  · exact ne_of_all_bne (by decide)
  · exact ne_of_all_bne (by decide)
  · exact ne_of_all_bne (by decide)
  · exact ne_of_all_bne (by decide)
  · intro c hc
    rcases List.mem_append.mp hc with h | h
    · exact ne_of_all_bne (by decide) c h
    · exact hnl c h
  · exact ne_of_all_bne (by decide)
  · intro c hc
    simp only [List.mem_append] at hc
    rcases hc with ((h | h) | h) | h
    · exact hnl c h
    · exact ne_of_all_bne (by decide) c h
    · exact hnl c h
    · exact ne_of_all_bne (by decide) c h
  · exact ne_of_all_bne (by decide)
  · exact ne_of_all_bne (by decide)

/-- C7 amended: for any plain challenge name, the generated Makefile has
exactly two rules: the default rule, whose target is named `all` and whose
sole prerequisite is the challenge name, and the build rule, whose target
is named exactly the challenge name and which compiles `name.c` into the
target via the (empty) compiler variables.  The default goal is therefore
`all`, not the challenge name. -/
theorem makefile_targets_amended (name : String)
    (h1 : name.data ≠ [])
    (h2 : ∀ ch ∈ name.data, ch ≠ '\n' ∧ ch ≠ ':' ∧ ch ≠ '\t' ∧ ch ≠ ' ') :
    makefileRules (makefileText name) =
      [⟨"all", [name], []⟩,
       ⟨name, [name ++ ".c"], ["$(CC) $(CFLAGS) $(LDFLAGS) -o $@ $^"]⟩] ∧
    defaultGoal (makefileText name) = some "all" := by
  have hnc : ∀ c ∈ name.data, ((c != ':') = true) := fun c hc => by
    simp [(h2 c hc).2.1]
  have hnsp : ∀ c ∈ name.data, c ≠ ' ' := fun c hc => (h2 c hc).2.2.2
  have hspname : splitOnChar ' ' name.data = [name.data] :=
    splitOnChar_no_sep ' ' name.data hnsp
  have hrules : makefileRules (makefileText name) =
      [⟨"all", [name], []⟩,
       ⟨name, [name ++ ".c"], ["$(CC) $(CFLAGS) $(LDFLAGS) -o $@ $^"]⟩] := by
    unfold makefileRules
    rw [makefile_lines name fun c hc => (h2 c hc).1]
    unfold mkLines
    rw [parseMkLines_skip _ _ _ (by decide) (by decide)]
    rw [parseMkLines_skip _ _ _ (by decide) (by decide)]
    rw [parseMkLines_skip _ _ _ (by decide) (by decide)]
    rw [parseMkLines_skip _ _ _ (by decide) (by decide)]
    rw [parseMkLines_skip _ _ _ (by decide) (by decide)]
    rw [parseMkLines_skip _ _ _ (by decide) (by decide)]
    rw [parseMkLines_rule _ _ _ (by simp) (by simp)]
    rw [parseMkLines_skip _ _ _ (by decide) (by decide)]
    obtain ⟨c0, cr, hn⟩ := List.exists_cons_of_ne_nil h1
    have hh9 : ¬(name.data ++ ": ".data ++ name.data ++ ".c".data).head? = some '\t' := by
      rw [hn]
      simp
      intro hc
      exact ((h2 c0 (by rw [hn]; simp)).2.2.1 hc).elim
    have ha9 : ((name.data ++ ": ".data ++ name.data ++ ".c".data).any fun x => x == ':') = true := by
      simp [List.any_append]
    rw [parseMkLines_rule _ _ _ hh9 ha9]
    rw [parseMkLines_recipe _ _ _ (by decide)]
    rw [parseMkLines_skip _ _ _ (by decide) (by decide)]
    unfold parseMkLines
    have ht7 : List.takeWhile (fun x => x != ':') ("all: ".data ++ name.data) = "all".data := rfl
    have hd7 : (List.dropWhile (fun x => x != ':') ("all: ".data ++ name.data)).tail =
        ' ' :: name.data := rfl
    have hw7 : splitWordsSp ((List.dropWhile (fun x => x != ':') ("all: ".data ++ name.data)).tail) =
        [name] := by
      rw [hd7]
      unfold splitWordsSp
      rw [splitOnChar_cons_sep, hspname]
      simp [List.filterMap, h1, stringMk_data]
    have ht9 : List.takeWhile (fun x => x != ':')
        (name.data ++ ": ".data ++ name.data ++ ".c".data) = name.data := by
      rw [List.append_assoc, List.append_assoc, takeWhile_append_of_all _ hnc]
      simp
    have hd9eq : List.dropWhile (fun x => x != ':')
        (name.data ++ ": ".data ++ name.data ++ ".c".data) =
        ':' :: ' ' :: (name.data ++ ".c".data) := by
      rw [List.append_assoc, List.append_assoc, dropWhile_append_of_all _ hnc]
      rfl
    have hw9 : splitWordsSp ((List.dropWhile (fun x => x != ':')
        (name.data ++ ": ".data ++ name.data ++ ".c".data)).tail) = [name ++ ".c"] := by
      rw [hd9eq]
      unfold splitWordsSp
      rw [show (':' :: ' ' :: (name.data ++ ".c".data)).tail = ' ' :: (name.data ++ ".c".data)
        from rfl]
      rw [splitOnChar_cons_sep]
      rw [splitOnChar_no_sep ' ' (name.data ++ ".c".data) (by
        intro c hc
        rcases List.mem_append.mp hc with h | h
        · exact hnsp c h
        · exact ne_of_all_bne (by decide) c h)]
      have hmk : String.mk (name.data ++ ".c".data) = name ++ ".c" := by
        rw [← String.data_append, stringMk_data]
      have hne : (name.data ++ ".c".data) ≠ [] := by simp
      simp [List.filterMap, hne, hmk]
    rw [ht7, hw7, ht9, hw9]
    simp [attachRecipe, stringMk_data]
  refine ⟨hrules, ?_⟩
  unfold defaultGoal
  rw [hrules]
  rfl

/-- Witness for the C7 amended theorem at the name `stack1`. -/
theorem makefile_targets_amended_witness :
    makefileRules (makefileText "stack1") =
      [⟨"all", ["stack1"], []⟩,
       ⟨"stack1", ["stack1.c"], ["$(CC) $(CFLAGS) $(LDFLAGS) -o $@ $^"]⟩] ∧
    defaultGoal (makefileText "stack1") = some "all" := by
  have := makefile_targets_amended "stack1" (by decide) (by decide)
  simpa using this

theorem exceptIsOk_ok {α : Type} {x : Except Err α} (h : exceptIsOk x = true) :
    ∃ a, x = .ok a := by
  cases x with
  | ok a => exact ⟨a, rfl⟩
  | error e => simp [exceptIsOk] at h

theorem parent_concat (A : Bool) (xs : List String) (a : String) :
    (PyPath.mk A (xs ++ [a])).parent = ⟨A, xs⟩ := by
  simp [PyPath.parent]

theorem writeTemplates_ok (tbl : String → Option String) (dd : PyPath) :
    ∀ (tmpls : List (String × String)) (fs : FS),
      (∀ t ∈ tmpls, validNameB t.1 = true) →
      (∀ t ∈ tmpls, exceptIsOk (scanTemplate tbl t.2.data) = true) →
      (∀ t ∈ tmpls, exceptIsOk (pyFormat tbl t.2.data) = true) →
      (fs.dirs.contains dd = true) →
      (∀ t ∈ tmpls, fs.dirs.contains ⟨dd.isAbs, dd.comps ++ [t.1]⟩ = false) →
      ∃ nf, writeTemplates tbl dd tmpls fs = .ok ⟨fs.dirs, nf ++ fs.files⟩ ∧
        (∀ e ∈ nf, ∃ t ∈ tmpls, e.1 = ⟨dd.isAbs, dd.comps ++ [t.1]⟩) ∧
        (∀ tname tcontent out, (tname, tcontent) ∈ tmpls →
          pyFormat tbl tcontent.data = .ok out →
          (tmpls.map Prod.fst).Nodup →
          FS.lookup ⟨fs.dirs, nf ++ fs.files⟩ ⟨dd.isAbs, dd.comps ++ [tname]⟩ =
            some (String.mk out)) := by
  intro tmpls
  induction tmpls with
  | nil =>
    intro fs _ _ _ _ _
    exact ⟨[], rfl, by simp, by simp⟩
  | cons t rest ih =>
    intro fs hvn hscan hfmt hdd hnd
    obtain ⟨tname, tcontent⟩ := t
    have hv : validNameB tname = true := hvn (tname, tcontent) (by simp)
    have hopen : fs.openW (pyJoin dd tname) =
        .ok (fs.put ⟨dd.isAbs, dd.comps ++ [tname]⟩ "") := by
      rw [pyJoin_single _ _ hv]
      have hndP : ¬fs.dirs.contains (⟨dd.isAbs, dd.comps ++ [tname]⟩ : PyPath) = true := by
        rw [hnd (tname, tcontent) (by simp)]
        simp
      have hdd2 : dd ∈ fs.dirs := by simpa using hdd
      have hdir : FS.isDirB fs (PyPath.mk dd.isAbs (dd.comps ++ [tname])).parent = true := by
        rw [parent_concat]
        have he : (⟨dd.isAbs, dd.comps⟩ : PyPath) = dd := rfl
        rw [he]
        simp [FS.isDirB, hdd2]
      unfold FS.openW
      rw [if_neg hndP, if_pos hdir]
    obtain ⟨u, hsc⟩ := exceptIsOk_ok (hscan (tname, tcontent) (by simp))
    obtain ⟨out0, hfm⟩ := exceptIsOk_ok (hfmt (tname, tcontent) (by simp))
    rw [show writeTemplates tbl dd ((tname, tcontent) :: rest) fs =
      (match fs.openW (pyJoin dd tname) with
       | .error e => .err e fs
       | .ok fs1 =>
         match scanTemplate tbl tcontent.data with
         | .error e => .err e fs1
         | .ok _ =>
           match pyFormat tbl tcontent.data with
           | .error e => .err e fs1
           | .ok out => writeTemplates tbl dd rest
             (fs1.put (pyJoin dd tname) (String.mk out))) from rfl]
    rw [hopen, hsc, hfm]
    dsimp only
    rw [pyJoin_single _ _ hv]
    set P : PyPath := ⟨dd.isAbs, dd.comps ++ [tname]⟩ with hP
    obtain ⟨nf', hrun, hmem, hlook⟩ := ih ((fs.put P "").put P (String.mk out0))
      (fun t ht => hvn t (by simp [ht]))
      (fun t ht => hscan t (by simp [ht]))
      (fun t ht => hfmt t (by simp [ht]))
      (by simpa [FS.put] using hdd)
      (fun t ht => by simpa [FS.put] using hnd t (by simp [ht]))
    refine ⟨nf' ++ [(P, String.mk out0), (P, "")], ?_, ?_, ?_⟩
    · rw [hrun]
      simp [FS.put]
    · intro e he
      rcases List.mem_append.mp he with he | he
      · obtain ⟨t, ht, hte⟩ := hmem e he
        exact ⟨t, by simp [ht], hte⟩
      · simp only [List.mem_cons, List.mem_singleton] at he
        rcases he with rfl | rfl | hfalse
        · exact ⟨(tname, tcontent), by simp, rfl⟩
        · exact ⟨(tname, tcontent), by simp, rfl⟩
        · cases hfalse
    · intro tn tc out htm hfo hnodup
      rcases List.mem_cons.mp htm with heq | htm2
      · injection heq with he1 he2
        subst he1
        subst he2
        have hout : out = out0 := by
          rw [hfo] at hfm
          cases hfm
          rfl
        subst hout
        have hn1 : List.find? (fun e => e.1 == P) nf' = none := by
          rw [List.find?_eq_none]
          intro e he
          obtain ⟨t, ht, hte⟩ := hmem e he
          simp only [beq_iff_eq, hte, hP]
          intro hcon
          have hcomps : t.1 = tn := by
            have := congrArg PyPath.comps hcon
            simpa using this
          have hnin : tn ∉ rest.map Prod.fst := by
            simpa using (List.nodup_cons.mp hnodup).1
          exact hnin (hcomps ▸ List.mem_map_of_mem Prod.fst ht)
        unfold FS.lookup
        simp only [List.append_assoc, List.find?_append, hn1, Option.none_or]
        simp [List.find?]
      · have := hlook tn tc out htm2 hfo (List.nodup_cons.mp hnodup).2
        unfold FS.lookup at this ⊢
        simp only [FS.put] at this
        simpa [List.append_assoc] using this

theorem mkdirParentsRun_ok :
    ∀ (ps : List PyPath) (fs : FS), (∀ q ∈ ps, fs.isFileB q = false) →
      ∃ ds, mkdirParentsRun fs ps = .ok ⟨ds ++ fs.dirs, fs.files⟩ ∧
        (∀ q ∈ ps, q ∈ ds ++ fs.dirs) ∧ (∀ x ∈ ds, x ∈ ps) := by
  intro ps
  induction ps with
  | nil =>
    intro fs _
    exact ⟨[], rfl, by simp, by simp⟩
  | cons q qs ih =>
    intro fs h
    rw [show mkdirParentsRun fs (q :: qs) =
      (if fs.isFileB q then .err .fileExists fs
       else if fs.dirs.contains q then mkdirParentsRun fs qs
       else mkdirParentsRun (fs.addDir q) qs) from rfl]
    rw [h q (by simp)]
    simp only [Bool.false_eq_true, if_false]
    by_cases hq : fs.dirs.contains q = true
    · rw [if_pos hq]
      obtain ⟨ds, hrun, hmem, hsub⟩ := ih fs fun x hx => h x (by simp [hx])
      refine ⟨ds, hrun, ?_, fun x hx => by simp [hsub x hx]⟩
      intro x hx
      rcases List.mem_cons.mp hx with rfl | hx2
      · exact List.mem_append.mpr (Or.inr (by simpa using hq))
      · exact hmem x hx2
    · rw [if_neg hq]
      obtain ⟨ds, hrun, hmem, hsub⟩ := ih (fs.addDir q) fun x hx => h x (by simp [hx])
      refine ⟨ds ++ [q], ?_, ?_, ?_⟩
      · rw [hrun]
        simp [FS.addDir]
      · intro x hx
        rcases List.mem_cons.mp hx with rfl | hx2
        · simp
        · have := hmem x hx2
          simp only [FS.addDir, List.mem_append, List.mem_cons] at this
          simp only [List.mem_append, List.mem_singleton]
          tauto
      · intro x hx
        rcases List.mem_append.mp hx with hx2 | hx2
        · simp [hsub x hx2]
        · simp only [List.mem_singleton] at hx2
          simp [hx2]

theorem phase1_ok (fs0 : FS) (cld : PyPath)
    (hA : fs0.existsB cld = true → fs0.isDirB cld = true)
    (hB : ∀ q ∈ cld.ancestorsUp, fs0.isFileB q = false) :
    ∃ (fs1 : FS) (ds : List PyPath),
      (if fs0.existsB cld then RunResult.ok fs0 else mkdirParentsRun fs0 cld.ancestorsUp)
        = .ok fs1 ∧
      fs1 = ⟨ds ++ fs0.dirs, fs0.files⟩ ∧ fs1.isDirB cld = true ∧
      (∀ x ∈ ds, x.comps.length ≤ cld.comps.length) := by
  by_cases hex : fs0.existsB cld = true
  · exact ⟨fs0, [], by rw [if_pos hex], rfl, hA hex, by simp⟩
  · obtain ⟨ds, hrun, hmem, hsub⟩ := mkdirParentsRun_ok cld.ancestorsUp fs0 hB
    refine ⟨⟨ds ++ fs0.dirs, fs0.files⟩, ds, by rw [if_neg hex]; exact hrun, rfl, ?_, ?_⟩
    swap
    · intro x hx
      have hxa := hsub x hx
      unfold PyPath.ancestorsUp at hxa
      obtain ⟨n, hn, hq⟩ := List.mem_map.mp hxa
      rw [← hq]
      simp only [List.length_take]
      omega
    by_cases hc : cld.comps = []
    · simp [FS.isDirB, hc]
    · have hcl : cld ∈ cld.ancestorsUp := by
        unfold PyPath.ancestorsUp
        have hpos : 0 < cld.comps.length := List.length_pos.mpr hc
        refine List.mem_map.mpr ⟨cld.comps.length - 1, ?_, ?_⟩
        · simp only [List.mem_range]
          omega
        · have h1 : cld.comps.length - 1 + 1 = cld.comps.length := by omega
          rw [h1, List.take_length]
      have hin := hmem cld hcl
      simp only [FS.isDirB, Bool.or_eq_true]
      right
      simpa using hin

theorem templatesOkB_spec {tbl : String → Option String} {tmpls : List (String × String)}
    (h : templatesOkB tbl tmpls = true) :
    (∀ t ∈ tmpls, validNameB t.1 = true) ∧
    (∀ t ∈ tmpls, exceptIsOk (scanTemplate tbl t.2.data) = true) ∧
    (∀ t ∈ tmpls, exceptIsOk (pyFormat tbl t.2.data) = true) := by
  unfold templatesOkB at h
  rw [List.all_eq_true] at h
  refine ⟨fun t ht => ?_, fun t ht => ?_, fun t ht => ?_⟩ <;>
  · have := h t ht
    simp only [Bool.and_eq_true] at this
    tauto

theorem mkdir_eval {fs : FS} {p : PyPath} (h1 : fs.existsB p = false)
    (h2 : fs.isDirB p.parent = true) : fs.mkdirStrict p = .ok (fs.addDir p) := by
  unfold FS.mkdirStrict
  rw [if_neg (by rw [h1]; simp), if_pos h2]

theorem write_eval {fs : FS} {p : PyPath} (s : String) (h1 : fs.dirs.contains p = false)
    (h2 : fs.isDirB p.parent = true) : fs.write p s = .ok ((fs.put p "").put p s) := by
  unfold FS.write FS.openW
  rw [if_neg (by rw [h1]; simp), if_pos h2]
  rfl

theorem comps_len_not_mem {ds : List PyPath} {n : Nat} {q : PyPath}
    (hds : ∀ x ∈ ds, x.comps.length ≤ n) (hq : n < q.comps.length) : q ∉ ds :=
  fun h => absurd (hds q h) (by omega)

theorem existsB_false_spec {fs : FS} {p : PyPath} (h : fs.existsB p = false) :
    p ∉ fs.dirs ∧ (∀ e ∈ fs.files, e.1 ≠ p) ∧ p.comps ≠ [] := by
  unfold FS.existsB FS.isDirB FS.isFileB at h
  simp at h
  exact ⟨h.1.2, fun e he => h.2 e.1 e.2 he, h.1.1⟩

theorem existsB_false_of {fs : FS} {p : PyPath} (h1 : p ∉ fs.dirs)
    (h2 : ∀ e ∈ fs.files, e.1 ≠ p) (h3 : p.comps ≠ []) : fs.existsB p = false := by
  unfold FS.existsB FS.isDirB FS.isFileB
  simp only [Bool.or_eq_false_iff]
  refine ⟨⟨by simp [h3], by simpa using h1⟩, ?_⟩
  rw [List.any_eq_false]
  intro e he
  simp [h2 e he]

theorem isDirB_of_mem {fs : FS} {p : PyPath} (h : p ∈ fs.dirs) : fs.isDirB p = true := by
  simp only [FS.isDirB, Bool.or_eq_true]
  right
  simpa using h

theorem contains_false_of_not_mem {l : List PyPath} {p : PyPath} (h : p ∉ l) :
    l.contains p = false := by
  simpa using h

theorem post_deploy_ok (c : Challenge) (B : Bool) (KX : List String) (dirs4 : List PyPath)
    (files4 : List (PyPath × String))
    (hKXne : KX ≠ [])
    (hX : (⟨B, KX⟩ : PyPath) ∈ dirs4)
    (hs1 : (⟨B, KX ++ ["solve"]⟩ : PyPath) ∉ dirs4)
    (hs2 : ∀ e ∈ files4, e.1 ≠ (⟨B, KX ++ ["solve"]⟩ : PyPath))
    (hr1 : (⟨B, KX ++ ["src"]⟩ : PyPath) ∉ dirs4)
    (hr2 : ∀ e ∈ files4, e.1 ≠ (⟨B, KX ++ ["src"]⟩ : PyPath))
    (hd1 : (⟨B, KX ++ ["dist"]⟩ : PyPath) ∉ dirs4)
    (hd2 : ∀ e ∈ files4, e.1 ≠ (⟨B, KX ++ ["dist"]⟩ : PyPath))
    (hf1 : (⟨B, (KX ++ ["solve"]) ++ ["flag.txt"]⟩ : PyPath) ∉ dirs4)
    (hm1 : (⟨B, (KX ++ ["src"]) ++ ["Makefile"]⟩ : PyPath) ∉ dirs4) :
    (andThen (liftE (⟨dirs4, files4⟩ : FS)
        (FS.mkdirStrict ⟨dirs4, files4⟩ ⟨B, KX ++ ["solve"]⟩)) fun fs5 =>
     andThen (liftE fs5 (fs5.write ⟨B, (KX ++ ["solve"]) ++ ["flag.txt"]⟩ c.flag)) fun fs6 =>
     andThen (liftE fs6 (fs6.mkdirStrict ⟨B, KX ++ ["src"]⟩)) fun fs7 =>
     andThen (liftE fs7 (fs7.write ⟨B, (KX ++ ["src"]) ++ ["Makefile"]⟩
       (makefileText c.name))) fun fs8 =>
     andThen (liftE fs8 (fs8.mkdirStrict ⟨B, KX ++ ["dist"]⟩)) RunResult.ok)
    = .ok ⟨(⟨B, KX ++ ["dist"]⟩ : PyPath) :: ⟨B, KX ++ ["src"]⟩ :: ⟨B, KX ++ ["solve"]⟩ :: dirs4,
           ((⟨B, (KX ++ ["src"]) ++ ["Makefile"]⟩ : PyPath), makefileText c.name) ::
           ((⟨B, (KX ++ ["src"]) ++ ["Makefile"]⟩ : PyPath), "") ::
           ((⟨B, (KX ++ ["solve"]) ++ ["flag.txt"]⟩ : PyPath), c.flag) ::
           ((⟨B, (KX ++ ["solve"]) ++ ["flag.txt"]⟩ : PyPath), "") :: files4⟩ := by
  have hne_sr : (⟨B, KX ++ ["solve"]⟩ : PyPath) ≠ ⟨B, KX ++ ["src"]⟩ := by
    intro he
    injection he with _ h2
    have := List.append_cancel_left h2
    simp at this
  have hne_sd : (⟨B, KX ++ ["solve"]⟩ : PyPath) ≠ ⟨B, KX ++ ["dist"]⟩ := by
    intro he
    injection he with _ h2
    have := List.append_cancel_left h2
    simp at this
  have hne_rd : (⟨B, KX ++ ["src"]⟩ : PyPath) ≠ ⟨B, KX ++ ["dist"]⟩ := by
    intro he
    injection he with _ h2
    have := List.append_cancel_left h2
    simp at this
  have hlen2ne1 : ∀ (a b d : String), (⟨B, (KX ++ [a]) ++ [b]⟩ : PyPath) ≠ ⟨B, KX ++ [d]⟩ := by
    intro a b d he
    injection he with _ h2
    have := congrArg List.length h2
    simp at this
  have hflagmk : (⟨B, (KX ++ ["solve"]) ++ ["flag.txt"]⟩ : PyPath) ≠
      ⟨B, (KX ++ ["src"]) ++ ["Makefile"]⟩ := by
    intro he
    injection he with _ h2
    simp only [List.append_assoc] at h2
    have := List.append_cancel_left h2
    simp at this
  have e5 : FS.mkdirStrict ⟨dirs4, files4⟩ ⟨B, KX ++ ["solve"]⟩ =
      .ok (FS.addDir ⟨dirs4, files4⟩ ⟨B, KX ++ ["solve"]⟩) :=
    mkdir_eval (existsB_false_of hs1 hs2 (by simp)) (by rw [parent_concat]; exact isDirB_of_mem hX)
  rw [e5]
  dsimp only [liftE, andThen, FS.addDir]
  have e6 : FS.write ⟨(⟨B, KX ++ ["solve"]⟩ : PyPath) :: dirs4, files4⟩
      ⟨B, (KX ++ ["solve"]) ++ ["flag.txt"]⟩ c.flag = .ok _ :=
    write_eval _ (contains_false_of_not_mem (by
      intro hmem
      rcases List.mem_cons.mp hmem with he | he
      · exact hlen2ne1 "solve" "flag.txt" "solve" he
      · exact hf1 he))
      (by rw [parent_concat]; exact isDirB_of_mem (by simp [hX]))
  rw [e6]
  dsimp only [liftE, andThen, FS.put]
  have e7 : FS.mkdirStrict ⟨(⟨B, KX ++ ["solve"]⟩ : PyPath) :: dirs4,
      ((⟨B, (KX ++ ["solve"]) ++ ["flag.txt"]⟩ : PyPath), c.flag) ::
      ((⟨B, (KX ++ ["solve"]) ++ ["flag.txt"]⟩ : PyPath), "") :: files4⟩
      ⟨B, KX ++ ["src"]⟩ = .ok _ :=
    mkdir_eval (existsB_false_of
      (by
        intro hmem
        rcases List.mem_cons.mp hmem with he | he
        · exact hne_sr.symm (by rw [he])
        · exact hr1 he)
      (by
        intro e he
        rcases List.mem_cons.mp he with rfl | he2
        · exact (hlen2ne1 "solve" "flag.txt" "src")
        · rcases List.mem_cons.mp he2 with rfl | he3
          · exact (hlen2ne1 "solve" "flag.txt" "src")
          · exact hr2 e he3)
      (by simp))
      (by rw [parent_concat]; exact isDirB_of_mem (by simp [hX]))
  rw [e7]
  dsimp only [liftE, andThen, FS.addDir]
  have e8 : FS.write ⟨(⟨B, KX ++ ["src"]⟩ : PyPath) :: (⟨B, KX ++ ["solve"]⟩ : PyPath) :: dirs4,
      ((⟨B, (KX ++ ["solve"]) ++ ["flag.txt"]⟩ : PyPath), c.flag) ::
      ((⟨B, (KX ++ ["solve"]) ++ ["flag.txt"]⟩ : PyPath), "") :: files4⟩
      ⟨B, (KX ++ ["src"]) ++ ["Makefile"]⟩ (makefileText c.name) = .ok _ :=
    write_eval _ (contains_false_of_not_mem (by
      intro hmem
      rcases List.mem_cons.mp hmem with he | hmem2
      · exact hlen2ne1 "src" "Makefile" "src" he
      · rcases List.mem_cons.mp hmem2 with he | he
        · exact hlen2ne1 "src" "Makefile" "solve" he
        · exact hm1 he))
      (by rw [parent_concat]; exact isDirB_of_mem (by simp [hX]))
  rw [e8]
  dsimp only [liftE, andThen, FS.put]
  have e9 : FS.mkdirStrict ⟨(⟨B, KX ++ ["src"]⟩ : PyPath) ::
      (⟨B, KX ++ ["solve"]⟩ : PyPath) :: dirs4,
      ((⟨B, (KX ++ ["src"]) ++ ["Makefile"]⟩ : PyPath), makefileText c.name) ::
      ((⟨B, (KX ++ ["src"]) ++ ["Makefile"]⟩ : PyPath), "") ::
      ((⟨B, (KX ++ ["solve"]) ++ ["flag.txt"]⟩ : PyPath), c.flag) ::
      ((⟨B, (KX ++ ["solve"]) ++ ["flag.txt"]⟩ : PyPath), "") :: files4⟩
      ⟨B, KX ++ ["dist"]⟩ = .ok _ :=
    mkdir_eval (existsB_false_of
      (by
        intro hmem
        rcases List.mem_cons.mp hmem with he | hmem2
        · exact hne_rd.symm (by rw [he])
        · rcases List.mem_cons.mp hmem2 with he | he
          · exact hne_sd.symm (by rw [he])
          · exact hd1 he)
      (by
        intro e he
        rcases List.mem_cons.mp he with rfl | he2
        · exact hlen2ne1 "src" "Makefile" "dist"
        · rcases List.mem_cons.mp he2 with rfl | he3
          · exact hlen2ne1 "src" "Makefile" "dist"
          · rcases List.mem_cons.mp he3 with rfl | he4
            · exact hlen2ne1 "solve" "flag.txt" "dist"
            · rcases List.mem_cons.mp he4 with rfl | he5
              · exact hlen2ne1 "solve" "flag.txt" "dist"
              · exact hd2 e he5)
      (by simp))
      (by rw [parent_concat]; exact isDirB_of_mem (by simp [hX]))
  rw [e9]
  dsimp only [liftE, andThen, FS.addDir]


theorem liftE_ok_eq (fs f : FS) : liftE fs (Except.ok f) = RunResult.ok f := rfl

theorem andThen_ok_eq (f : FS) (g : FS → RunResult) : andThen (RunResult.ok f) g = g f := rfl

theorem pne_app (B : Bool) (KX L1 L2 : List String) (h : L1 ≠ L2) :
    (⟨B, KX ++ L1⟩ : PyPath) ≠ ⟨B, KX ++ L2⟩ := by
  intro he
  injection he with _ h2
  exact h (List.append_cancel_left h2)

theorem path_ne_21 (B : Bool) (KX : List String) (a b d : String) :
    (⟨B, (KX ++ [a]) ++ [b]⟩ : PyPath) ≠ ⟨B, KX ++ [d]⟩ := by
  rw [List.append_assoc]
  exact pne_app B KX ([a] ++ [b]) [d] (by simp)

theorem lookup_cons_eq (dirs : List PyPath) (l : List (PyPath × String)) (p : PyPath) (s : String) :
    FS.lookup ⟨dirs, (p, s) :: l⟩ p = some s := by
  simp [FS.lookup, List.find?]

theorem lookup_cons_ne {e : PyPath × String} {p : PyPath} (h : e.1 ≠ p)
    (dirs : List PyPath) (l : List (PyPath × String)) :
    FS.lookup ⟨dirs, e :: l⟩ p = FS.lookup ⟨dirs, l⟩ p := by
  have hb : (e.1 == p) = false := by simpa using h
  simp [FS.lookup, List.find?, hb]

theorem lookup_skip (dirs : List PyPath) (l2 : List (PyPath × String)) (p : PyPath) :
    ∀ (l1 : List (PyPath × String)), (∀ e ∈ l1, e.1 ≠ p) →
      FS.lookup ⟨dirs, l1 ++ l2⟩ p = FS.lookup ⟨dirs, l2⟩ p := by
  intro l1
  induction l1 with
  | nil => intro _; rfl
  | cons e t ih =>
    intro h
    rw [List.cons_append, lookup_cons_ne (h e (by simp)), ih (fun x hx => h x (by simp [hx]))]

theorem post_chalDir_ok (tmpls : List (String × String)) (c : Challenge) (B : Bool)
    (KX : List String) (D0 : List PyPath) (F0 : List (PyPath × String)) (nd2 : List PyPath)
    (hKXne : KX ≠ [])
    (hX : (⟨B, KX⟩ : PyPath) ∈ nd2 ++ D0)
    (hnd2 : ∀ q ∈ nd2, q = ⟨B, KX⟩ ∨ q.comps.length < KX.length)
    (hsolve1 : (⟨B, KX ++ ["solve"]⟩ : PyPath) ∉ D0)
    (hsolve2 : ∀ e ∈ F0, e.1 ≠ (⟨B, KX ++ ["solve"]⟩ : PyPath))
    (hsrc1 : (⟨B, KX ++ ["src"]⟩ : PyPath) ∉ D0)
    (hsrc2 : ∀ e ∈ F0, e.1 ≠ (⟨B, KX ++ ["src"]⟩ : PyPath))
    (hdist1 : (⟨B, KX ++ ["dist"]⟩ : PyPath) ∉ D0)
    (hdist2 : ∀ e ∈ F0, e.1 ≠ (⟨B, KX ++ ["dist"]⟩ : PyPath))
    (hcj1 : (⟨B, KX ++ ["chal.json"]⟩ : PyPath) ∉ D0)
    (hflag1 : (⟨B, (KX ++ ["solve"]) ++ ["flag.txt"]⟩ : PyPath) ∉ D0)
    (hmk1 : (⟨B, (KX ++ ["src"]) ++ ["Makefile"]⟩ : PyPath) ∉ D0)
    (hdep : ∀ r, c.remote = some r →
      (⟨B, KX ++ ["deploy"]⟩ : PyPath) ∉ D0 ∧
      (∀ e ∈ F0, e.1 ≠ (⟨B, KX ++ ["deploy"]⟩ : PyPath)) ∧
      (⟨B, KX ++ ["deploy.sh"]⟩ : PyPath) ∉ D0 ∧
      (∀ t ∈ tmpls, (⟨B, (KX ++ ["deploy"]) ++ [t.1]⟩ : PyPath) ∉ D0))
    (hrem : ∀ r, c.remote = some r → ∃ p0 ps, c.ports = p0 :: ps ∧
      templatesOkB (allFormatters c ⟨B, KX⟩ p0) tmpls = true) :
    ∃ (nd3 : List PyPath) (nf : List (PyPath × String)),
      (andThen (liftE (⟨nd2 ++ D0, F0⟩ : FS)
          (FS.write ⟨nd2 ++ D0, F0⟩ ⟨B, KX ++ ["chal.json"]⟩ (chalJsonText c))) fun fs3 =>
       andThen (match c.remote with
                | none => RunResult.ok fs3
                | some r => deployPhase tmpls c ⟨B, KX⟩ r fs3) fun fs4 =>
       andThen (liftE fs4 (fs4.mkdirStrict ⟨B, KX ++ ["solve"]⟩)) fun fs5 =>
       andThen (liftE fs5 (fs5.write ⟨B, (KX ++ ["solve"]) ++ ["flag.txt"]⟩ c.flag)) fun fs6 =>
       andThen (liftE fs6 (fs6.mkdirStrict ⟨B, KX ++ ["src"]⟩)) fun fs7 =>
       andThen (liftE fs7 (fs7.write ⟨B, (KX ++ ["src"]) ++ ["Makefile"]⟩
         (makefileText c.name))) fun fs8 =>
       andThen (liftE fs8 (fs8.mkdirStrict ⟨B, KX ++ ["dist"]⟩)) RunResult.ok)
      = .ok ⟨nd3 ++ (nd2 ++ D0), nf ++ F0⟩ ∧
      FS.lookup ⟨nd3 ++ (nd2 ++ D0), nf ++ F0⟩ ⟨B, KX ++ ["chal.json"]⟩
        = some (chalJsonText c) ∧
      FS.lookup ⟨nd3 ++ (nd2 ++ D0), nf ++ F0⟩ ⟨B, (KX ++ ["solve"]) ++ ["flag.txt"]⟩
        = some c.flag ∧
      FS.lookup ⟨nd3 ++ (nd2 ++ D0), nf ++ F0⟩ ⟨B, (KX ++ ["src"]) ++ ["Makefile"]⟩
        = some (makefileText c.name) ∧
      (⟨B, KX ++ ["solve"]⟩ : PyPath) ∈ nd3 ∧
      (⟨B, KX ++ ["src"]⟩ : PyPath) ∈ nd3 ∧
      (⟨B, KX ++ ["dist"]⟩ : PyPath) ∈ nd3 ∧
      (∀ r, c.remote = some r →
        (⟨B, KX ++ ["deploy"]⟩ : PyPath) ∈ nd3 ∧
        FS.lookup ⟨nd3 ++ (nd2 ++ D0), nf ++ F0⟩ ⟨B, KX ++ ["deploy.sh"]⟩
          = some (deployShText r)) ∧
      (∀ q ∈ nd3, q = (⟨B, KX ++ ["solve"]⟩ : PyPath) ∨ q = ⟨B, KX ++ ["src"]⟩ ∨
        q = ⟨B, KX ++ ["dist"]⟩ ∨ (c.remote.isSome = true ∧ q = ⟨B, KX ++ ["deploy"]⟩)) ∧
      (∀ e ∈ nf, e.1 = (⟨B, KX ++ ["chal.json"]⟩ : PyPath) ∨
        e.1 = ⟨B, (KX ++ ["solve"]) ++ ["flag.txt"]⟩ ∨
        e.1 = ⟨B, (KX ++ ["src"]) ++ ["Makefile"]⟩ ∨
        (c.remote.isSome = true ∧ (e.1 = ⟨B, KX ++ ["deploy.sh"]⟩ ∨
          ∃ t ∈ tmpls, e.1 = ⟨B, (KX ++ ["deploy"]) ++ [t.1]⟩))) ∧
      (∀ r p0 ps, c.remote = some r → c.ports = p0 :: ps → (tmpls.map Prod.fst).Nodup →
        ∀ tname tcontent out, (tname, tcontent) ∈ tmpls →
          pyFormat (allFormatters c ⟨B, KX⟩ p0) tcontent.data = .ok out →
          FS.lookup ⟨nd3 ++ (nd2 ++ D0), nf ++ F0⟩ ⟨B, (KX ++ ["deploy"]) ++ [tname]⟩
            = some (String.mk out)) := by
  have hnd2ne : ∀ L : List String, L ≠ [] → (⟨B, KX ++ L⟩ : PyPath) ∉ nd2 := by
    intro L hL hmem
    rcases hnd2 _ hmem with he | hlen
    · injection he with _ h2
      exact hL (by simpa using h2)
    · simp only [List.length_append] at hlen
      omega
  have e3 : FS.write (⟨nd2 ++ D0, F0⟩ : FS) ⟨B, KX ++ ["chal.json"]⟩ (chalJsonText c) =
      .ok ((FS.put ⟨nd2 ++ D0, F0⟩ ⟨B, KX ++ ["chal.json"]⟩ "").put
        ⟨B, KX ++ ["chal.json"]⟩ (chalJsonText c)) :=
    write_eval _ (contains_false_of_not_mem (by
      intro hmem
      rcases List.mem_append.mp hmem with h | h
      · exact hnd2ne ["chal.json"] (by simp) h
      · exact hcj1 h))
      (by rw [parent_concat]; exact isDirB_of_mem hX)
  rw [e3]
  simp only [liftE_ok_eq, andThen_ok_eq]
  dsimp only [FS.put]
  cases hrm : c.remote with
  | none =>
    dsimp only
    simp only [andThen_ok_eq]
    refine ⟨[⟨B, KX ++ ["dist"]⟩, ⟨B, KX ++ ["src"]⟩, ⟨B, KX ++ ["solve"]⟩],
      [((⟨B, (KX ++ ["src"]) ++ ["Makefile"]⟩ : PyPath), makefileText c.name),
       ((⟨B, (KX ++ ["src"]) ++ ["Makefile"]⟩ : PyPath), ""),
       ((⟨B, (KX ++ ["solve"]) ++ ["flag.txt"]⟩ : PyPath), c.flag),
       ((⟨B, (KX ++ ["solve"]) ++ ["flag.txt"]⟩ : PyPath), ""),
       ((⟨B, KX ++ ["chal.json"]⟩ : PyPath), chalJsonText c),
       ((⟨B, KX ++ ["chal.json"]⟩ : PyPath), "")],
      ?_, ?_, ?_, ?_, by simp, by simp, by simp, ?_, ?_, ?_, ?_⟩
    · exact post_deploy_ok c B KX (nd2 ++ D0)
        (((⟨B, KX ++ ["chal.json"]⟩ : PyPath), chalJsonText c) ::
         ((⟨B, KX ++ ["chal.json"]⟩ : PyPath), "") :: F0)
        hKXne hX
        (by
          intro hm
          rcases List.mem_append.mp hm with h | h
          · exact hnd2ne ["solve"] (by simp) h
          · exact hsolve1 h)
        (by
          intro e he
          rcases List.mem_cons.mp he with rfl | he2
          · exact pne_app B KX ["chal.json"] ["solve"] (by decide)
          · rcases List.mem_cons.mp he2 with rfl | he3
            · exact pne_app B KX ["chal.json"] ["solve"] (by decide)
            · exact hsolve2 e he3)
        (by
          intro hm
          rcases List.mem_append.mp hm with h | h
          · exact hnd2ne ["src"] (by simp) h
          · exact hsrc1 h)
        (by
          intro e he
          rcases List.mem_cons.mp he with rfl | he2
          · exact pne_app B KX ["chal.json"] ["src"] (by decide)
          · rcases List.mem_cons.mp he2 with rfl | he3
            · exact pne_app B KX ["chal.json"] ["src"] (by decide)
            · exact hsrc2 e he3)
        (by
          intro hm
          rcases List.mem_append.mp hm with h | h
          · exact hnd2ne ["dist"] (by simp) h
          · exact hdist1 h)
        (by
          intro e he
          rcases List.mem_cons.mp he with rfl | he2
          · exact pne_app B KX ["chal.json"] ["dist"] (by decide)
          · rcases List.mem_cons.mp he2 with rfl | he3
            · exact pne_app B KX ["chal.json"] ["dist"] (by decide)
            · exact hdist2 e he3)
        (by
          intro hm
          rcases List.mem_append.mp hm with h | h
          · exact hnd2ne ["solve", "flag.txt"] (by simp) (by rw [List.append_assoc] at h; exact h)
          · exact hflag1 h)
        (by
          intro hm
          rcases List.mem_append.mp hm with h | h
          · exact hnd2ne ["src", "Makefile"] (by simp) (by rw [List.append_assoc] at h; exact h)
          · exact hmk1 h)
    · simp only [List.cons_append, List.append_assoc, List.nil_append]
      rw [lookup_cons_ne (pne_app B KX ["src", "Makefile"] ["chal.json"] (by decide)),
          lookup_cons_ne (pne_app B KX ["src", "Makefile"] ["chal.json"] (by decide)),
          lookup_cons_ne (pne_app B KX ["solve", "flag.txt"] ["chal.json"] (by decide)),
          lookup_cons_ne (pne_app B KX ["solve", "flag.txt"] ["chal.json"] (by decide)),
          lookup_cons_eq]
    · simp only [List.cons_append, List.append_assoc, List.nil_append]
      rw [lookup_cons_ne (pne_app B KX ["src", "Makefile"] ["solve", "flag.txt"] (by decide)),
          lookup_cons_ne (pne_app B KX ["src", "Makefile"] ["solve", "flag.txt"] (by decide)),
          lookup_cons_eq]
    · simp only [List.cons_append, List.append_assoc, List.nil_append]
      rw [lookup_cons_eq]
    · intro r hr
      exact absurd hr (by simp)
    · intro q hq
      simp only [List.mem_cons, List.not_mem_nil, or_false] at hq
      rcases hq with rfl | rfl | rfl
      · right; right; left; rfl
      · right; left; rfl
      · left; rfl
    · intro e he
      simp only [List.mem_cons, List.not_mem_nil, or_false] at he
      rcases he with rfl | rfl | rfl | rfl | rfl | rfl
      · right; right; left; rfl
      · right; right; left; rfl
      · right; left; rfl
      · right; left; rfl
      · left; rfl
      · left; rfl
    · intro r p0 ps hr
      exact absurd hr (by simp)
  | some r =>
    dsimp only
    obtain ⟨p0, ps, hports, htok⟩ := hrem r hrm
    obtain ⟨hdepD, hdepF, hdepsh, hdepT⟩ := hdep r hrm
    obtain ⟨htv, hts, htf⟩ := templatesOkB_spec htok
    dsimp only [deployPhase]
    rw [show pyJoin (⟨B, KX⟩ : PyPath) "deploy" = (⟨B, KX ++ ["deploy"]⟩ : PyPath) from rfl,
        show pyJoin (⟨B, KX⟩ : PyPath) "deploy.sh" = (⟨B, KX ++ ["deploy.sh"]⟩ : PyPath) from rfl]
    have e4 : FS.mkdirStrict (⟨nd2 ++ D0,
        ((⟨B, KX ++ ["chal.json"]⟩ : PyPath), chalJsonText c) ::
        ((⟨B, KX ++ ["chal.json"]⟩ : PyPath), "") :: F0⟩ : FS) ⟨B, KX ++ ["deploy"]⟩ =
        .ok (FS.addDir ⟨nd2 ++ D0,
        ((⟨B, KX ++ ["chal.json"]⟩ : PyPath), chalJsonText c) ::
        ((⟨B, KX ++ ["chal.json"]⟩ : PyPath), "") :: F0⟩ ⟨B, KX ++ ["deploy"]⟩) :=
      mkdir_eval (existsB_false_of (by
          intro hm
          rcases List.mem_append.mp hm with h | h
          · exact hnd2ne ["deploy"] (by simp) h
          · exact hdepD h)
        (by
          intro e he
          rcases List.mem_cons.mp he with rfl | he2
          · exact pne_app B KX ["chal.json"] ["deploy"] (by decide)
          · rcases List.mem_cons.mp he2 with rfl | he3
            · exact pne_app B KX ["chal.json"] ["deploy"] (by decide)
            · exact hdepF e he3)
        (by simp))
        (by rw [parent_concat]; exact isDirB_of_mem hX)
    rw [e4]
    simp only [liftE_ok_eq, andThen_ok_eq]
    dsimp only [FS.addDir]
    have e5 : FS.write (⟨(⟨B, KX ++ ["deploy"]⟩ : PyPath) :: (nd2 ++ D0),
        ((⟨B, KX ++ ["chal.json"]⟩ : PyPath), chalJsonText c) ::
        ((⟨B, KX ++ ["chal.json"]⟩ : PyPath), "") :: F0⟩ : FS)
        ⟨B, KX ++ ["deploy.sh"]⟩ (deployShText r) =
        .ok ((FS.put ⟨(⟨B, KX ++ ["deploy"]⟩ : PyPath) :: (nd2 ++ D0),
        ((⟨B, KX ++ ["chal.json"]⟩ : PyPath), chalJsonText c) ::
        ((⟨B, KX ++ ["chal.json"]⟩ : PyPath), "") :: F0⟩
          ⟨B, KX ++ ["deploy.sh"]⟩ "").put ⟨B, KX ++ ["deploy.sh"]⟩ (deployShText r)) :=
      write_eval _ (contains_false_of_not_mem (by
          intro hm
          rcases List.mem_cons.mp hm with he | hm2
          · exact pne_app B KX ["deploy.sh"] ["deploy"] (by decide) he
          · rcases List.mem_append.mp hm2 with h | h
            · exact hnd2ne ["deploy.sh"] (by simp) h
            · exact hdepsh h))
        (by rw [parent_concat]; exact isDirB_of_mem (by simp [hX]))
    rw [e5]
    simp only [liftE_ok_eq, andThen_ok_eq]
    dsimp only [FS.put]
    rw [hports]
    dsimp only
    obtain ⟨nf_t, hwt, hdom, hlu⟩ := writeTemplates_ok (allFormatters c ⟨B, KX⟩ p0)
      ⟨B, KX ++ ["deploy"]⟩ tmpls
      ⟨(⟨B, KX ++ ["deploy"]⟩ : PyPath) :: (nd2 ++ D0),
       ((⟨B, KX ++ ["deploy.sh"]⟩ : PyPath), deployShText r) ::
       ((⟨B, KX ++ ["deploy.sh"]⟩ : PyPath), "") ::
       ((⟨B, KX ++ ["chal.json"]⟩ : PyPath), chalJsonText c) ::
       ((⟨B, KX ++ ["chal.json"]⟩ : PyPath), "") :: F0⟩
      htv hts htf (by simp) (by
        intro t ht
        dsimp only
        refine contains_false_of_not_mem ?_
        intro hmem
        rcases List.mem_cons.mp hmem with he | hm2
        · exact path_ne_21 B KX "deploy" t.1 "deploy" he
        · rcases List.mem_append.mp hm2 with h | h
          · exact hnd2ne ["deploy", t.1] (by simp) (by rw [List.append_assoc] at h; exact h)
          · exact hdepT t ht h)
    dsimp only at hwt hdom hlu
    rw [hwt]
    simp only [andThen_ok_eq]
    have hnf_t_ne : ∀ (L : List String), (∀ x : String, L ≠ "deploy" :: [x]) →
        ∀ e ∈ nf_t, e.1 ≠ (⟨B, KX ++ L⟩ : PyPath) := by
      intro L hL e he hcon
      obtain ⟨t, htm, he1⟩ := hdom e he
      rw [he1] at hcon
      injection hcon with _ h2
      rw [List.append_assoc] at h2
      exact hL t.1 (List.append_cancel_left h2).symm
    refine ⟨[⟨B, KX ++ ["dist"]⟩, ⟨B, KX ++ ["src"]⟩, ⟨B, KX ++ ["solve"]⟩,
             ⟨B, KX ++ ["deploy"]⟩],
      ((⟨B, (KX ++ ["src"]) ++ ["Makefile"]⟩ : PyPath), makefileText c.name) ::
      ((⟨B, (KX ++ ["src"]) ++ ["Makefile"]⟩ : PyPath), "") ::
      ((⟨B, (KX ++ ["solve"]) ++ ["flag.txt"]⟩ : PyPath), c.flag) ::
      ((⟨B, (KX ++ ["solve"]) ++ ["flag.txt"]⟩ : PyPath), "") ::
      (nf_t ++ [((⟨B, KX ++ ["deploy.sh"]⟩ : PyPath), deployShText r),
                ((⟨B, KX ++ ["deploy.sh"]⟩ : PyPath), ""),
                ((⟨B, KX ++ ["chal.json"]⟩ : PyPath), chalJsonText c),
                ((⟨B, KX ++ ["chal.json"]⟩ : PyPath), "")]),
      ?_, ?_, ?_, ?_, by simp, by simp, by simp, ?_, ?_, ?_, ?_⟩
    · have heq := post_deploy_ok c B KX ((⟨B, KX ++ ["deploy"]⟩ : PyPath) :: (nd2 ++ D0))
        (nf_t ++ (((⟨B, KX ++ ["deploy.sh"]⟩ : PyPath), deployShText r) ::
         ((⟨B, KX ++ ["deploy.sh"]⟩ : PyPath), "") ::
         ((⟨B, KX ++ ["chal.json"]⟩ : PyPath), chalJsonText c) ::
         ((⟨B, KX ++ ["chal.json"]⟩ : PyPath), "") :: F0))
        hKXne (by simp [hX])
        (by
          intro hm
          rcases List.mem_cons.mp hm with he | hm2
          · exact pne_app B KX ["solve"] ["deploy"] (by decide) he
          · rcases List.mem_append.mp hm2 with h | h
            · exact hnd2ne ["solve"] (by simp) h
            · exact hsolve1 h)
        (by
          intro e he
          rcases List.mem_append.mp he with ht | hc
          · exact hnf_t_ne ["solve"]
              (by intro x h; injection h with h1 _; exact absurd h1 (by decide)) e ht
          · rcases List.mem_cons.mp hc with rfl | hc2
            · exact pne_app B KX ["deploy.sh"] ["solve"] (by decide)
            · rcases List.mem_cons.mp hc2 with rfl | hc3
              · exact pne_app B KX ["deploy.sh"] ["solve"] (by decide)
              · rcases List.mem_cons.mp hc3 with rfl | hc4
                · exact pne_app B KX ["chal.json"] ["solve"] (by decide)
                · rcases List.mem_cons.mp hc4 with rfl | hc5
                  · exact pne_app B KX ["chal.json"] ["solve"] (by decide)
                  · exact hsolve2 e hc5)
        (by
          intro hm
          rcases List.mem_cons.mp hm with he | hm2
          · exact pne_app B KX ["src"] ["deploy"] (by decide) he
          · rcases List.mem_append.mp hm2 with h | h
            · exact hnd2ne ["src"] (by simp) h
            · exact hsrc1 h)
        (by
          intro e he
          rcases List.mem_append.mp he with ht | hc
          · exact hnf_t_ne ["src"]
              (by intro x h; injection h with h1 _; exact absurd h1 (by decide)) e ht
          · rcases List.mem_cons.mp hc with rfl | hc2
            · exact pne_app B KX ["deploy.sh"] ["src"] (by decide)
            · rcases List.mem_cons.mp hc2 with rfl | hc3
              · exact pne_app B KX ["deploy.sh"] ["src"] (by decide)
              · rcases List.mem_cons.mp hc3 with rfl | hc4
                · exact pne_app B KX ["chal.json"] ["src"] (by decide)
                · rcases List.mem_cons.mp hc4 with rfl | hc5
                  · exact pne_app B KX ["chal.json"] ["src"] (by decide)
                  · exact hsrc2 e hc5)
        (by
          intro hm
          rcases List.mem_cons.mp hm with he | hm2
          · exact pne_app B KX ["dist"] ["deploy"] (by decide) he
          · rcases List.mem_append.mp hm2 with h | h
            · exact hnd2ne ["dist"] (by simp) h
            · exact hdist1 h)
        (by
          intro e he
          rcases List.mem_append.mp he with ht | hc
          · exact hnf_t_ne ["dist"]
              (by intro x h; injection h with h1 _; exact absurd h1 (by decide)) e ht
          · rcases List.mem_cons.mp hc with rfl | hc2
            · exact pne_app B KX ["deploy.sh"] ["dist"] (by decide)
            · rcases List.mem_cons.mp hc2 with rfl | hc3
              · exact pne_app B KX ["deploy.sh"] ["dist"] (by decide)
              · rcases List.mem_cons.mp hc3 with rfl | hc4
                · exact pne_app B KX ["chal.json"] ["dist"] (by decide)
                · rcases List.mem_cons.mp hc4 with rfl | hc5
                  · exact pne_app B KX ["chal.json"] ["dist"] (by decide)
                  · exact hdist2 e hc5)
        (by
          intro hm
          rcases List.mem_cons.mp hm with he | hm2
          · exact path_ne_21 B KX "solve" "flag.txt" "deploy" he
          · rcases List.mem_append.mp hm2 with h | h
            · exact hnd2ne ["solve", "flag.txt"] (by simp)
                (by rw [List.append_assoc] at h; exact h)
            · exact hflag1 h)
        (by
          intro hm
          rcases List.mem_cons.mp hm with he | hm2
          · exact path_ne_21 B KX "src" "Makefile" "deploy" he
          · rcases List.mem_append.mp hm2 with h | h
            · exact hnd2ne ["src", "Makefile"] (by simp)
                (by rw [List.append_assoc] at h; exact h)
            · exact hmk1 h)
      rw [heq]
      simp [List.append_assoc]
    · simp only [List.cons_append, List.append_assoc, List.nil_append]
      rw [lookup_cons_ne (pne_app B KX ["src", "Makefile"] ["chal.json"] (by decide)),
          lookup_cons_ne (pne_app B KX ["src", "Makefile"] ["chal.json"] (by decide)),
          lookup_cons_ne (pne_app B KX ["solve", "flag.txt"] ["chal.json"] (by decide)),
          lookup_cons_ne (pne_app B KX ["solve", "flag.txt"] ["chal.json"] (by decide)),
          lookup_skip _ _ _ nf_t (hnf_t_ne ["chal.json"]
            (by intro x h; injection h with h1 _; exact absurd h1 (by decide))),
          lookup_cons_ne (pne_app B KX ["deploy.sh"] ["chal.json"] (by decide)),
          lookup_cons_ne (pne_app B KX ["deploy.sh"] ["chal.json"] (by decide)),
          lookup_cons_eq]
    · simp only [List.cons_append, List.append_assoc, List.nil_append]
      rw [lookup_cons_ne (pne_app B KX ["src", "Makefile"] ["solve", "flag.txt"] (by decide)),
          lookup_cons_ne (pne_app B KX ["src", "Makefile"] ["solve", "flag.txt"] (by decide)),
          lookup_cons_eq]
    · simp only [List.cons_append, List.append_assoc, List.nil_append]
      rw [lookup_cons_eq]
    · intro r2 hr2
      obtain rfl : r = r2 := Option.some.inj hr2
      refine ⟨by simp, ?_⟩
      simp only [List.cons_append, List.append_assoc, List.nil_append]
      rw [lookup_cons_ne (pne_app B KX ["src", "Makefile"] ["deploy.sh"] (by decide)),
          lookup_cons_ne (pne_app B KX ["src", "Makefile"] ["deploy.sh"] (by decide)),
          lookup_cons_ne (pne_app B KX ["solve", "flag.txt"] ["deploy.sh"] (by decide)),
          lookup_cons_ne (pne_app B KX ["solve", "flag.txt"] ["deploy.sh"] (by decide)),
          lookup_skip _ _ _ nf_t (hnf_t_ne ["deploy.sh"]
            (by intro x h; injection h with h1 _; exact absurd h1 (by decide))),
          lookup_cons_eq]
    · intro q hq
      simp only [List.mem_cons, List.not_mem_nil, or_false] at hq
      rcases hq with rfl | rfl | rfl | rfl
      · right; right; left; rfl
      · right; left; rfl
      · left; rfl
      · right; right; right; exact ⟨rfl, rfl⟩
    · intro e he
      simp only [List.mem_cons, List.mem_append, List.not_mem_nil, or_false] at he
      rcases he with rfl | rfl | rfl | rfl | ht | rfl | rfl | rfl | rfl
      · right; right; left; rfl
      · right; right; left; rfl
      · right; left; rfl
      · right; left; rfl
      · obtain ⟨t, htm, he1⟩ := hdom e ht
        right; right; right
        exact ⟨rfl, Or.inr ⟨t, htm, he1⟩⟩
      · right; right; right; exact ⟨rfl, Or.inl rfl⟩
      · right; right; right; exact ⟨rfl, Or.inl rfl⟩
      · left; rfl
      · left; rfl
    · intro r2 p02 ps2 hr2 hports2 hnodup tname tcontent out htm hout
      injection hports2 with h1 h2
      subst h1
      simp only [List.cons_append, List.append_assoc, List.nil_append]
      rw [lookup_cons_ne (pne_app B KX ["src", "Makefile"] ["deploy", tname]
            (by intro h; injection h with h1 _; exact absurd h1 (by decide))),
          lookup_cons_ne (pne_app B KX ["src", "Makefile"] ["deploy", tname]
            (by intro h; injection h with h1 _; exact absurd h1 (by decide))),
          lookup_cons_ne (pne_app B KX ["solve", "flag.txt"] ["deploy", tname]
            (by intro h; injection h with h1 _; exact absurd h1 (by decide))),
          lookup_cons_ne (pne_app B KX ["solve", "flag.txt"] ["deploy", tname]
            (by intro h; injection h with h1 _; exact absurd h1 (by decide)))]
      have hl2 := hlu tname tcontent out htm hout hnodup
      rw [List.append_assoc] at hl2
      exact hl2

theorem createChallenge_ok_characterization
    (repo : Except Err PyPath) (tmpls : List (String × String)) (c : Challenge)
    (fs0 : FS) (cld : PyPath)
    (hcld : categoryDir repo c = .ok cld)
    (hname : validNameB c.name = true)
    (hA : fs0.existsB cld = true → fs0.isDirB cld = true)
    (hB : ∀ q ∈ cld.ancestorsUp, fs0.isFileB q = false)
    (hCD : (pyJoin cld c.name) ∈ fs0.dirs ∨ fs0.existsB (pyJoin cld c.name) = false)
    (hsolve : fs0.existsB (pyJoin (pyJoin cld c.name) "solve") = false)
    (hsrc : fs0.existsB (pyJoin (pyJoin cld c.name) "src") = false)
    (hdist : fs0.existsB (pyJoin (pyJoin cld c.name) "dist") = false)
    (hcj : fs0.dirs.contains (pyJoin (pyJoin cld c.name) "chal.json") = false)
    (hflag : fs0.dirs.contains (pyJoin (pyJoin (pyJoin cld c.name) "solve") "flag.txt") = false)
    (hmk : fs0.dirs.contains (pyJoin (pyJoin (pyJoin cld c.name) "src") "Makefile") = false)
    (hdep : c.remote.isSome = true →
      fs0.existsB (pyJoin (pyJoin cld c.name) "deploy") = false ∧
      fs0.dirs.contains (pyJoin (pyJoin cld c.name) "deploy.sh") = false ∧
      (∀ t ∈ tmpls,
        fs0.dirs.contains (pyJoin (pyJoin (pyJoin cld c.name) "deploy") t.1) = false))
    (hrem : ∀ r, c.remote = some r → ∃ p0 ps, c.ports = p0 :: ps ∧
      templatesOkB (allFormatters c (pyJoin cld c.name) p0) tmpls = true) :
    ∃ (nd : List PyPath) (nf : List (PyPath × String)),
      createChallenge repo tmpls c fs0 = .ok ⟨nd ++ fs0.dirs, nf ++ fs0.files⟩ ∧
      FS.lookup ⟨nd ++ fs0.dirs, nf ++ fs0.files⟩ (pyJoin (pyJoin cld c.name) "chal.json")
        = some (chalJsonText c) ∧
      FS.lookup ⟨nd ++ fs0.dirs, nf ++ fs0.files⟩
        (pyJoin (pyJoin (pyJoin cld c.name) "solve") "flag.txt") = some c.flag ∧
      FS.lookup ⟨nd ++ fs0.dirs, nf ++ fs0.files⟩
        (pyJoin (pyJoin (pyJoin cld c.name) "src") "Makefile") = some (makefileText c.name) ∧
      pyJoin cld c.name ∈ nd ++ fs0.dirs ∧
      pyJoin (pyJoin cld c.name) "solve" ∈ nd ++ fs0.dirs ∧
      pyJoin (pyJoin cld c.name) "src" ∈ nd ++ fs0.dirs ∧
      pyJoin (pyJoin cld c.name) "dist" ∈ nd ++ fs0.dirs ∧
      (∀ r, c.remote = some r →
        pyJoin (pyJoin cld c.name) "deploy" ∈ nd ++ fs0.dirs ∧
        FS.lookup ⟨nd ++ fs0.dirs, nf ++ fs0.files⟩ (pyJoin (pyJoin cld c.name) "deploy.sh")
          = some (deployShText r)) ∧
      (∀ q ∈ nd, q = pyJoin cld c.name ∨ q = pyJoin (pyJoin cld c.name) "solve" ∨
        q = pyJoin (pyJoin cld c.name) "src" ∨ q = pyJoin (pyJoin cld c.name) "dist" ∨
        (c.remote.isSome = true ∧ q = pyJoin (pyJoin cld c.name) "deploy") ∨
        q.comps.length ≤ cld.comps.length) ∧
      (∀ e ∈ nf, e.1 = pyJoin (pyJoin cld c.name) "chal.json" ∨
        e.1 = pyJoin (pyJoin (pyJoin cld c.name) "solve") "flag.txt" ∨
        e.1 = pyJoin (pyJoin (pyJoin cld c.name) "src") "Makefile" ∨
        (c.remote.isSome = true ∧ (e.1 = pyJoin (pyJoin cld c.name) "deploy.sh" ∨
          ∃ t ∈ tmpls, e.1 = pyJoin (pyJoin (pyJoin cld c.name) "deploy") t.1))) ∧
      (∀ r p0 ps, c.remote = some r → c.ports = p0 :: ps → (tmpls.map Prod.fst).Nodup →
        ∀ tname tcontent out, (tname, tcontent) ∈ tmpls →
          pyFormat (allFormatters c (pyJoin cld c.name) p0) tcontent.data = .ok out →
          FS.lookup ⟨nd ++ fs0.dirs, nf ++ fs0.files⟩
            (pyJoin (pyJoin (pyJoin cld c.name) "deploy") tname) = some (String.mk out)) := by
  have hj1 : pyJoin cld c.name = (⟨cld.isAbs, cld.comps ++ [c.name]⟩ : PyPath) :=
    pyJoin_single cld c.name hname
  have hj2 : pyJoin (⟨cld.isAbs, cld.comps ++ [c.name]⟩ : PyPath) "solve" =
      (⟨cld.isAbs, (cld.comps ++ [c.name]) ++ ["solve"]⟩ : PyPath) := rfl
  have hj3 : pyJoin (⟨cld.isAbs, cld.comps ++ [c.name]⟩ : PyPath) "src" =
      (⟨cld.isAbs, (cld.comps ++ [c.name]) ++ ["src"]⟩ : PyPath) := rfl
  have hj4 : pyJoin (⟨cld.isAbs, cld.comps ++ [c.name]⟩ : PyPath) "dist" =
      (⟨cld.isAbs, (cld.comps ++ [c.name]) ++ ["dist"]⟩ : PyPath) := rfl
  have hj5 : pyJoin (⟨cld.isAbs, cld.comps ++ [c.name]⟩ : PyPath) "chal.json" =
      (⟨cld.isAbs, (cld.comps ++ [c.name]) ++ ["chal.json"]⟩ : PyPath) := rfl
  have hj6 : pyJoin (⟨cld.isAbs, cld.comps ++ [c.name]⟩ : PyPath) "deploy" =
      (⟨cld.isAbs, (cld.comps ++ [c.name]) ++ ["deploy"]⟩ : PyPath) := rfl
  have hj7 : pyJoin (⟨cld.isAbs, cld.comps ++ [c.name]⟩ : PyPath) "deploy.sh" =
      (⟨cld.isAbs, (cld.comps ++ [c.name]) ++ ["deploy.sh"]⟩ : PyPath) := rfl
  have hj8 : pyJoin (⟨cld.isAbs, (cld.comps ++ [c.name]) ++ ["solve"]⟩ : PyPath) "flag.txt" =
      (⟨cld.isAbs, ((cld.comps ++ [c.name]) ++ ["solve"]) ++ ["flag.txt"]⟩ : PyPath) := rfl
  have hj9 : pyJoin (⟨cld.isAbs, (cld.comps ++ [c.name]) ++ ["src"]⟩ : PyPath) "Makefile" =
      (⟨cld.isAbs, ((cld.comps ++ [c.name]) ++ ["src"]) ++ ["Makefile"]⟩ : PyPath) := rfl
  dsimp only [createChallenge]
  rw [hcld]
  dsimp only
  rw [hj1] at hCD hsolve hsrc hdist hcj hflag hmk hdep hrem ⊢
  rw [hj2] at hsolve hflag ⊢
  rw [hj3] at hsrc hmk ⊢
  rw [hj4] at hdist ⊢
  rw [hj5] at hcj ⊢
  rw [hj6] at hdep ⊢
  rw [hj7] at hdep ⊢
  rw [hj8] at hflag ⊢
  rw [hj9] at hmk ⊢
  obtain ⟨fs1, ds, hrun1, hfs1, hdir1, hds⟩ := phase1_ok fs0 cld hA hB
  rw [hrun1]
  simp only [andThen_ok_eq]
  subst hfs1
  have hphase2 : ∃ nd2 : List PyPath,
      (if FS.existsB ⟨ds ++ fs0.dirs, fs0.files⟩ ⟨cld.isAbs, cld.comps ++ [c.name]⟩ then
        RunResult.ok ⟨ds ++ fs0.dirs, fs0.files⟩
       else liftE ⟨ds ++ fs0.dirs, fs0.files⟩
        (FS.mkdirStrict ⟨ds ++ fs0.dirs, fs0.files⟩ ⟨cld.isAbs, cld.comps ++ [c.name]⟩))
      = .ok ⟨nd2 ++ fs0.dirs, fs0.files⟩ ∧
      (⟨cld.isAbs, cld.comps ++ [c.name]⟩ : PyPath) ∈ nd2 ++ fs0.dirs ∧
      (∀ q ∈ nd2, q = (⟨cld.isAbs, cld.comps ++ [c.name]⟩ : PyPath) ∨
        q.comps.length ≤ cld.comps.length) := by
    rcases hCD with hin | hnex
    · have hex : FS.existsB ⟨ds ++ fs0.dirs, fs0.files⟩ ⟨cld.isAbs, cld.comps ++ [c.name]⟩
          = true := by
        have hdirb := @isDirB_of_mem ⟨ds ++ fs0.dirs, fs0.files⟩
          ⟨cld.isAbs, cld.comps ++ [c.name]⟩ (List.mem_append_right ds hin)
        simp [FS.existsB, hdirb]
      refine ⟨ds, ?_, List.mem_append_right ds hin, fun q hq => Or.inr (hds q hq)⟩
      rw [if_pos hex]
    · obtain ⟨hnd, hnf, hnc⟩ := existsB_false_spec hnex
      have hnotds : (⟨cld.isAbs, cld.comps ++ [c.name]⟩ : PyPath) ∉ ds :=
        comps_len_not_mem hds (by simp)
      have hex1 : FS.existsB ⟨ds ++ fs0.dirs, fs0.files⟩ ⟨cld.isAbs, cld.comps ++ [c.name]⟩
          = false := by
        refine existsB_false_of ?_ hnf hnc
        intro hm
        rcases List.mem_append.mp hm with h | h
        · exact hnotds h
        · exact hnd h
      refine ⟨(⟨cld.isAbs, cld.comps ++ [c.name]⟩ : PyPath) :: ds, ?_, by simp, ?_⟩
      · rw [if_neg (by rw [hex1]; simp),
            mkdir_eval hex1 (by rw [parent_concat]; exact hdir1), liftE_ok_eq]
        rfl
      · intro q hq
        rcases List.mem_cons.mp hq with rfl | h
        · exact Or.inl rfl
        · exact Or.inr (hds q h)
  obtain ⟨nd2, hrun2, hchalMem, hnd2c⟩ := hphase2
  rw [hrun2]
  simp only [andThen_ok_eq]
  obtain ⟨nd3, nf, hEq, h2, h3, h4, h5, h6, h7, h8, h9, h10, h11⟩ :=
    post_chalDir_ok tmpls c cld.isAbs (cld.comps ++ [c.name]) fs0.dirs fs0.files nd2
      (by simp) hchalMem
      (fun q hq => (hnd2c q hq).imp (fun h => h) (fun h => by
        simp only [List.length_append, List.length_cons, List.length_nil]
        omega))
      (existsB_false_spec hsolve).1 (existsB_false_spec hsolve).2.1
      (existsB_false_spec hsrc).1 (existsB_false_spec hsrc).2.1
      (existsB_false_spec hdist).1 (existsB_false_spec hdist).2.1
      (by simpa using hcj) (by simpa using hflag) (by simpa using hmk)
      (by
        intro r hr
        obtain ⟨hsA, hsB, hsC⟩ := hdep (by rw [hr]; rfl)
        obtain ⟨hdA, hdB, _⟩ := existsB_false_spec hsA
        refine ⟨hdA, hdB, by simpa using hsB, ?_⟩
        intro t ht
        obtain ⟨p0b, psb, hpb, htokb⟩ := hrem r hr
        obtain ⟨htvb, hx1, hx2⟩ := templatesOkB_spec htokb
        have h1 := hsC t ht
        rw [pyJoin_single _ _ (htvb t ht)] at h1
        simpa using h1)
      hrem
  refine ⟨nd3 ++ nd2, nf, ?_, ?_, ?_, ?_, ?_, ?_, ?_, ?_, ?_, ?_, ?_, ?_⟩
  · rw [List.append_assoc nd3 nd2 fs0.dirs]
    exact hEq
  · exact h2
  · exact h3
  · exact h4
  · rcases List.mem_append.mp hchalMem with h | h
    · exact List.mem_append_left _ (List.mem_append_right _ h)
    · exact List.mem_append_right _ h
  · exact List.mem_append_left _ (List.mem_append_left _ h5)
  · exact List.mem_append_left _ (List.mem_append_left _ h6)
  · exact List.mem_append_left _ (List.mem_append_left _ h7)
  · intro r hr
    obtain ⟨hdm, hdl⟩ := h8 r hr
    exact ⟨List.mem_append_left _ (List.mem_append_left _ hdm), hdl⟩
  · intro q hq
    rcases List.mem_append.mp hq with h | h
    · rcases h9 q h with rfl | rfl | rfl | ⟨hs, rfl⟩
      · right; left; rfl
      · right; right; left; rfl
      · right; right; right; left; rfl
      · right; right; right; right; left; exact ⟨hs, rfl⟩
    · rcases hnd2c q h with rfl | hlen
      · left; rfl
      · right; right; right; right; right; exact hlen
  · intro e he
    rcases h10 e he with h | h | h | ⟨hs, h⟩
    · left; exact h
    · right; left; exact h
    · right; right; left; exact h
    · right; right; right
      refine ⟨hs, ?_⟩
      rcases h with h | h
      · left; exact h
      · right
        obtain ⟨t, htm2, he1⟩ := h
        obtain ⟨r, hr⟩ := Option.isSome_iff_exists.mp hs
        obtain ⟨p0b, psb, hpb, htokb⟩ := hrem r hr
        obtain ⟨htvb, hx1, hx2⟩ := templatesOkB_spec htokb
        refine ⟨t, htm2, ?_⟩
        rw [pyJoin_single _ _ (htvb t htm2)]
        exact he1
  · intro r p0 ps hr hp hnodup tname tcontent out htm hout
    obtain ⟨p0b, psb, hpb, htokb⟩ := hrem r hr
    obtain ⟨htvb, hx1, hx2⟩ := templatesOkB_spec htokb
    rw [pyJoin_single _ _ (htvb (tname, tcontent) htm)]
    exact h11 r p0 ps hr hp hnodup tname tcontent out htm hout

theorem underB_length {d q : PyPath} (h : underB d q = true) :
    d.comps.length ≤ q.comps.length := by
  unfold underB at h
  simp only [Bool.and_eq_true] at h
  have h2 := h.2
  rw [List.isPrefixOf_iff_prefix] at h2
  exact h2.length_le

theorem lookup_isSome_mem (fs : FS) (p : PyPath) (h : (FS.lookup fs p).isSome = true) :
    ∃ e ∈ fs.files, e.1 = p := by
  unfold FS.lookup at h
  cases hf : List.find? (fun e => e.1 == p) fs.files with
  | none => rw [hf] at h; simp at h
  | some e =>
    have hm := List.mem_of_find?_eq_some hf
    have hb := List.find?_some hf
    exact ⟨e, hm, by simpa using hb⟩

/-- **C1.**  For a valid challenge description (well-formed name, resolvable
category directory, renderable templates with distinct names) scaffolded
into a filesystem holding nothing at or below the challenge directory, the
run succeeds and creates exactly the persisted layout: below the challenge
directory the directories are exactly the challenge directory itself,
`solve`, `src` and `dist` — plus `deploy` if and only if `remote` is set —
and the files are exactly `chal.json`, `solve/flag.txt`, `src/Makefile` —
plus `deploy.sh` and the rendered `deploy/` templates if and only if
`remote` is set. -/
theorem scaffold_creates_exact_layout
    (repo : Except Err PyPath) (tmpls : List (String × String)) (c : Challenge)
    (fs0 : FS) (cld : PyPath)
    (hcld : categoryDir repo c = .ok cld)
    (hname : validNameB c.name = true)
    (hA : fs0.existsB cld = true → fs0.isDirB cld = true)
    (hB : ∀ q ∈ cld.ancestorsUp, fs0.isFileB q = false)
    (hclean : fs0.cleanAtB (pyJoin cld c.name) = true)
    (hnodup : (tmpls.map Prod.fst).Nodup)
    (hrem : ∀ r, c.remote = some r → ∃ p0 ps, c.ports = p0 :: ps ∧
      templatesOkB (allFormatters c (pyJoin cld c.name) p0) tmpls = true) :
    ∃ (nd : List PyPath) (nf : List (PyPath × String)),
      createChallenge repo tmpls c fs0 = .ok ⟨nd ++ fs0.dirs, nf ++ fs0.files⟩ ∧
      FS.lookup ⟨nd ++ fs0.dirs, nf ++ fs0.files⟩ (pyJoin (pyJoin cld c.name) "chal.json")
        = some (chalJsonText c) ∧
      FS.lookup ⟨nd ++ fs0.dirs, nf ++ fs0.files⟩
        (pyJoin (pyJoin (pyJoin cld c.name) "solve") "flag.txt") = some c.flag ∧
      FS.lookup ⟨nd ++ fs0.dirs, nf ++ fs0.files⟩
        (pyJoin (pyJoin (pyJoin cld c.name) "src") "Makefile") = some (makefileText c.name) ∧
      (∀ q : PyPath, underB (pyJoin cld c.name) q = true →
        (q ∈ nd ++ fs0.dirs ↔
          (q = pyJoin cld c.name ∨ q = pyJoin (pyJoin cld c.name) "solve" ∨
           q = pyJoin (pyJoin cld c.name) "src" ∨ q = pyJoin (pyJoin cld c.name) "dist" ∨
           (c.remote.isSome = true ∧ q = pyJoin (pyJoin cld c.name) "deploy")))) ∧
      (∀ p : PyPath, underB (pyJoin cld c.name) p = true →
        ((FS.lookup ⟨nd ++ fs0.dirs, nf ++ fs0.files⟩ p).isSome = true ↔
          (p = pyJoin (pyJoin cld c.name) "chal.json" ∨
           p = pyJoin (pyJoin (pyJoin cld c.name) "solve") "flag.txt" ∨
           p = pyJoin (pyJoin (pyJoin cld c.name) "src") "Makefile" ∨
           (c.remote.isSome = true ∧ (p = pyJoin (pyJoin cld c.name) "deploy.sh" ∨
             ∃ t ∈ tmpls, p = pyJoin (pyJoin (pyJoin cld c.name) "deploy") t.1))))) ∧
      (∀ r, c.remote = some r →
        FS.lookup ⟨nd ++ fs0.dirs, nf ++ fs0.files⟩ (pyJoin (pyJoin cld c.name) "deploy.sh")
          = some (deployShText r)) := by
  have hj1 : pyJoin cld c.name = (⟨cld.isAbs, cld.comps ++ [c.name]⟩ : PyPath) :=
    pyJoin_single cld c.name hname
  have hj2 : pyJoin (⟨cld.isAbs, cld.comps ++ [c.name]⟩ : PyPath) "solve" =
      (⟨cld.isAbs, (cld.comps ++ [c.name]) ++ ["solve"]⟩ : PyPath) := rfl
  have hj3 : pyJoin (⟨cld.isAbs, cld.comps ++ [c.name]⟩ : PyPath) "src" =
      (⟨cld.isAbs, (cld.comps ++ [c.name]) ++ ["src"]⟩ : PyPath) := rfl
  have hj4 : pyJoin (⟨cld.isAbs, cld.comps ++ [c.name]⟩ : PyPath) "dist" =
      (⟨cld.isAbs, (cld.comps ++ [c.name]) ++ ["dist"]⟩ : PyPath) := rfl
  have hj5 : pyJoin (⟨cld.isAbs, cld.comps ++ [c.name]⟩ : PyPath) "chal.json" =
      (⟨cld.isAbs, (cld.comps ++ [c.name]) ++ ["chal.json"]⟩ : PyPath) := rfl
  have hj6 : pyJoin (⟨cld.isAbs, cld.comps ++ [c.name]⟩ : PyPath) "deploy" =
      (⟨cld.isAbs, (cld.comps ++ [c.name]) ++ ["deploy"]⟩ : PyPath) := rfl
  have hj7 : pyJoin (⟨cld.isAbs, cld.comps ++ [c.name]⟩ : PyPath) "deploy.sh" =
      (⟨cld.isAbs, (cld.comps ++ [c.name]) ++ ["deploy.sh"]⟩ : PyPath) := rfl
  have hj8 : pyJoin (⟨cld.isAbs, (cld.comps ++ [c.name]) ++ ["solve"]⟩ : PyPath) "flag.txt" =
      (⟨cld.isAbs, ((cld.comps ++ [c.name]) ++ ["solve"]) ++ ["flag.txt"]⟩ : PyPath) := rfl
  have hj9 : pyJoin (⟨cld.isAbs, (cld.comps ++ [c.name]) ++ ["src"]⟩ : PyPath) "Makefile" =
      (⟨cld.isAbs, ((cld.comps ++ [c.name]) ++ ["src"]) ++ ["Makefile"]⟩ : PyPath) := rfl
  rw [hj1] at hclean
  unfold FS.cleanAtB at hclean
  simp only [Bool.and_eq_true, List.all_eq_true] at hclean
  have hcs1 : ∀ p ∈ fs0.dirs,
      underB ⟨cld.isAbs, cld.comps ++ [c.name]⟩ p = false := by
    intro p hp
    have := hclean.1 p hp
    simpa using this
  have hcs2 : ∀ e ∈ fs0.files,
      underB ⟨cld.isAbs, cld.comps ++ [c.name]⟩ e.1 = false := by
    intro e he
    have := hclean.2 e he
    simpa using this
  have hndirG : ∀ (q : PyPath), underB ⟨cld.isAbs, cld.comps ++ [c.name]⟩ q = true →
      q ∉ fs0.dirs := by
    intro q hu hm
    have h1 := hcs1 q hm
    rw [hu] at h1
    exact Bool.noConfusion h1
  have hnfileG : ∀ (q : PyPath), underB ⟨cld.isAbs, cld.comps ++ [c.name]⟩ q = true →
      ∀ e ∈ fs0.files, e.1 ≠ q := by
    intro q hu e he heq
    have h1 := hcs2 e he
    rw [heq, hu] at h1
    exact Bool.noConfusion h1
  obtain ⟨nd, nf, mEq, mCJ, mFlag, mMk, mChal, mSolve, mSrc, mDist, mDep, mNdDom, mNfDom,
      mTmpl⟩ :=
    createChallenge_ok_characterization repo tmpls c fs0 cld hcld hname hA hB
      (Or.inr (by
        rw [hj1]
        exact existsB_false_of
          (hndirG _ (by simp [underB, List.isPrefixOf_iff_prefix]))
          (hnfileG _ (by simp [underB, List.isPrefixOf_iff_prefix]))
          (by simp)))
      (by
        rw [hj1, hj2]
        exact existsB_false_of
          (hndirG _ (by simp [underB, List.isPrefixOf_iff_prefix]))
          (hnfileG _ (by simp [underB, List.isPrefixOf_iff_prefix]))
          (by simp))
      (by
        rw [hj1, hj3]
        exact existsB_false_of
          (hndirG _ (by simp [underB, List.isPrefixOf_iff_prefix]))
          (hnfileG _ (by simp [underB, List.isPrefixOf_iff_prefix]))
          (by simp))
      (by
        rw [hj1, hj4]
        exact existsB_false_of
          (hndirG _ (by simp [underB, List.isPrefixOf_iff_prefix]))
          (hnfileG _ (by simp [underB, List.isPrefixOf_iff_prefix]))
          (by simp))
      (by
        rw [hj1, hj5]
        exact contains_false_of_not_mem
          (hndirG _ (by simp [underB, List.isPrefixOf_iff_prefix])))
      (by
        rw [hj1, hj2, hj8]
        exact contains_false_of_not_mem
          (hndirG _ (by simp [underB, List.isPrefixOf_iff_prefix, List.append_assoc])))
      (by
        rw [hj1, hj3, hj9]
        exact contains_false_of_not_mem
          (hndirG _ (by simp [underB, List.isPrefixOf_iff_prefix, List.append_assoc])))
      (by
        intro hsome
        refine ⟨by
            rw [hj1, hj6]
            exact existsB_false_of
              (hndirG _ (by simp [underB, List.isPrefixOf_iff_prefix]))
              (hnfileG _ (by simp [underB, List.isPrefixOf_iff_prefix]))
              (by simp),
          by
            rw [hj1, hj7]
            exact contains_false_of_not_mem
              (hndirG _ (by simp [underB, List.isPrefixOf_iff_prefix])), ?_⟩
        intro t ht
        obtain ⟨r, hr⟩ := Option.isSome_iff_exists.mp hsome
        obtain ⟨p0, ps, hpp, htok⟩ := hrem r hr
        obtain ⟨htv, hts2, htf2⟩ := templatesOkB_spec htok
        rw [hj1, hj6, pyJoin_single _ _ (htv t ht)]
        exact contains_false_of_not_mem
          (hndirG _ (by simp [underB, List.isPrefixOf_iff_prefix, List.append_assoc])))
      hrem
  refine ⟨nd, nf, mEq, mCJ, mFlag, mMk, ?_, ?_, ?_⟩
  · intro q hq
    rw [hj1] at hq
    constructor
    · intro hm
      rcases List.mem_append.mp hm with h | h
      · rcases mNdDom q h with h1 | h1 | h1 | h1 | ⟨hs, h1⟩ | h1
        · exact Or.inl h1
        · exact Or.inr (Or.inl h1)
        · exact Or.inr (Or.inr (Or.inl h1))
        · exact Or.inr (Or.inr (Or.inr (Or.inl h1)))
        · exact Or.inr (Or.inr (Or.inr (Or.inr ⟨hs, h1⟩)))
        · exfalso
          have hlen := underB_length hq
          simp only [List.length_append, List.length_cons, List.length_nil] at hlen
          omega
      · exact absurd hq (by rw [hcs1 q h]; simp)
    · intro hd
      rcases hd with rfl | rfl | rfl | rfl | ⟨hs, rfl⟩
      · exact mChal
      · exact mSolve
      · exact mSrc
      · exact mDist
      · obtain ⟨r, hr⟩ := Option.isSome_iff_exists.mp hs
        exact (mDep r hr).1
  · intro p hp
    rw [hj1] at hp
    constructor
    · intro hs2
      obtain ⟨e, he, heq⟩ := lookup_isSome_mem _ _ hs2
      subst heq
      rcases List.mem_append.mp he with h | h
      · exact mNfDom e h
      · exact absurd hp (by rw [hcs2 e h]; simp)
    · intro hd
      rcases hd with rfl | rfl | rfl | ⟨hs, hd2⟩
      · rw [mCJ]; rfl
      · rw [mFlag]; rfl
      · rw [mMk]; rfl
      · obtain ⟨r, hr⟩ := Option.isSome_iff_exists.mp hs
        rcases hd2 with rfl | ⟨t, ht, rfl⟩
        · rw [(mDep r hr).2]; rfl
        · obtain ⟨p0, ps, hpp, htok⟩ := hrem r hr
          obtain ⟨htv, hts2, htf2⟩ := templatesOkB_spec htok
          obtain ⟨out, hout⟩ := exceptIsOk_ok (htf2 t ht)
          rw [mTmpl r p0 ps hr hpp hnodup t.1 t.2 out (by simpa using ht) hout]
          rfl
  · intro r hr
    exact (mDep r hr).2

theorem fmtRun_lit_chunk (rest : List Char) :
    ∀ (s : List Char), (∀ c ∈ s, ¬c = '\x7b' ∧ ¬c = '\x7d') →
      fmtRun .lit (s ++ rest) =
        ((s.map FmtItem.lit) ++ (fmtRun .lit rest).1, (fmtRun .lit rest).2) := by
  intro s
  induction s with
  | nil => intro _; simp
  | cons c s2 ih =>
    intro h
    have hc := h c (by simp)
    have hstep : fmtStep .lit c = some ([FmtItem.lit c], .lit) := by
      simp only [fmtStep]
      rw [if_neg hc.1, if_neg hc.2]
    rw [List.cons_append]
    simp only [fmtRun]
    rw [hstep]
    dsimp only
    rw [ih (fun x hx => h x (by simp [hx]))]
    simp

theorem fmtRun_name_loop (rest : List Char) :
    ∀ (ks : List Char) (acc : List Char),
      (∀ c ∈ ks, ¬c = '\x7d' ∧ ¬c = ':' ∧ ¬c = '!' ∧ ¬c = '\x7b') →
      fmtRun (.name acc) (ks ++ '\x7d' :: rest) =
        (FmtItem.field (String.mk (acc.reverse ++ ks)) [] none :: (fmtRun .lit rest).1,
         (fmtRun .lit rest).2) := by
  intro ks
  induction ks with
  | nil =>
    intro acc _
    have hstep : fmtStep (.name acc) '\x7d' =
        some ([FmtItem.field (String.mk acc.reverse) [] none], .lit) := by
      simp [fmtStep, nameStep]
    rw [List.nil_append]
    simp only [fmtRun]
    rw [hstep]
    simp
  | cons c ks2 ih =>
    intro acc h
    have hc := h c (by simp)
    have hstep : fmtStep (.name acc) c = some ([], .name (c :: acc)) := by
      simp only [fmtStep, nameStep]
      rw [if_neg hc.1, if_neg hc.2.1, if_neg hc.2.2.1, if_neg hc.2.2.2]
    rw [List.cons_append]
    simp only [fmtRun]
    rw [hstep]
    dsimp only
    rw [ih (c :: acc) (fun x hx => h x (by simp [hx]))]
    simp

theorem fmtRun_segs : ∀ (segs : List Seg), (∀ sg ∈ segs, segShapeB sg = true) →
    fmtRun .lit (tmplText segs).data = (segsItems segs, none) := by
  intro segs
  induction segs with
  | nil => intro _; rfl
  | cons sg rest ih =>
    intro h
    have ihr := ih (fun x hx => h x (by simp [hx]))
    cases sg with
    | lit s =>
      have hs := h (.lit s) (by simp)
      simp only [segShapeB, litFreeB, Bool.and_eq_true, Bool.not_eq_true',
        List.any_eq_false] at hs
      have hfree : ∀ c ∈ s.data, ¬c = '\x7b' ∧ ¬c = '\x7d' := by
        intro c hcm
        exact ⟨by simpa using hs.1 c hcm, by simpa using hs.2 c hcm⟩
      show fmtRun .lit (Seg.text (Seg.lit s) ++ tmplText rest).data = _
      rw [String.data_append]
      rw [show Seg.text (Seg.lit s) = s from rfl]
      rw [fmtRun_lit_chunk _ s.data hfree, ihr]
      rfl
    | ph k =>
      have hs := h (.ph k) (by simp)
      simp only [segShapeB, keyShapeB, Bool.and_eq_true, Bool.not_eq_true',
        List.any_eq_false] at hs
      have hkey : ∀ c ∈ k.data, ¬c = '\x7d' ∧ ¬c = ':' ∧ ¬c = '!' ∧ ¬c = '\x7b' := by
        intro c hcm
        exact ⟨by simpa using hs.1.1.2 c hcm, by simpa using hs.1.2 c hcm,
          by simpa using hs.2 c hcm, by simpa using hs.1.1.1 c hcm⟩
      have hopstep : fmtStep .lit '\x7b' = some ([], .afterOpen) := by
        simp [fmtStep]
      have hdata : (Seg.text (Seg.ph k) ++ tmplText rest).data =
          '\x7b' :: (k.data ++ '\x7d' :: (tmplText rest).data) := by
        show (("\x7b" ++ k ++ "\x7d") ++ tmplText rest).data = _
        simp [String.data_append]
      show fmtRun .lit (Seg.text (Seg.ph k) ++ tmplText rest).data = _
      rw [hdata]
      simp only [fmtRun]
      rw [hopstep]
      dsimp only
      cases hkd : k.data with
      | nil =>
        rw [List.nil_append]
        simp only [fmtRun]
        have hstep2 : fmtStep .afterOpen '\x7d' =
            some ([FmtItem.field (String.mk []) [] none], .lit) := by
          simp [fmtStep, nameStep]
        rw [hstep2]
        dsimp only
        rw [ihr]
        have hk0 : String.mk [] = k := by rw [← hkd]
        rw [hk0]
        rfl
      | cons c kr =>
        have hc : ¬c = '\x7b' ∧ ¬c = '\x7d' ∧ ¬c = ':' ∧ ¬c = '!' := by
          have := hkey c (by rw [hkd]; simp)
          exact ⟨this.2.2.2, this.1, this.2.1, this.2.2.1⟩
        rw [List.cons_append]
        simp only [fmtRun]
        have hstep2 : fmtStep .afterOpen c = some ([], .name [c]) := by
          simp only [fmtStep]
          rw [if_neg hc.1]
          simp only [nameStep]
          rw [if_neg hc.2.1, if_neg hc.2.2.1, if_neg hc.2.2.2, if_neg hc.1]
        rw [hstep2]
        dsimp only
        rw [fmtRun_name_loop _ kr [c] (fun x hx => hkey x (by rw [hkd]; simp [hx]))]
        rw [ihr]
        have hk0 : String.mk ([c].reverse ++ kr) = k := by
          show String.mk (c :: kr) = k
          rw [← hkd]
        rw [hk0]
        rfl

theorem renderItems_lits (tbl : String → Option String) :
    ∀ (cs : List Char) (items : List FmtItem),
      renderItems tbl (cs.map FmtItem.lit ++ items) =
        (renderItems tbl items).map (fun out => cs ++ out) := by
  intro cs
  induction cs with
  | nil =>
    intro items
    cases h : renderItems tbl items <;> simp [h, Except.map]
  | cons c cs2 ih =>
    intro items
    simp only [List.map_cons, List.cons_append]
    simp only [renderItems]
    rw [ih]
    cases h : renderItems tbl items <;> simp [h, Except.map]

theorem renderItems_segs (tbl : String → Option String) :
    ∀ (segs : List Seg), (∀ k, Seg.ph k ∈ segs → (tbl k).isSome = true) →
      renderItems tbl (segsItems segs) = .ok (renderSegs tbl segs) := by
  intro segs
  induction segs with
  | nil => intro _; rfl
  | cons sg rest ih =>
    intro h
    cases sg with
    | lit s =>
      show renderItems tbl (s.data.map FmtItem.lit ++ segsItems rest) = _
      rw [renderItems_lits, ih (fun k hk => h k (by simp [hk]))]
      rfl
    | ph k =>
      have hk := h k (by simp)
      obtain ⟨v, hv⟩ := Option.isSome_iff_exists.mp hk
      show renderItems tbl (FmtItem.field k [] none :: segsItems rest) = _
      simp only [renderItems]
      rw [hv]
      dsimp only
      rw [ih (fun k2 hk2 => h k2 (by simp [hk2]))]
      show Except.ok (v.data ++ renderSegs tbl rest) = _
      simp [renderSegs, hv]

theorem scanItems_lits (tbl : String → Option String) :
    ∀ (cs : List Char) (items : List FmtItem),
      scanItems tbl (cs.map FmtItem.lit ++ items) = scanItems tbl items := by
  intro cs
  induction cs with
  | nil => intro items; rfl
  | cons c cs2 ih =>
    intro items
    simp only [List.map_cons, List.cons_append]
    simp only [scanItems]
    exact ih items

theorem pyFormat_segs (tbl : String → Option String) (segs : List Seg)
    (hsh : ∀ sg ∈ segs, segShapeB sg = true)
    (hk : ∀ k, Seg.ph k ∈ segs → (tbl k).isSome = true) :
    pyFormat tbl (tmplText segs).data = .ok (renderSegs tbl segs) := by
  unfold pyFormat
  dsimp only
  rw [fmtRun_segs segs hsh]
  dsimp only
  rw [renderItems_segs tbl segs hk]

theorem scanItems_segs_missing (tbl : String → Option String) :
    ∀ (segs : List Seg), (∃ k, Seg.ph k ∈ segs ∧ tbl k = none) →
      ∃ k, tbl k = none ∧ Seg.ph k ∈ segs ∧
        scanItems tbl (segsItems segs) = .error (.keyError k) := by
  intro segs
  induction segs with
  | nil =>
    intro hex
    obtain ⟨k, hk, _⟩ := hex
    exact absurd hk (by simp)
  | cons sg rest ih =>
    intro hex
    cases sg with
    | lit s =>
      have hex2 : ∃ k, Seg.ph k ∈ rest ∧ tbl k = none := by
        obtain ⟨k, hk, hn⟩ := hex
        rcases List.mem_cons.mp hk with he | hm
        · exact Seg.noConfusion he
        · exact ⟨k, hm, hn⟩
      obtain ⟨k, hn, hm, herr⟩ := ih hex2
      refine ⟨k, hn, by simp [hm], ?_⟩
      show scanItems tbl (s.data.map FmtItem.lit ++ segsItems rest) = _
      rw [scanItems_lits, herr]
    | ph k2 =>
      cases hk2 : tbl k2 with
      | none =>
        refine ⟨k2, hk2, by simp, ?_⟩
        show scanItems tbl (FmtItem.field k2 [] none :: segsItems rest) = _
        simp only [scanItems]
        rw [hk2]
      | some v =>
        have hex2 : ∃ k, Seg.ph k ∈ rest ∧ tbl k = none := by
          obtain ⟨k, hk, hn⟩ := hex
          rcases List.mem_cons.mp hk with he | hm
          · injection he with he2
            subst he2
            rw [hk2] at hn
            exact Option.noConfusion hn
          · exact ⟨k, hm, hn⟩
        obtain ⟨k, hn, hm, herr⟩ := ih hex2
        refine ⟨k, hn, by simp [hm], ?_⟩
        show scanItems tbl (FmtItem.field k2 [] none :: segsItems rest) = _
        simp only [scanItems]
        rw [hk2, herr]

theorem scanTemplate_segs_missing (tbl : String → Option String) (segs : List Seg)
    (hsh : ∀ sg ∈ segs, segShapeB sg = true)
    (hex : ∃ k, Seg.ph k ∈ segs ∧ tbl k = none) :
    ∃ k, tbl k = none ∧ Seg.ph k ∈ segs ∧
      scanTemplate tbl (tmplText segs).data = .error (.keyError k) := by
  obtain ⟨k, hn, hm, herr⟩ := scanItems_segs_missing tbl segs hex
  refine ⟨k, hn, hm, ?_⟩
  unfold scanTemplate
  dsimp only
  rw [fmtRun_segs segs hsh]
  dsimp only
  rw [herr]

/-- **C5** counterexample: with a relative target directory the rendered
`dist_path` placeholder is the *relative* path of the `dist` subdirectory
(`str(chal_dir / "dist")`), not an absolute path as the specification
claims. -/
theorem dist_path_not_absolute_counterexample :
    (createChallenge (Except.ok ⟨false, []⟩) [("t", "\x7bdist_path\x7d")]
      ⟨ChalType.pwn, "x", "a", "d", "Easy", "f", [], [5], some ["run"], some "out"⟩
      ⟨[], []⟩).isOk = true ∧
    FS.lookup (createChallenge (Except.ok ⟨false, []⟩) [("t", "\x7bdist_path\x7d")]
      ⟨ChalType.pwn, "x", "a", "d", "Easy", "f", [], [5], some ["run"], some "out"⟩
      ⟨[], []⟩).fsOf ⟨false, ["out", "x", "deploy", "t"]⟩ = some "out/x/dist" ∧
    strIsAbsB "out/x/dist" = false := by
  refine ⟨by decide, by decide, by decide⟩

/-- **C5** (amended).  A deploy template made of brace-free literal chunks
and plain placeholders drawn from `\x7bname, dist_path, port\x7d` renders to
exactly the template text with each placeholder replaced by its table value
and every literal chunk byte-for-byte unchanged (`renderSegs`); the table
maps `name` to the challenge name, `port` to the decimal string of
`ports[0]`, and `dist_path` to `str(chal_dir / "dist")` — which is absolute
only when the challenge directory itself is absolute.  Only placeholders
present in the template are consulted. -/
theorem template_rendering_amended
    (repo : Except Err PyPath) (tmpls : List (String × String)) (c : Challenge)
    (fs0 : FS) (cld : PyPath) (segs : List Seg) (tname : String)
    (r : List String) (p0 : Int) (ps : List Int)
    (hcld : categoryDir repo c = .ok cld)
    (hname : validNameB c.name = true)
    (hA : fs0.existsB cld = true → fs0.isDirB cld = true)
    (hB : ∀ q ∈ cld.ancestorsUp, fs0.isFileB q = false)
    (hCD : (pyJoin cld c.name) ∈ fs0.dirs ∨ fs0.existsB (pyJoin cld c.name) = false)
    (hsolve : fs0.existsB (pyJoin (pyJoin cld c.name) "solve") = false)
    (hsrc : fs0.existsB (pyJoin (pyJoin cld c.name) "src") = false)
    (hdist : fs0.existsB (pyJoin (pyJoin cld c.name) "dist") = false)
    (hcj : fs0.dirs.contains (pyJoin (pyJoin cld c.name) "chal.json") = false)
    (hflag : fs0.dirs.contains (pyJoin (pyJoin (pyJoin cld c.name) "solve") "flag.txt") = false)
    (hmk : fs0.dirs.contains (pyJoin (pyJoin (pyJoin cld c.name) "src") "Makefile") = false)
    (hdep : c.remote.isSome = true →
      fs0.existsB (pyJoin (pyJoin cld c.name) "deploy") = false ∧
      fs0.dirs.contains (pyJoin (pyJoin cld c.name) "deploy.sh") = false ∧
      (∀ t ∈ tmpls,
        fs0.dirs.contains (pyJoin (pyJoin (pyJoin cld c.name) "deploy") t.1) = false))
    (hrem : ∀ r2, c.remote = some r2 → ∃ q0 qs, c.ports = q0 :: qs ∧
      templatesOkB (allFormatters c (pyJoin cld c.name) q0) tmpls = true)
    (hnodup : (tmpls.map Prod.fst).Nodup)
    (hr : c.remote = some r) (hports : c.ports = p0 :: ps)
    (hmem : (tname, tmplText segs) ∈ tmpls)
    (hsh : ∀ sg ∈ segs, segShapeB sg = true)
    (hkeys : ∀ k, Seg.ph k ∈ segs → k = "name" ∨ k = "dist_path" ∨ k = "port") :
    ∃ (nd : List PyPath) (nf : List (PyPath × String)),
      createChallenge repo tmpls c fs0 = .ok ⟨nd ++ fs0.dirs, nf ++ fs0.files⟩ ∧
      FS.lookup ⟨nd ++ fs0.dirs, nf ++ fs0.files⟩
        (pyJoin (pyJoin (pyJoin cld c.name) "deploy") tname)
        = some (String.mk (renderSegs (allFormatters c (pyJoin cld c.name) p0) segs)) ∧
      allFormatters c (pyJoin cld c.name) p0 "name" = some c.name ∧
      allFormatters c (pyJoin cld c.name) p0 "port" = some (toString p0) ∧
      allFormatters c (pyJoin cld c.name) p0 "dist_path"
        = some (pathStr (pyJoin (pyJoin cld c.name) "dist")) := by
  obtain ⟨nd, nf, mEq, _, _, _, _, _, _, _, _, _, _, mTmpl⟩ :=
    createChallenge_ok_characterization repo tmpls c fs0 cld hcld hname hA hB hCD
      hsolve hsrc hdist hcj hflag hmk hdep hrem
  have hkIsSome : ∀ k, Seg.ph k ∈ segs →
      (allFormatters c (pyJoin cld c.name) p0 k).isSome = true := by
    intro k hk
    rcases hkeys k hk with rfl | rfl | rfl <;> rfl
  have hout : pyFormat (allFormatters c (pyJoin cld c.name) p0) (tmplText segs).data =
      .ok (renderSegs (allFormatters c (pyJoin cld c.name) p0) segs) :=
    pyFormat_segs _ segs hsh hkIsSome
  exact ⟨nd, nf, mEq,
    mTmpl r p0 ps hr hports hnodup tname (tmplText segs) _ hmem hout, rfl, rfl, rfl⟩

theorem template_rendering_amended_witness :
    (createChallenge (Except.ok ⟨false, []⟩) [("t", "P=\x7bport\x7d")]
      ⟨ChalType.pwn, "x", "a", "d", "Easy", "f", [], [5], some ["run"], some "out"⟩
      ⟨[], []⟩).isOk = true := by
  obtain ⟨nd, nf, hEq, hrest⟩ := template_rendering_amended (Except.ok ⟨false, []⟩)
    [("t", "P=\x7bport\x7d")]
    ⟨ChalType.pwn, "x", "a", "d", "Easy", "f", [], [5], some ["run"], some "out"⟩
    ⟨[], []⟩ ⟨false, ["out"]⟩ [Seg.lit "P=", Seg.ph "port"] "t" ["run"] 5 []
    rfl (by decide) (by decide) (by decide) (by decide) (by decide) (by decide)
    (by decide) (by decide) (by decide) (by decide) (by decide)
    (by
      intro r2 hr2
      obtain rfl := Option.some.inj hr2
      exact ⟨5, [], rfl, by decide⟩)
    (by decide) rfl rfl (by decide) (by decide)
    (by
      intro k hk
      simp only [List.mem_cons, List.not_mem_nil, or_false] at hk
      rcases hk with he | he
      · exact Seg.noConfusion he
      · injection he with he2
        exact Or.inr (Or.inr he2))
  rw [hEq]
  rfl

/-- **C3** counterexample: a deploy template whose placeholder key is
outside `\x7bname, dist_path, port\x7d` does abort the run with a lookup
(`KeyError`) failure — but a file **is** written for that template: the
target was opened (truncated) before formatting, so an empty file remains
in `deploy/`. -/
theorem template_unknown_key_counterexample :
    (createChallenge (Except.ok ⟨false, []⟩) [("t.yml", "\x7bbad\x7d")]
      ⟨ChalType.pwn, "x", "a", "d", "Easy", "f", [], [5], some ["run"], some "out"⟩
      ⟨[], []⟩).errOf = some (Err.keyError "bad") ∧
    FS.lookup (createChallenge (Except.ok ⟨false, []⟩) [("t.yml", "\x7bbad\x7d")]
      ⟨ChalType.pwn, "x", "a", "d", "Easy", "f", [], [5], some ["run"], some "out"⟩
      ⟨[], []⟩).fsOf ⟨false, ["out", "x", "deploy", "t.yml"]⟩ = some "" := by
  refine ⟨by decide, by decide⟩

/-- **C3** (amended).  A well-shaped template referencing a placeholder key
missing from the substitution table makes the deploy-template loop abort
with `KeyError` on that key, and the template's target file is still
created: it was opened (truncated) before formatting, so an empty file for
that template remains. -/
theorem template_unknown_key_amended
    (tbl : String → Option String) (dd : PyPath) (tname : String) (segs : List Seg)
    (rest : List (String × String)) (fs : FS)
    (hopen : fs.openW (pyJoin dd tname) = .ok (fs.put (pyJoin dd tname) ""))
    (hsh : ∀ sg ∈ segs, segShapeB sg = true)
    (hex : ∃ k, Seg.ph k ∈ segs ∧ tbl k = none) :
    ∃ k, tbl k = none ∧ Seg.ph k ∈ segs ∧
      writeTemplates tbl dd ((tname, tmplText segs) :: rest) fs =
        .err (.keyError k) (fs.put (pyJoin dd tname) "") ∧
      FS.lookup (fs.put (pyJoin dd tname) "") (pyJoin dd tname) = some "" := by
  obtain ⟨k, hn, hm, herr⟩ := scanTemplate_segs_missing tbl segs hsh hex
  refine ⟨k, hn, hm, ?_, lookup_put_same fs _ ""⟩
  simp only [writeTemplates]
  rw [hopen]
  dsimp only
  rw [herr]

theorem template_unknown_key_amended_witness :
    writeTemplates (fun _ => none) ⟨false, ["d"]⟩ [("t", tmplText [Seg.ph "bad"])]
      ⟨[⟨false, ["d"]⟩], []⟩ =
      .err (Err.keyError "bad")
        (FS.put ⟨[⟨false, ["d"]⟩], []⟩ (pyJoin ⟨false, ["d"]⟩ "t") "") := by
  obtain ⟨k, hn, hm, herr, hlook⟩ := template_unknown_key_amended (fun _ => none)
    ⟨false, ["d"]⟩ "t" [Seg.ph "bad"] [] ⟨[⟨false, ["d"]⟩], []⟩ rfl (by decide)
    ⟨"bad", by simp, rfl⟩
  simp only [List.mem_cons, List.not_mem_nil, or_false] at hm
  injection hm with hm2
  subst hm2
  exact herr

/-- **C10.**  Two challenge descriptions that differ only in the elements
of `ports` after the first produce byte-identical contents for every
generated file except `chal.json`: the flag file, the Makefile, the deploy
script and every rendered deploy template agree, while each run's
`chal.json` serializes its own record — only `ports[0]` flows into the
deploy templating. -/
theorem ports_tail_noninterference
    (repo : Except Err PyPath) (tmpls : List (String × String)) (c : Challenge)
    (fs0 : FS) (cld : PyPath) (p0 : Int) (ps ps2 : List Int)
    (hports : c.ports = p0 :: ps)
    (hcld : categoryDir repo c = .ok cld)
    (hname : validNameB c.name = true)
    (hA : fs0.existsB cld = true → fs0.isDirB cld = true)
    (hB : ∀ q ∈ cld.ancestorsUp, fs0.isFileB q = false)
    (hCD : (pyJoin cld c.name) ∈ fs0.dirs ∨ fs0.existsB (pyJoin cld c.name) = false)
    (hsolve : fs0.existsB (pyJoin (pyJoin cld c.name) "solve") = false)
    (hsrc : fs0.existsB (pyJoin (pyJoin cld c.name) "src") = false)
    (hdist : fs0.existsB (pyJoin (pyJoin cld c.name) "dist") = false)
    (hcj : fs0.dirs.contains (pyJoin (pyJoin cld c.name) "chal.json") = false)
    (hflag : fs0.dirs.contains (pyJoin (pyJoin (pyJoin cld c.name) "solve") "flag.txt") = false)
    (hmk : fs0.dirs.contains (pyJoin (pyJoin (pyJoin cld c.name) "src") "Makefile") = false)
    (hdep : c.remote.isSome = true →
      fs0.existsB (pyJoin (pyJoin cld c.name) "deploy") = false ∧
      fs0.dirs.contains (pyJoin (pyJoin cld c.name) "deploy.sh") = false ∧
      (∀ t ∈ tmpls,
        fs0.dirs.contains (pyJoin (pyJoin (pyJoin cld c.name) "deploy") t.1) = false))
    (hrem : ∀ r, c.remote = some r → ∃ q0 qs, c.ports = q0 :: qs ∧
      templatesOkB (allFormatters c (pyJoin cld c.name) q0) tmpls = true)
    (hnodup : (tmpls.map Prod.fst).Nodup) :
    ∃ (nd : List PyPath) (nf : List (PyPath × String))
      (nd2 : List PyPath) (nf2 : List (PyPath × String)),
      createChallenge repo tmpls c fs0 = .ok ⟨nd ++ fs0.dirs, nf ++ fs0.files⟩ ∧
      createChallenge repo tmpls
        ⟨c.type, c.name, c.author, c.description, c.difficulty, c.flag, c.provides,
          p0 :: ps2, c.remote, c.target⟩ fs0 = .ok ⟨nd2 ++ fs0.dirs, nf2 ++ fs0.files⟩ ∧
      (FS.lookup ⟨nd ++ fs0.dirs, nf ++ fs0.files⟩
          (pyJoin (pyJoin (pyJoin cld c.name) "solve") "flag.txt") = some c.flag ∧
       FS.lookup ⟨nd2 ++ fs0.dirs, nf2 ++ fs0.files⟩
          (pyJoin (pyJoin (pyJoin cld c.name) "solve") "flag.txt") = some c.flag) ∧
      (FS.lookup ⟨nd ++ fs0.dirs, nf ++ fs0.files⟩
          (pyJoin (pyJoin (pyJoin cld c.name) "src") "Makefile")
          = some (makefileText c.name) ∧
       FS.lookup ⟨nd2 ++ fs0.dirs, nf2 ++ fs0.files⟩
          (pyJoin (pyJoin (pyJoin cld c.name) "src") "Makefile")
          = some (makefileText c.name)) ∧
      (∀ r, c.remote = some r →
        FS.lookup ⟨nd ++ fs0.dirs, nf ++ fs0.files⟩
            (pyJoin (pyJoin cld c.name) "deploy.sh") = some (deployShText r) ∧
        FS.lookup ⟨nd2 ++ fs0.dirs, nf2 ++ fs0.files⟩
            (pyJoin (pyJoin cld c.name) "deploy.sh") = some (deployShText r)) ∧
      (∀ tname tcontent out, (tname, tcontent) ∈ tmpls →
        pyFormat (allFormatters c (pyJoin cld c.name) p0) tcontent.data = .ok out →
        ∀ r, c.remote = some r →
        FS.lookup ⟨nd ++ fs0.dirs, nf ++ fs0.files⟩
            (pyJoin (pyJoin (pyJoin cld c.name) "deploy") tname) = some (String.mk out) ∧
        FS.lookup ⟨nd2 ++ fs0.dirs, nf2 ++ fs0.files⟩
            (pyJoin (pyJoin (pyJoin cld c.name) "deploy") tname) = some (String.mk out)) ∧
      FS.lookup ⟨nd ++ fs0.dirs, nf ++ fs0.files⟩
          (pyJoin (pyJoin cld c.name) "chal.json") = some (chalJsonText c) ∧
      FS.lookup ⟨nd2 ++ fs0.dirs, nf2 ++ fs0.files⟩
          (pyJoin (pyJoin cld c.name) "chal.json")
          = some (chalJsonText
            ⟨c.type, c.name, c.author, c.description, c.difficulty, c.flag, c.provides,
              p0 :: ps2, c.remote, c.target⟩) := by
  obtain ⟨nd, nf, mEq, mCJ, mFlag, mMk, _, _, _, _, mDep, _, _, mTmpl⟩ :=
    createChallenge_ok_characterization repo tmpls c fs0 cld hcld hname hA hB hCD
      hsolve hsrc hdist hcj hflag hmk hdep hrem
  obtain ⟨nd2, nf2, mEq2, mCJ2, mFlag2, mMk2, _, _, _, _, mDep2, _, _, mTmpl2⟩ :=
    createChallenge_ok_characterization repo tmpls
      ⟨c.type, c.name, c.author, c.description, c.difficulty, c.flag, c.provides,
        p0 :: ps2, c.remote, c.target⟩ fs0 cld hcld hname hA hB hCD
      hsolve hsrc hdist hcj hflag hmk hdep
      (by
        intro r hr
        obtain ⟨q0, qs, hq, htok⟩ := hrem r hr
        rw [hports] at hq
        injection hq with h1 h2
        subst h1
        exact ⟨p0, ps2, rfl, htok⟩)
  refine ⟨nd, nf, nd2, nf2, mEq, mEq2, ⟨mFlag, mFlag2⟩, ⟨mMk, mMk2⟩, ?_, ?_, mCJ, mCJ2⟩
  · intro r hr
    exact ⟨(mDep r hr).2, (mDep2 r hr).2⟩
  · intro tname tcontent out hmem hout r hr
    exact ⟨mTmpl r p0 ps hr hports hnodup tname tcontent out hmem hout,
      mTmpl2 r p0 ps2 hr rfl hnodup tname tcontent out hmem hout⟩

theorem ports_tail_noninterference_witness :
    (createChallenge (Except.ok ⟨false, []⟩) [("t", "P=\x7bport\x7d")]
      ⟨ChalType.pwn, "x", "a", "d", "Easy", "f", [], [7, 1], some ["run"], some "out"⟩
      ⟨[], []⟩).isOk = true ∧
    (createChallenge (Except.ok ⟨false, []⟩) [("t", "P=\x7bport\x7d")]
      ⟨ChalType.pwn, "x", "a", "d", "Easy", "f", [], [7, 2, 3], some ["run"], some "out"⟩
      ⟨[], []⟩).isOk = true := by
  obtain ⟨nd, nf, nd2, nf2, hEq1, hEq2, hrest⟩ := ports_tail_noninterference
    (Except.ok ⟨false, []⟩) [("t", "P=\x7bport\x7d")]
    ⟨ChalType.pwn, "x", "a", "d", "Easy", "f", [], [7, 1], some ["run"], some "out"⟩
    ⟨[], []⟩ ⟨false, ["out"]⟩ 7 [1] [2, 3] rfl rfl (by decide) (by decide) (by decide)
    (by decide) (by decide) (by decide) (by decide) (by decide) (by decide) (by decide)
    (by decide)
    (by
      intro r hr
      obtain rfl := Option.some.inj hr
      exact ⟨7, [1], rfl, by decide⟩)
    (by decide)
  constructor
  · rw [hEq1]; rfl
  · rw [hEq2]; rfl

theorem charToNat_ofNat {n : Nat} (h : n.isValidChar) : (Char.ofNat n).toNat = n := by
  unfold Char.ofNat
  rw [dif_pos h]
  unfold Char.ofNatAux Char.toNat
  simp [UInt32.toNat]

theorem digitChar_toNat {m : Nat} (h : m < 10) : (Char.ofNat (48 + m)).toNat = 48 + m :=
  charToNat_ofNat (Or.inl (by omega))

theorem digitChar_isDigit {m : Nat} (h : m < 10) : (Char.ofNat (48 + m)).isDigit = true := by
  interval_cases m <;> decide

theorem digitChar_ne_minus {m : Nat} (h : m < 10) : Char.ofNat (48 + m) ≠ '-' := by
  interval_cases m <;> decide

theorem digitChar_ne_newline {m : Nat} (h : m < 10) : Char.ofNat (48 + m) ≠ '\n' := by
  interval_cases m <;> decide

theorem natDigitsAux_mem : ∀ (fuel n : Nat), ∀ c ∈ natDigitsAux fuel n,
    ∃ m, m < 10 ∧ c = Char.ofNat (48 + m) := by
  intro fuel
  induction fuel with
  | zero =>
    intro n c hc
    simp [natDigitsAux] at hc
  | succ f ih =>
    intro n c hc
    simp only [natDigitsAux] at hc
    by_cases hn : n = 0
    · rw [if_pos hn] at hc
      simp at hc
    · rw [if_neg hn] at hc
      rcases List.mem_append.mp hc with h1 | h1
      · exact ih (n / 10) c h1
      · simp only [List.mem_cons, List.not_mem_nil, or_false] at h1
        exact ⟨n % 10, by omega, h1⟩

theorem natDigitsAux_ne_nil (fuel n : Nat) (hn : n ≠ 0) (hf : n ≤ fuel) :
    natDigitsAux fuel n ≠ [] := by
  cases fuel with
  | zero => omega
  | succ f =>
    simp only [natDigitsAux]
    rw [if_neg hn]
    simp

theorem readDigits_digits : ∀ (ds : List Char), (∀ c ∈ ds, c.isDigit = true) →
    ∀ (acc : Nat) (sfx : List Char),
      readDigits acc (ds ++ sfx) =
        readDigits (ds.foldl (fun a c => a * 10 + (c.toNat - 48)) acc) sfx := by
  intro ds
  induction ds with
  | nil => intro _ acc sfx; rfl
  | cons d ds2 ih =>
    intro h acc sfx
    rw [List.cons_append]
    simp only [readDigits]
    rw [if_pos (h d (by simp))]
    simp only [List.foldl_cons]
    exact ih (fun c hc => h c (by simp [hc])) _ sfx

theorem readDigits_stop (acc : Nat) (sfx : List Char)
    (h : ∀ c, sfx.head? = some c → c.isDigit = false) : readDigits acc sfx = (acc, sfx) := by
  cases sfx with
  | nil => rfl
  | cons c rest =>
    simp only [readDigits]
    rw [if_neg (by rw [h c rfl]; simp)]

theorem natDigitsAux_foldl : ∀ (fuel n acc : Nat), n ≤ fuel →
    (natDigitsAux fuel n).foldl (fun a c => a * 10 + (c.toNat - 48)) acc =
      acc * 10 ^ (natDigitsAux fuel n).length + n := by
  intro fuel
  induction fuel with
  | zero =>
    intro n acc h
    have hn : n = 0 := by omega
    subst hn
    simp [natDigitsAux]
  | succ f ih =>
    intro n acc h
    by_cases hn : n = 0
    · subst hn
      simp [natDigitsAux]
    · simp only [natDigitsAux, if_neg hn]
      rw [List.foldl_append]
      have hdiv : n / 10 ≤ f := by
        have := Nat.div_lt_self (Nat.pos_of_ne_zero hn) (by omega : 1 < 10)
        omega
      rw [ih (n / 10) acc hdiv]
      simp only [List.foldl_cons, List.foldl_nil, List.length_append, List.length_cons,
        List.length_nil]
      rw [digitChar_toNat (by omega : n % 10 < 10)]
      have h1 : 48 + n % 10 - 48 = n % 10 := by omega
      rw [h1, pow_succ, Nat.add_mul, Nat.mul_assoc, Nat.add_assoc,
        Nat.mul_comm (n / 10) 10, Nat.div_add_mod]

theorem readDigits_natDigits (fuel n : Nat) (hn : n ≠ 0) (hf : n ≤ fuel) (sfx : List Char)
    (hs : ∀ c, sfx.head? = some c → c.isDigit = false) :
    ∃ d ds2, natDigitsAux fuel n = d :: ds2 ∧ d.isDigit = true ∧ ¬d = '-' ∧
      readDigits (d.toNat - 48) (ds2 ++ sfx) = (n, sfx) := by
  cases hds : natDigitsAux fuel n with
  | nil => exact absurd hds (natDigitsAux_ne_nil fuel n hn hf)
  | cons d ds2 =>
    have hdm : ∃ m, m < 10 ∧ d = Char.ofNat (48 + m) :=
      natDigitsAux_mem fuel n d (by rw [hds]; simp)
    obtain ⟨m, hm, rfl⟩ := hdm
    refine ⟨_, ds2, rfl, digitChar_isDigit hm, digitChar_ne_minus hm, ?_⟩
    have hall : ∀ c ∈ ds2, c.isDigit = true := by
      intro c hc
      obtain ⟨m2, hm2, rfl⟩ := natDigitsAux_mem fuel n c (by rw [hds]; simp [hc])
      exact digitChar_isDigit hm2
    rw [readDigits_digits ds2 hall, readDigits_stop _ _ hs]
    have hstart : (Char.ofNat (48 + m)).toNat - 48 =
        (0 : Nat) * 10 + ((Char.ofNat (48 + m)).toNat - 48) := by omega
    rw [hstart, ← List.foldl_cons, ← hds, natDigitsAux_foldl fuel n 0 hf]
    simp

theorem readJInt_intRepr (n : Int) (sfx : List Char)
    (hs : ∀ c, sfx.head? = some c → c.isDigit = false) :
    readJInt (intRepr n ++ sfx) = some (n, sfx) := by
  cases n with
  | ofNat m =>
    by_cases hm : m = 0
    · subst hm
      show readJInt ('0' :: sfx) = some (Int.ofNat 0, sfx)
      simp only [readJInt]
      rw [if_neg (by decide), if_pos (by decide)]
      rw [show ('0'.toNat - 48 : Nat) = 0 from by decide]
      rw [readDigits_stop 0 sfx hs]
      rfl
    · obtain ⟨d, ds2, hds, hdig, hdm, hrd⟩ := readDigits_natDigits m m hm (le_refl m) sfx hs
      show readJInt (intRepr (Int.ofNat m) ++ sfx) = _
      simp only [intRepr]
      rw [if_neg hm, hds, List.cons_append]
      simp only [readJInt]
      rw [if_neg hdm, if_pos hdig]
      rw [hrd]
      rfl
  | negSucc m =>
    obtain ⟨d, ds2, hds, hdig, hdm, hrd⟩ :=
      readDigits_natDigits (m + 1) (m + 1) (by omega) (le_refl _) sfx hs
    show readJInt ('-' :: natDigitsAux (m + 1) (m + 1) ++ sfx) = _
    rw [show ('-' :: natDigitsAux (m + 1) (m + 1)) ++ sfx =
      '-' :: (natDigitsAux (m + 1) (m + 1) ++ sfx) from rfl]
    rw [hds, List.cons_append]
    simp only [readJInt]
    rw [if_pos trivial]
    rw [if_pos hdig]
    rw [hrd]
    simp [Int.negSucc_eq]


theorem hexVal_hexDigit {m : Nat} (h : m < 16) : hexVal (hexDigit m) = some m := by
  interval_cases m <;> decide

theorem hexDigit_ne_newline {m : Nat} (h : m < 16) : ¬hexDigit m = '\n' := by
  interval_cases m <;> decide

theorem char_valid (c : Char) :
    c.toNat < 0xd800 ∨ (0xe000 ≤ c.toNat ∧ c.toNat < 0x110000) := c.valid

theorem readHex4_hex4 {n : Nat} (hn : n < 0x10000) (tail : List Char) :
    readHex4 (hex4 n ++ tail) = some (n, tail) := by
  rw [show hex4 n = [hexDigit (n / 4096), hexDigit (n % 4096 / 256), hexDigit (n % 256 / 16),
    hexDigit (n % 16)] from rfl]
  simp only [List.cons_append, List.nil_append]
  simp only [readHex4]
  rw [hexVal_hexDigit (by omega), hexVal_hexDigit (by omega), hexVal_hexDigit (by omega),
    hexVal_hexDigit (by omega)]
  dsimp only
  rw [show ((n / 4096 * 16 + n % 4096 / 256) * 16 + n % 256 / 16) * 16 + n % 16 = n
    from by omega]

theorem rjsbF_u_single (f n : Nat) (tail : List Char)
    (hn : n < 0x10000) (hlo : ¬(0xd800 ≤ n ∧ n < 0xdc00)) (hhi : ¬(0xdc00 ≤ n ∧ n < 0xe000)) :
    rjsbF (f + 1) ('\\' :: 'u' :: (hex4 n ++ tail)) = consBody (Char.ofNat n) (rjsbF f tail) := by
  rw [show rjsbF (f + 1) ('\\' :: 'u' :: (hex4 n ++ tail)) =
    uBranch (fun l => rjsbF f l) (readHex4 (hex4 n ++ tail)) from rfl]
  rw [readHex4_hex4 hn]
  simp only [uBranch]
  rw [if_neg hlo, if_neg hhi]

theorem rjsbF_u_pair (f n m : Nat) (tail : List Char)
    (hn : 0xd800 ≤ n ∧ n < 0xdc00) (hm : 0xdc00 ≤ m ∧ m < 0xe000) :
    rjsbF (f + 1) ('\\' :: 'u' :: (hex4 n ++ ('\\' :: 'u' :: (hex4 m ++ tail)))) =
      consBody (Char.ofNat (0x10000 + (n - 0xd800) * 0x400 + (m - 0xdc00))) (rjsbF f tail) := by
  rw [show rjsbF (f + 1) ('\\' :: 'u' :: (hex4 n ++ ('\\' :: 'u' :: (hex4 m ++ tail)))) =
    uBranch (fun l => rjsbF f l) (readHex4 (hex4 n ++ ('\\' :: 'u' :: (hex4 m ++ tail))))
    from rfl]
  rw [readHex4_hex4 (by omega)]
  simp only [uBranch]
  rw [if_pos hn]
  rw [readHex4_hex4 (by omega)]
  dsimp only
  rw [if_pos hm]

theorem escChar_length_pos (c : Char) : 0 < (escChar c).length := by
  unfold escChar
  repeat' split
  all_goals simp [hex4]

theorem rjsbF_flatMap : ∀ (cs : List Char) (fuel : Nat) (rest : List Char),
    (cs.flatMap escChar).length < fuel →
    rjsbF fuel (cs.flatMap escChar ++ '"' :: rest) = some (cs, rest) := by
  intro cs
  induction cs with
  | nil =>
    intro fuel rest h
    simp only [List.flatMap_nil, List.nil_append]
    cases fuel with
    | zero => omega
    | succ f => rfl
  | cons c cs2 ih =>
    intro fuel rest h
    rw [List.flatMap_cons, List.append_assoc]
    cases fuel with
    | zero =>
      rw [List.flatMap_cons] at h
      omega
    | succ f =>
      rw [List.flatMap_cons, List.length_append] at h
      have hcl := escChar_length_pos c
      have ih2 := ih f rest (by omega)
      have hv := char_valid c
      by_cases h1 : c = '"'
      · subst h1
        rw [show escChar '"' = ['\\', '"'] from rfl]
        rw [show (['\\', '"'] : List Char) ++ (cs2.flatMap escChar ++ '"' :: rest) =
          '\\' :: '"' :: (cs2.flatMap escChar ++ '"' :: rest) from rfl]
        rw [show ∀ t, rjsbF (f + 1) ('\\' :: '"' :: t) = consBody '"' (rjsbF f t)
          from fun t => rfl]
        rw [ih2]
        rfl
      · by_cases h2 : c = '\\'
        · subst h2
          rw [show escChar '\\' = ['\\', '\\'] from rfl]
          rw [show (['\\', '\\'] : List Char) ++ (cs2.flatMap escChar ++ '"' :: rest) =
            '\\' :: '\\' :: (cs2.flatMap escChar ++ '"' :: rest) from rfl]
          rw [show ∀ t, rjsbF (f + 1) ('\\' :: '\\' :: t) = consBody '\\' (rjsbF f t)
            from fun t => rfl]
          rw [ih2]
          rfl
        · by_cases h3 : c = '\n'
          · subst h3
            rw [show escChar '\n' = ['\\', 'n'] from rfl]
            rw [show (['\\', 'n'] : List Char) ++ (cs2.flatMap escChar ++ '"' :: rest) =
              '\\' :: 'n' :: (cs2.flatMap escChar ++ '"' :: rest) from rfl]
            rw [show ∀ t, rjsbF (f + 1) ('\\' :: 'n' :: t) = consBody '\n' (rjsbF f t)
              from fun t => rfl]
            rw [ih2]
            rfl
          · by_cases h4 : c = '\r'
            · subst h4
              rw [show escChar '\r' = ['\\', 'r'] from rfl]
              rw [show (['\\', 'r'] : List Char) ++ (cs2.flatMap escChar ++ '"' :: rest) =
                '\\' :: 'r' :: (cs2.flatMap escChar ++ '"' :: rest) from rfl]
              rw [show ∀ t, rjsbF (f + 1) ('\\' :: 'r' :: t) = consBody '\r' (rjsbF f t)
                from fun t => rfl]
              rw [ih2]
              rfl
            · by_cases h5 : c = '\t'
              · subst h5
                rw [show escChar '\t' = ['\\', 't'] from rfl]
                rw [show (['\\', 't'] : List Char) ++ (cs2.flatMap escChar ++ '"' :: rest) =
                  '\\' :: 't' :: (cs2.flatMap escChar ++ '"' :: rest) from rfl]
                rw [show ∀ t, rjsbF (f + 1) ('\\' :: 't' :: t) = consBody '\t' (rjsbF f t)
                  from fun t => rfl]
                rw [ih2]
                rfl
              · by_cases h6 : c = '\x08'
                · subst h6
                  rw [show escChar '\x08' = ['\\', 'b'] from rfl]
                  rw [show (['\\', 'b'] : List Char) ++ (cs2.flatMap escChar ++ '"' :: rest) =
                    '\\' :: 'b' :: (cs2.flatMap escChar ++ '"' :: rest) from rfl]
                  rw [show ∀ t, rjsbF (f + 1) ('\\' :: 'b' :: t) = consBody '\x08' (rjsbF f t)
                    from fun t => rfl]
                  rw [ih2]
                  rfl
                · by_cases h7 : c = '\x0c'
                  · subst h7
                    rw [show escChar '\x0c' = ['\\', 'f'] from rfl]
                    rw [show (['\\', 'f'] : List Char) ++ (cs2.flatMap escChar ++ '"' :: rest) =
                      '\\' :: 'f' :: (cs2.flatMap escChar ++ '"' :: rest) from rfl]
                    rw [show ∀ t, rjsbF (f + 1) ('\\' :: 'f' :: t) =
                      consBody '\x0c' (rjsbF f t) from fun t => rfl]
                    rw [ih2]
                    rfl
                  · by_cases h8 : c.toNat < 0x20
                    · have hesc : escChar c = '\\' :: 'u' :: hex4 c.toNat := by
                        unfold escChar
                        rw [if_neg h1, if_neg h2, if_neg h3, if_neg h4, if_neg h5, if_neg h6,
                          if_neg h7, if_pos h8]
                      rw [hesc]
                      simp only [List.cons_append]
                      rw [rjsbF_u_single f c.toNat _ (by omega) (by omega) (by omega)]
                      rw [Char.ofNat_toNat, ih2]
                      rfl
                    · by_cases h9 : c.toNat ≤ 0x7e
                      · have hesc : escChar c = [c] := by
                          unfold escChar
                          rw [if_neg h1, if_neg h2, if_neg h3, if_neg h4, if_neg h5, if_neg h6,
                            if_neg h7, if_neg h8, if_pos h9]
                        rw [hesc]
                        rw [show ([c] : List Char) ++ (cs2.flatMap escChar ++ '"' :: rest) =
                          c :: (cs2.flatMap escChar ++ '"' :: rest) from rfl]
                        have hstep : rjsbF (f + 1) (c :: (cs2.flatMap escChar ++ '"' :: rest)) =
                            consBody c (rjsbF f (cs2.flatMap escChar ++ '"' :: rest)) := by
                          simp only [rjsbF]
                          rw [if_neg h1, if_neg h2, if_neg (by omega : ¬c.toNat < 32)]
                        rw [hstep, ih2]
                        rfl
                      · by_cases h10 : c.toNat < 0x10000
                        · have hesc : escChar c = '\\' :: 'u' :: hex4 c.toNat := by
                            unfold escChar
                            rw [if_neg h1, if_neg h2, if_neg h3, if_neg h4, if_neg h5,
                              if_neg h6, if_neg h7, if_neg h8, if_neg h9, if_pos h10]
                          rw [hesc]
                          simp only [List.cons_append]
                          rw [rjsbF_u_single f c.toNat _ h10 (by omega) (by omega)]
                          rw [Char.ofNat_toNat, ih2]
                          rfl
                        · have hesc : escChar c =
                              ('\\' :: 'u' :: hex4 (0xd800 + (c.toNat - 0x10000) / 0x400)) ++
                              ('\\' :: 'u' :: hex4 (0xdc00 + (c.toNat - 0x10000) % 0x400)) := by
                            unfold escChar
                            rw [if_neg h1, if_neg h2, if_neg h3, if_neg h4, if_neg h5,
                              if_neg h6, if_neg h7, if_neg h8, if_neg h9, if_neg h10]
                          rw [hesc]
                          simp only [List.cons_append, List.append_assoc]
                          rw [rjsbF_u_pair f _ _ _ ⟨by omega, by omega⟩ ⟨by omega, by omega⟩]
                          rw [show 0x10000 + (0xd800 + (c.toNat - 0x10000) / 0x400 - 0xd800) *
                            0x400 + (0xdc00 + (c.toNat - 0x10000) % 0x400 - 0xdc00) = c.toNat
                            from by omega]
                          rw [Char.ofNat_toNat, ih2]
                          rfl

theorem readJStringBody_flatMap (cs : List Char) (rest : List Char) :
    readJStringBody (cs.flatMap escChar ++ '"' :: rest) = some (cs, rest) := by
  unfold readJStringBody
  apply rjsbF_flatMap
  simp only [List.length_append, List.length_cons]
  omega

theorem readJStr_escStr (s : String) (extra : List Char) :
    readJStr (escStr s ++ extra) = some (s, extra) := by
  rw [show escStr s ++ extra = '"' :: (s.data.flatMap escChar ++ '"' :: extra) from by
    simp [escStr]]
  simp only [readJStr]
  rw [readJStringBody_flatMap]
  simp [stringMk_data]

theorem charOfNat_ne_newline (k : Nat) (hk : ¬k = 10) : ¬Char.ofNat k = '\n' := by
  intro he
  by_cases h : k.isValidChar
  · have h2 := charToNat_ofNat h
    rw [he] at h2
    exact hk h2.symm
  · unfold Char.ofNat at he
    rw [dif_neg h] at he
    exact absurd he (by decide)

theorem hexDigit_ne_newline_all (m : Nat) : ¬hexDigit m = '\n' := by
  unfold hexDigit
  split
  · exact charOfNat_ne_newline _ (by rw [show Char.toNat '0' = 48 from rfl]; omega)
  · exact charOfNat_ne_newline _ (by rw [show Char.toNat 'a' = 97 from rfl]; omega)

theorem hex4_no_newline (n : Nat) : ∀ x ∈ hex4 n, ¬x = '\n' := by
  intro x hx
  simp only [hex4, List.mem_cons, List.not_mem_nil, or_false] at hx
  rcases hx with rfl | rfl | rfl | rfl <;> exact hexDigit_ne_newline_all _

theorem escChar_no_newline (c : Char) : ∀ x ∈ escChar c, ¬x = '\n' := by
  intro x hx
  unfold escChar at hx
  repeat' split at hx
  all_goals simp only [List.mem_append, List.mem_cons, List.not_mem_nil, or_false] at hx
  all_goals
    first
    | (rcases hx with rfl | rfl <;> decide)
    | (rcases hx with rfl | rfl | hx
       · decide
       · decide
       · exact hex4_no_newline _ x hx)
    | (subst hx; assumption)
    | (rcases hx with (rfl | rfl | hx) | (rfl | rfl | hx) <;>
        first
          | decide
          | exact hex4_no_newline _ x hx)
theorem escStr_no_newline (s : String) : ∀ x ∈ escStr s, ¬x = '\n' := by
  intro x hx
  rw [show escStr s = '"' :: (s.data.flatMap escChar ++ ['"']) from rfl] at hx
  rcases List.mem_cons.mp hx with rfl | hx2
  · decide
  · rcases List.mem_append.mp hx2 with h | h
    · obtain ⟨c, _, hm⟩ := List.mem_flatMap.mp h
      exact escChar_no_newline c x hm
    · simp only [List.mem_cons, List.not_mem_nil, or_false] at h
      subst h
      decide

theorem intRepr_no_newline (n : Int) : ∀ x ∈ intRepr n, ¬x = '\n' := by
  intro x hx
  cases n with
  | ofNat m =>
    by_cases hm : m = 0
    · subst hm
      simp only [intRepr] at hx
      rw [if_pos trivial] at hx
      simp only [List.mem_cons, List.not_mem_nil, or_false] at hx
      subst hx
      decide
    · simp only [intRepr] at hx
      rw [if_neg hm] at hx
      obtain ⟨k, hk, rfl⟩ := natDigitsAux_mem m m x hx
      exact digitChar_ne_newline hk
  | negSucc m =>
    simp only [intRepr] at hx
    rcases List.mem_cons.mp hx with rfl | hx2
    · decide
    · obtain ⟨k, hk, rfl⟩ := natDigitsAux_mem (m + 1) (m + 1) x hx2
      exact digitChar_ne_newline hk

theorem expectLit_append : ∀ (pre t : List Char), expectLit pre (pre ++ t) = some t := by
  intro pre
  induction pre with
  | nil => intro t; rfl
  | cons c pre2 ih =>
    intro t
    rw [List.cons_append]
    simp only [expectLit]
    rw [if_pos trivial]
    exact ih t

theorem readStrField_cons (key s : String) (rest : List (List Char)) :
    readStrField key true ((fieldPrefix key ++ (escStr s ++ [','])) :: rest) = some (s, rest) := by
  simp only [readStrField, if_true]
  rw [expectLit_append]
  dsimp only
  rw [readJStr_escStr]
  rfl

theorem readArrLinesInt_lines : ∀ (xs : List Int) (x : Int) (rest : List (List Char)),
    readArrLinesInt (intArrLines x xs ++ rest) = some (x :: xs, rest) := by
  intro xs
  induction xs with
  | nil =>
    intro x rest
    simp only [intArrLines, List.cons_append]
    simp only [readArrLinesInt]
    rw [expectLit_append]
    dsimp only
    rw [show intRepr x = intRepr x ++ [] from by simp]
    rw [readJInt_intRepr x [] (by intro c hc; cases hc)]
    simp
  | cons y t ih =>
    intro x rest
    simp only [intArrLines, List.cons_append]
    simp only [readArrLinesInt]
    rw [expectLit_append]
    dsimp only
    rw [readJInt_intRepr x [','] (by intro c hc; cases hc; decide)]
    dsimp only
    rw [ih y rest]
    simp

theorem readArrLinesStr_lines : ∀ (ss : List String) (s : String) (rest : List (List Char)),
    readArrLinesStr (strArrLines s ss ++ rest) = some (s :: ss, rest) := by
  intro ss
  induction ss with
  | nil =>
    intro s rest
    simp only [strArrLines, List.cons_append]
    simp only [readArrLinesStr]
    rw [expectLit_append]
    dsimp only
    rw [show escStr s = escStr s ++ [] from by simp]
    rw [readJStr_escStr]
    simp
  | cons y t ih =>
    intro s rest
    simp only [strArrLines, List.cons_append]
    simp only [readArrLinesStr]
    rw [expectLit_append]
    dsimp only
    rw [readJStr_escStr]
    dsimp only
    rw [ih y rest]
    simp

theorem readIntArrField_lines (key : String) (l : List Int) (rest : List (List Char)) :
    readIntArrField key (intArrField key l ++ rest) = some (l, rest) := by
  cases l with
  | nil =>
    simp only [intArrField, List.cons_append, List.nil_append]
    simp only [readIntArrField]
    rw [expectLit_append]
    rfl
  | cons x xs =>
    simp only [intArrField, List.cons_append]
    simp only [readIntArrField]
    rw [expectLit_append]
    dsimp only
    rw [if_neg (by decide), if_pos rfl]
    exact readArrLinesInt_lines xs x rest

theorem readStrArrField_lines (key : String) (l : List String) (rest : List (List Char)) :
    readStrArrField key (strArrField key l ++ rest) = some (l, rest) := by
  cases l with
  | nil =>
    simp only [strArrField, List.cons_append, List.nil_append]
    simp only [readStrArrField]
    rw [expectLit_append]
    rfl
  | cons s ss =>
    simp only [strArrField, List.cons_append]
    simp only [readStrArrField]
    rw [expectLit_append]
    dsimp only
    rw [if_neg (by decide), if_pos rfl]
    exact readArrLinesStr_lines ss s rest

theorem readRemoteField_lines (r : Option (List String)) (rest : List (List Char)) :
    readRemoteField (remoteLines r ++ rest) = some (r, rest) := by
  cases r with
  | none =>
    simp only [remoteLines, List.cons_append, List.nil_append]
    simp only [readRemoteField]
    rw [expectLit_append]
    rfl
  | some rs =>
    cases rs with
    | nil =>
      simp only [remoteLines, strArrField, List.cons_append, List.nil_append]
      simp only [readRemoteField]
      rw [expectLit_append]
      rfl
    | cons s ss =>
      simp only [remoteLines, strArrField, List.cons_append]
      simp only [readRemoteField]
      rw [expectLit_append]
      dsimp only
      rw [if_neg (by decide), if_neg (by decide), if_pos rfl]
      rw [readArrLinesStr_lines ss s rest]
      rfl

theorem escStr_head (s : String) : escStr s = '"' :: (s.data.flatMap escChar ++ ['"']) := rfl

theorem readTargetField_lines (t : Option String) (rest : List (List Char)) :
    readTargetField (targetLines t ++ rest) = some (t, rest) := by
  cases t with
  | none =>
    simp only [targetLines, List.cons_append, List.nil_append]
    simp only [readTargetField]
    rw [expectLit_append]
    rfl
  | some s =>
    simp only [targetLines, List.cons_append, List.nil_append]
    simp only [readTargetField]
    rw [expectLit_append]
    dsimp only
    rw [if_neg (by
      rw [escStr_head]
      intro h
      rw [List.cons_append] at h
      injection h with h1 _
      exact absurd h1 (by decide))]
    rw [readJStr_escStr]
    rfl

theorem readTypeField_lines (ty : ChalType) (rest : List (List Char)) :
    readTypeField ((fieldPrefix "type" ++ escStr ty.value) :: rest) = some (ty, rest) := by
  simp only [readTypeField]
  rw [expectLit_append]
  dsimp only
  rw [show escStr ty.value = escStr ty.value ++ [] from by simp]
  rw [readJStr_escStr]
  cases ty <;> rfl

theorem joinSep_cons (sep : Char) (l : List Char) (ls : List (List Char)) (h : ls ≠ []) :
    joinSep sep (l :: ls) = l ++ sep :: joinSep sep ls := by
  cases ls with
  | nil => exact absurd rfl h
  | cons l2 ls2 => rfl

theorem renderElems_num : ∀ (xs : List Int),
    renderElems (xs.map Json.num) 2 =
      xs.flatMap fun y => ',' :: '\n' :: (List.replicate 8 ' ' ++ intRepr y) := by
  intro xs
  induction xs with
  | nil => rfl
  | cons y t ih =>
    simp only [List.map_cons, List.flatMap_cons, renderElems]
    rw [ih]
    rw [show indentChars 2 = List.replicate 8 ' ' from rfl,
      show renderJson (Json.num y) 2 = intRepr y from rfl]
    simp [List.append_assoc]

theorem renderElems_str : ∀ (ss : List String),
    renderElems (ss.map Json.str) 2 =
      ss.flatMap fun s => ',' :: '\n' :: (List.replicate 8 ' ' ++ escStr s) := by
  intro ss
  induction ss with
  | nil => rfl
  | cons s t ih =>
    simp only [List.map_cons, List.flatMap_cons, renderElems]
    rw [ih]
    rw [show indentChars 2 = List.replicate 8 ' ' from rfl,
      show renderJson (Json.str s) 2 = escStr s from rfl]
    simp [List.append_assoc]

theorem intArrLines_join : ∀ (xs : List Int) (x : Int) (rest : List (List Char)),
    rest ≠ [] →
    joinSep '\n' (intArrLines x xs ++ rest) =
      (List.replicate 8 ' ' ++ intRepr x) ++
      ((xs.flatMap fun y => ',' :: '\n' :: (List.replicate 8 ' ' ++ intRepr y)) ++
       ('\n' :: (List.replicate 4 ' ' ++ ([']', ','] ++ '\n' :: joinSep '\n' rest)))) := by
  intro xs
  induction xs with
  | nil =>
    intro x rest h
    simp only [intArrLines, List.cons_append, List.nil_append]
    rw [joinSep_cons _ _ _ (by simp), joinSep_cons _ _ _ h]
    simp [List.append_assoc]
  | cons y t ih =>
    intro x rest h
    simp only [intArrLines, List.cons_append]
    rw [joinSep_cons _ _ _ (by simp [intArrLines]; cases t <;> simp [intArrLines])]
    rw [ih y rest h]
    simp [List.append_assoc]

theorem strArrLines_join : ∀ (ss : List String) (s : String) (rest : List (List Char)),
    rest ≠ [] →
    joinSep '\n' (strArrLines s ss ++ rest) =
      (List.replicate 8 ' ' ++ escStr s) ++
      ((ss.flatMap fun s2 => ',' :: '\n' :: (List.replicate 8 ' ' ++ escStr s2)) ++
       ('\n' :: (List.replicate 4 ' ' ++ ([']', ','] ++ '\n' :: joinSep '\n' rest)))) := by
  intro ss
  induction ss with
  | nil =>
    intro s rest h
    simp only [strArrLines, List.cons_append, List.nil_append]
    rw [joinSep_cons _ _ _ (by simp), joinSep_cons _ _ _ h]
    simp [List.append_assoc]
  | cons y t ih =>
    intro s rest h
    simp only [strArrLines, List.cons_append]
    rw [joinSep_cons _ _ _ (by simp [strArrLines]; cases t <;> simp [strArrLines])]
    rw [ih y rest h]
    simp [List.append_assoc]

theorem intArrField_join (key : String) (l : List Int) (rest : List (List Char))
    (h : rest ≠ []) :
    joinSep '\n' (intArrField key l ++ rest) =
      fieldPrefix key ++ (renderJson (.arr (l.map Json.num)) 1 ++
        (',' :: '\n' :: joinSep '\n' rest)) := by
  cases l with
  | nil =>
    simp only [intArrField, List.cons_append, List.nil_append, List.map_nil]
    rw [joinSep_cons _ _ _ h]
    rw [show renderJson (Json.arr []) 1 = ['[', ']'] from rfl]
    simp [List.append_assoc]
  | cons x xs =>
    simp only [intArrField, List.cons_append, List.map_cons]
    rw [joinSep_cons _ _ _ (by cases xs <;> simp [intArrLines])]
    rw [intArrLines_join xs x rest h]
    simp only [renderJson]
    rw [renderElems_num]
    rw [show indentChars 2 = List.replicate 8 ' ' from rfl,
      show indentChars 1 = List.replicate 4 ' ' from rfl]
    simp [List.append_assoc]

theorem strArrField_join (key : String) (l : List String) (rest : List (List Char))
    (h : rest ≠ []) :
    joinSep '\n' (strArrField key l ++ rest) =
      fieldPrefix key ++ (renderJson (.arr (l.map Json.str)) 1 ++
        (',' :: '\n' :: joinSep '\n' rest)) := by
  cases l with
  | nil =>
    simp only [strArrField, List.cons_append, List.nil_append, List.map_nil]
    rw [joinSep_cons _ _ _ h]
    rw [show renderJson (Json.arr []) 1 = ['[', ']'] from rfl]
    simp [List.append_assoc]
  | cons s ss =>
    simp only [strArrField, List.cons_append, List.map_cons]
    rw [joinSep_cons _ _ _ (by cases ss <;> simp [strArrLines])]
    rw [strArrLines_join ss s rest h]
    simp only [renderJson]
    rw [renderElems_str]
    rw [show indentChars 2 = List.replicate 8 ' ' from rfl,
      show indentChars 1 = List.replicate 4 ' ' from rfl]
    simp [List.append_assoc]

theorem remote_join (r : Option (List String)) (rest : List (List Char)) (h : rest ≠ []) :
    joinSep '\n' (remoteLines r ++ rest) =
      fieldPrefix "remote" ++
        (renderJson (match r with | none => Json.null | some rs => .arr (rs.map Json.str)) 1 ++
         (',' :: '\n' :: joinSep '\n' rest)) := by
  cases r with
  | none =>
    simp only [remoteLines, List.cons_append, List.nil_append]
    rw [joinSep_cons _ _ _ h]
    rw [show renderJson Json.null 1 = ['n', 'u', 'l', 'l'] from rfl]
    simp [List.append_assoc]
  | some rs =>
    simp only [remoteLines]
    exact strArrField_join "remote" rs rest h

theorem target_join (t : Option String) (rest : List (List Char)) (h : rest ≠ []) :
    joinSep '\n' (targetLines t ++ rest) =
      fieldPrefix "target" ++
        (renderJson (match t with | none => Json.null | some s => Json.str s) 1 ++
         (',' :: '\n' :: joinSep '\n' rest)) := by
  cases t with
  | none =>
    simp only [targetLines, List.cons_append, List.nil_append]
    rw [joinSep_cons _ _ _ h]
    rw [show renderJson Json.null 1 = ['n', 'u', 'l', 'l'] from rfl]
    simp [List.append_assoc]
  | some s =>
    simp only [targetLines, List.cons_append, List.nil_append]
    rw [joinSep_cons _ _ _ h]
    rw [show renderJson (Json.str s) 1 = escStr s from rfl]
    simp [List.append_assoc]

set_option maxRecDepth 4000 in
theorem render_chalLines (c : Challenge) :
    renderJson (challengeJson c) 0 = joinSep '\n' (chalLines c) := by
  simp only [chalLines, List.cons_append, List.nil_append, List.append_assoc]
  rw [joinSep_cons _ _ _ (by simp)]
  rw [joinSep_cons _ _ _ (by simp)]
  rw [joinSep_cons _ _ _ (by simp)]
  rw [joinSep_cons _ _ _ (by simp)]
  rw [joinSep_cons _ _ _ (by simp)]
  rw [joinSep_cons _ _ _ (by simp)]
  rw [intArrField_join _ _ _ (by simp)]
  rw [strArrField_join _ _ _ (by simp)]
  rw [remote_join _ _ (by simp)]
  rw [target_join _ _ (by simp)]
  rw [joinSep_cons _ _ _ (by simp)]
  rw [show joinSep '\n' [['\x7d']] = ['\x7d'] from rfl]
  simp only [challengeJson, renderJson, renderMembers]
  rw [show escStr "author" = ['"', 'a', 'u', 't', 'h', 'o', 'r', '"'] from rfl,
    show escStr "description" =
      ['"', 'd', 'e', 's', 'c', 'r', 'i', 'p', 't', 'i', 'o', 'n', '"'] from rfl,
    show escStr "difficulty" =
      ['"', 'd', 'i', 'f', 'f', 'i', 'c', 'u', 'l', 't', 'y', '"'] from rfl,
    show escStr "flag" = ['"', 'f', 'l', 'a', 'g', '"'] from rfl,
    show escStr "name" = ['"', 'n', 'a', 'm', 'e', '"'] from rfl,
    show escStr "ports" = ['"', 'p', 'o', 'r', 't', 's', '"'] from rfl,
    show escStr "provides" = ['"', 'p', 'r', 'o', 'v', 'i', 'd', 'e', 's', '"'] from rfl,
    show escStr "remote" = ['"', 'r', 'e', 'm', 'o', 't', 'e', '"'] from rfl,
    show escStr "target" = ['"', 't', 'a', 'r', 'g', 'e', 't', '"'] from rfl,
    show escStr "type" = ['"', 't', 'y', 'p', 'e', '"'] from rfl]
  rw [show fieldPrefix "author" =
      [' ', ' ', ' ', ' ', '"', 'a', 'u', 't', 'h', 'o', 'r', '"', ':', ' '] from rfl,
    show fieldPrefix "description" =
      [' ', ' ', ' ', ' ', '"', 'd', 'e', 's', 'c', 'r', 'i', 'p', 't', 'i', 'o', 'n', '"',
       ':', ' '] from rfl,
    show fieldPrefix "difficulty" =
      [' ', ' ', ' ', ' ', '"', 'd', 'i', 'f', 'f', 'i', 'c', 'u', 'l', 't', 'y', '"',
       ':', ' '] from rfl,
    show fieldPrefix "flag" =
      [' ', ' ', ' ', ' ', '"', 'f', 'l', 'a', 'g', '"', ':', ' '] from rfl,
    show fieldPrefix "name" =
      [' ', ' ', ' ', ' ', '"', 'n', 'a', 'm', 'e', '"', ':', ' '] from rfl,
    show fieldPrefix "ports" =
      [' ', ' ', ' ', ' ', '"', 'p', 'o', 'r', 't', 's', '"', ':', ' '] from rfl,
    show fieldPrefix "provides" =
      [' ', ' ', ' ', ' ', '"', 'p', 'r', 'o', 'v', 'i', 'd', 'e', 's', '"', ':', ' ']
      from rfl,
    show fieldPrefix "remote" =
      [' ', ' ', ' ', ' ', '"', 'r', 'e', 'm', 'o', 't', 'e', '"', ':', ' '] from rfl,
    show fieldPrefix "target" =
      [' ', ' ', ' ', ' ', '"', 't', 'a', 'r', 'g', 'e', 't', '"', ':', ' '] from rfl,
    show fieldPrefix "type" =
      [' ', ' ', ' ', ' ', '"', 't', 'y', 'p', 'e', '"', ':', ' '] from rfl]
  rw [show indentChars 1 = [' ', ' ', ' ', ' '] from rfl,
    show indentChars 0 = ([] : List Char) from rfl]
  simp [List.append_assoc]

theorem scaffold_creates_exact_layout_witness :
    (createChallenge (Except.ok ⟨false, []⟩)
      [("docker-compose.yml", "PORT=\x7bport\x7d")]
      ⟨ChalType.pwn, "chal", "au", "d", "Easy", "flag-x", ["dist/chal"], [1337],
        some ["docker-compose", "up"], some "ctf"⟩
      ⟨[], []⟩).isOk = true := by
  obtain ⟨nd, nf, hEq, hrest⟩ := scaffold_creates_exact_layout (Except.ok ⟨false, []⟩)
    [("docker-compose.yml", "PORT=\x7bport\x7d")]
    ⟨ChalType.pwn, "chal", "au", "d", "Easy", "flag-x", ["dist/chal"], [1337],
      some ["docker-compose", "up"], some "ctf"⟩
    ⟨[], []⟩ ⟨false, ["ctf"]⟩ rfl (by decide) (by decide) (by decide) (by decide)
    (by decide)
    (by
      intro r hr
      obtain rfl := Option.some.inj hr
      exact ⟨1337, [], rfl, by decide⟩)
  rw [hEq]
  rfl

/-- **C4** counterexample: with the challenge directory (and its `solve`
subdirectory) already present on disk, the scaffolder does **not** proceed
without error — it aborts with `FileExistsError` at the `solve` mkdir. -/
theorem existing_chaldir_counterexample :
    (pyJoin (⟨false, ["ctf"]⟩ : PyPath) "chal") ∈
      (⟨[⟨false, ["ctf"]⟩, ⟨false, ["ctf", "chal"]⟩, ⟨false, ["ctf", "chal", "solve"]⟩],
        []⟩ : FS).dirs ∧
    (createChallenge (Except.ok ⟨false, []⟩) []
      ⟨ChalType.pwn, "chal", "au", "d", "Easy", "f", [], [1337], none, some "ctf"⟩
      ⟨[⟨false, ["ctf"]⟩, ⟨false, ["ctf", "chal"]⟩, ⟨false, ["ctf", "chal", "solve"]⟩],
        []⟩).errOf = some Err.fileExists := by
  constructor
  · decide
  · decide

/-- **C4** (amended).  With the challenge directory already existing, the
scaffolder skips its creation and proceeds: it truncates and rewrites
`chal.json` (no merge or backup of the previous contents), and the run
succeeds provided none of the subpaths it will create (`solve`, `src`,
`dist`, `chal.json` as a directory, and the deploy artifacts when `remote`
is set) already exist. -/
theorem existing_chaldir_overwrite_amended
    (repo : Except Err PyPath) (tmpls : List (String × String)) (c : Challenge)
    (fs0 : FS) (cld : PyPath) (old : String)
    (hcld : categoryDir repo c = .ok cld)
    (hname : validNameB c.name = true)
    (hA : fs0.existsB cld = true → fs0.isDirB cld = true)
    (hB : ∀ q ∈ cld.ancestorsUp, fs0.isFileB q = false)
    (hexist : pyJoin cld c.name ∈ fs0.dirs)
    (hold : FS.lookup fs0 (pyJoin (pyJoin cld c.name) "chal.json") = some old)
    (hsolve : fs0.existsB (pyJoin (pyJoin cld c.name) "solve") = false)
    (hsrc : fs0.existsB (pyJoin (pyJoin cld c.name) "src") = false)
    (hdist : fs0.existsB (pyJoin (pyJoin cld c.name) "dist") = false)
    (hcj : fs0.dirs.contains (pyJoin (pyJoin cld c.name) "chal.json") = false)
    (hflag : fs0.dirs.contains (pyJoin (pyJoin (pyJoin cld c.name) "solve") "flag.txt") = false)
    (hmk : fs0.dirs.contains (pyJoin (pyJoin (pyJoin cld c.name) "src") "Makefile") = false)
    (hdep : c.remote.isSome = true →
      fs0.existsB (pyJoin (pyJoin cld c.name) "deploy") = false ∧
      fs0.dirs.contains (pyJoin (pyJoin cld c.name) "deploy.sh") = false ∧
      (∀ t ∈ tmpls,
        fs0.dirs.contains (pyJoin (pyJoin (pyJoin cld c.name) "deploy") t.1) = false))
    (hrem : ∀ r, c.remote = some r → ∃ p0 ps, c.ports = p0 :: ps ∧
      templatesOkB (allFormatters c (pyJoin cld c.name) p0) tmpls = true) :
    ∃ (nd : List PyPath) (nf : List (PyPath × String)),
      createChallenge repo tmpls c fs0 = .ok ⟨nd ++ fs0.dirs, nf ++ fs0.files⟩ ∧
      FS.lookup ⟨nd ++ fs0.dirs, nf ++ fs0.files⟩ (pyJoin (pyJoin cld c.name) "chal.json")
        = some (chalJsonText c) ∧
      FS.lookup ⟨nd ++ fs0.dirs, nf ++ fs0.files⟩
        (pyJoin (pyJoin (pyJoin cld c.name) "solve") "flag.txt") = some c.flag := by
  obtain ⟨nd, nf, mEq, mCJ, mFlag, _⟩ :=
    createChallenge_ok_characterization repo tmpls c fs0 cld hcld hname hA hB
      (Or.inl hexist) hsolve hsrc hdist hcj hflag hmk hdep hrem
  exact ⟨nd, nf, mEq, mCJ, mFlag⟩

theorem existing_chaldir_overwrite_amended_witness :
    (createChallenge (Except.ok ⟨false, []⟩) []
      ⟨ChalType.pwn, "chal", "au", "d", "Easy", "f", [], [1337], none, some "ctf"⟩
      ⟨[⟨false, ["ctf"]⟩, ⟨false, ["ctf", "chal"]⟩],
        [(⟨false, ["ctf", "chal", "chal.json"]⟩, "old-contents")]⟩).isOk = true := by
  obtain ⟨nd, nf, hEq, hcjL, hflL⟩ := existing_chaldir_overwrite_amended
    (Except.ok ⟨false, []⟩) []
    ⟨ChalType.pwn, "chal", "au", "d", "Easy", "f", [], [1337], none, some "ctf"⟩
    ⟨[⟨false, ["ctf"]⟩, ⟨false, ["ctf", "chal"]⟩],
      [(⟨false, ["ctf", "chal", "chal.json"]⟩, "old-contents")]⟩
    ⟨false, ["ctf"]⟩ "old-contents" rfl (by decide) (by decide) (by decide) (by decide)
    (by decide) (by decide) (by decide) (by decide) (by decide) (by decide) (by decide)
    (by decide)
    (by intro r hr; exact Option.noConfusion hr)
  rw [hEq]
  rfl

theorem fieldPrefix_no_newline (key : String) (hk : ∀ x ∈ key.data, ¬x = '\n') :
    ∀ x ∈ fieldPrefix key, ¬x = '\n' := by
  intro x hx he
  subst he
  simp only [fieldPrefix] at hx
  rcases List.mem_append.1 hx with h | h
  · rcases List.mem_append.1 h with h2 | h2
    · exact absurd (List.eq_of_mem_replicate h2) (by decide)
    · rcases List.mem_cons.1 h2 with h3 | h3
      · exact absurd h3 (by decide)
      · exact hk _ h3 rfl
  · simp at h

theorem strFieldLine_no_newline (key : String) (hk : ∀ x ∈ fieldPrefix key, ¬x = '\n')
    (s : String) (tail : List Char) (ht : ∀ x ∈ tail, ¬x = '\n') :
    ∀ y ∈ fieldPrefix key ++ (escStr s ++ tail), ¬y = '\n' := by
  intro y hy he
  subst he
  rcases List.mem_append.1 hy with h | h
  · exact hk _ h rfl
  · rcases List.mem_append.1 h with h2 | h2
    · exact escStr_no_newline s _ h2 rfl
    · exact ht _ h2 rfl

theorem intArrLines_no_newline : ∀ (x : Int) (l : List Int),
    ∀ ln ∈ intArrLines x l, ∀ y ∈ ln, ¬y = '\n' := by
  intro x l
  induction l generalizing x with
  | nil =>
    intro ln hln y hy he
    subst he
    simp only [intArrLines, List.mem_cons, List.not_mem_nil, or_false] at hln
    rcases hln with rfl | rfl
    · rcases List.mem_append.1 hy with h | h
      · exact absurd (List.eq_of_mem_replicate h) (by decide)
      · exact intRepr_no_newline x '\n' h rfl
    · rcases List.mem_append.1 hy with h | h
      · exact absurd (List.eq_of_mem_replicate h) (by decide)
      · simp at h
  | cons z t ih =>
    intro ln hln y hy
    simp only [intArrLines, List.mem_cons] at hln
    rcases hln with rfl | hln
    · intro he
      subst he
      rcases List.mem_append.1 hy with h | h
      · exact absurd (List.eq_of_mem_replicate h) (by decide)
      · rcases List.mem_append.1 h with h2 | h2
        · exact intRepr_no_newline x '\n' h2 rfl
        · simp at h2
    · exact ih z ln hln y hy

theorem strArrLines_no_newline : ∀ (s : String) (l : List String),
    ∀ ln ∈ strArrLines s l, ∀ y ∈ ln, ¬y = '\n' := by
  intro s l
  induction l generalizing s with
  | nil =>
    intro ln hln y hy he
    subst he
    simp only [strArrLines, List.mem_cons, List.not_mem_nil, or_false] at hln
    rcases hln with rfl | rfl
    · rcases List.mem_append.1 hy with h | h
      · exact absurd (List.eq_of_mem_replicate h) (by decide)
      · exact escStr_no_newline s '\n' h rfl
    · rcases List.mem_append.1 hy with h | h
      · exact absurd (List.eq_of_mem_replicate h) (by decide)
      · simp at h
  | cons z t ih =>
    intro ln hln y hy
    simp only [strArrLines, List.mem_cons] at hln
    rcases hln with rfl | hln
    · intro he
      subst he
      rcases List.mem_append.1 hy with h | h
      · exact absurd (List.eq_of_mem_replicate h) (by decide)
      · rcases List.mem_append.1 h with h2 | h2
        · exact escStr_no_newline s '\n' h2 rfl
        · simp at h2
    · exact ih z ln hln y hy

theorem intArrField_no_newline (key : String) (hk : ∀ x ∈ fieldPrefix key, ¬x = '\n')
    (l : List Int) : ∀ ln ∈ intArrField key l, ∀ y ∈ ln, ¬y = '\n' := by
  cases l with
  | nil =>
    intro ln hln y hy he
    subst he
    simp only [intArrField, List.mem_cons, List.not_mem_nil, or_false] at hln
    subst hln
    rcases List.mem_append.1 hy with h | h
    · exact hk '\n' h rfl
    · simp at h
  | cons x xs =>
    intro ln hln y hy
    simp only [intArrField, List.mem_cons] at hln
    rcases hln with rfl | hln
    · intro he
      subst he
      rcases List.mem_append.1 hy with h | h
      · exact hk '\n' h rfl
      · simp at h
    · exact intArrLines_no_newline x xs ln hln y hy

theorem strArrField_no_newline (key : String) (hk : ∀ x ∈ fieldPrefix key, ¬x = '\n')
    (l : List String) : ∀ ln ∈ strArrField key l, ∀ y ∈ ln, ¬y = '\n' := by
  cases l with
  | nil =>
    intro ln hln y hy he
    subst he
    simp only [strArrField, List.mem_cons, List.not_mem_nil, or_false] at hln
    subst hln
    rcases List.mem_append.1 hy with h | h
    · exact hk '\n' h rfl
    · simp at h
  | cons x xs =>
    intro ln hln y hy
    simp only [strArrField, List.mem_cons] at hln
    rcases hln with rfl | hln
    · intro he
      subst he
      rcases List.mem_append.1 hy with h | h
      · exact hk '\n' h rfl
      · simp at h
    · exact strArrLines_no_newline x xs ln hln y hy

theorem remoteLines_no_newline (r : Option (List String)) :
    ∀ ln ∈ remoteLines r, ∀ y ∈ ln, ¬y = '\n' := by
  cases r with
  | none =>
    intro ln hln y hy he
    subst he
    simp only [remoteLines, List.mem_cons, List.not_mem_nil, or_false] at hln
    subst hln
    rcases List.mem_append.1 hy with h | h
    · exact fieldPrefix_no_newline "remote" (by decide) '\n' h rfl
    · simp at h
  | some rs =>
    intro ln hln
    exact strArrField_no_newline "remote" (fieldPrefix_no_newline "remote" (by decide)) rs ln hln

theorem targetLines_no_newline (t : Option String) :
    ∀ ln ∈ targetLines t, ∀ y ∈ ln, ¬y = '\n' := by
  cases t with
  | none =>
    intro ln hln y hy he
    subst he
    simp only [targetLines, List.mem_cons, List.not_mem_nil, or_false] at hln
    subst hln
    rcases List.mem_append.1 hy with h | h
    · exact fieldPrefix_no_newline "target" (by decide) '\n' h rfl
    · simp at h
  | some s =>
    intro ln hln
    simp only [targetLines, List.mem_cons, List.not_mem_nil, or_false] at hln
    subst hln
    exact strFieldLine_no_newline "target" (fieldPrefix_no_newline "target" (by decide))
      s [','] (by decide)

theorem chalLines_no_newline (c : Challenge) :
    ∀ ln ∈ chalLines c, ∀ y ∈ ln, ¬y = '\n' := by
  intro ln hln
  simp only [chalLines, List.cons_append, List.nil_append, List.mem_cons,
    List.mem_append, List.not_mem_nil, or_false, or_assoc] at hln
  rcases hln with rfl | rfl | rfl | rfl | rfl | rfl | h | h | h | h | rfl | rfl
  · intro y hy he
    subst he
    simp at hy
  · exact strFieldLine_no_newline "author" (fieldPrefix_no_newline "author" (by decide))
      c.author [','] (by decide)
  · exact strFieldLine_no_newline "description"
      (fieldPrefix_no_newline "description" (by decide)) c.description [','] (by decide)
  · exact strFieldLine_no_newline "difficulty"
      (fieldPrefix_no_newline "difficulty" (by decide)) c.difficulty [','] (by decide)
  · exact strFieldLine_no_newline "flag" (fieldPrefix_no_newline "flag" (by decide))
      c.flag [','] (by decide)
  · exact strFieldLine_no_newline "name" (fieldPrefix_no_newline "name" (by decide))
      c.name [','] (by decide)
  · exact intArrField_no_newline "ports" (fieldPrefix_no_newline "ports" (by decide))
      c.ports ln h
  · exact strArrField_no_newline "provides" (fieldPrefix_no_newline "provides" (by decide))
      c.provides ln h
  · exact remoteLines_no_newline c.remote ln h
  · exact targetLines_no_newline c.target ln h
  · intro y hy he
    subst he
    rcases List.mem_append.1 hy with h2 | h2
    · exact fieldPrefix_no_newline "type" (by decide) '\n' h2 rfl
    · exact escStr_no_newline c.type.value '\n' h2 rfl
  · intro y hy he
    subst he
    simp at hy

theorem chalText_split (c : Challenge) :
    splitOnChar '\n' (chalJsonText c).data = chalLines c := by
  rw [show (chalJsonText c).data = renderJson (challengeJson c) 0 from rfl]
  rw [render_chalLines]
  exact splitOnChar_joinSep '\n' (chalLines c) (by simp [chalLines]) (chalLines_no_newline c)

/-- C2: `json.dumps(asdict(challenge), indent=4, sort_keys=True)` written to
`chal.json` round-trips: parsing the serialized text recovers every field of
the original `Challenge` exactly (the `type` enum as its literal string
value, `provides` as a string array, `ports` as an integer array), the
serialization is key-sorted (keys in strictly increasing order), and the
optional `remote`/`target` fields serialize as JSON `null` when absent. -/
theorem chal_json_roundtrip (c : Challenge) :
    parseChalJsonText (chalJsonText c) = some c ∧
    jsonKeys (challengeJson c) = ["author", "description", "difficulty", "flag", "name",
      "ports", "provides", "remote", "target", "type"] ∧
    (jsonKeys (challengeJson c)).Pairwise (fun a b => a < b) ∧
    (c.remote = none → jsonField (challengeJson c) "remote" = some Json.null) ∧
    (c.target = none → jsonField (challengeJson c) "target" = some Json.null) := by
  refine ⟨?_, rfl, ?_, ?_, ?_⟩
  · have h0 := chalText_split c
    simp only [chalLines, List.cons_append, List.nil_append, List.append_assoc] at h0
    simp only [parseChalJsonText, h0, if_true, readStrField_cons, readIntArrField_lines,
      readStrArrField_lines, readRemoteField_lines, readTargetField_lines,
      readTypeField_lines]
  · have h2 : List.Pairwise (fun a b : String => a.data < b.data)
        ["author", "description", "difficulty", "flag", "name", "ports", "provides",
         "remote", "target", "type"] := by decide
    rw [show jsonKeys (challengeJson c) = ["author", "description", "difficulty", "flag",
      "name", "ports", "provides", "remote", "target", "type"] from rfl]
    refine List.Pairwise.imp ?_ h2
    intro a b h
    exact String.lt_iff_toList_lt.2 h
  · intro h
    simp only [challengeJson, jsonField, h]
    rfl
  · intro h
    simp only [challengeJson, jsonField, h]
    rfl

theorem chal_json_roundtrip_witness :
    parseChalJsonText (chalJsonText
        ⟨ChalType.pwn, "chal", "au", "desc", "easy", "fl", ["x"], [1, 31337], none, none⟩) =
      some ⟨ChalType.pwn, "chal", "au", "desc", "easy", "fl", ["x"], [1, 31337], none, none⟩ ∧
    jsonField (challengeJson
        ⟨ChalType.pwn, "chal", "au", "desc", "easy", "fl", ["x"], [1, 31337], none, none⟩)
      "remote" = some Json.null ∧
    jsonField (challengeJson
        ⟨ChalType.pwn, "chal", "au", "desc", "easy", "fl", ["x"], [1, 31337], none, none⟩)
      "target" = some Json.null :=
  ⟨(chal_json_roundtrip _).1, (chal_json_roundtrip _).2.2.2.1 rfl,
   (chal_json_roundtrip _).2.2.2.2 rfl⟩
